import Mathlib

/-!
Shallow embedding of the virtual-memory subsystem in `kernel/vspace.c`.

Conventions of the embedding:
* C `uint64_t` values are `Nat` together with explicit `% 2^64` arithmetic
  (`add64`, `sub64`) at every place where the C computation can wrap.
* The physical allocator (`kalloc`/`kfree`, an external collaborator) is a
  free list of physical page numbers; `kalloc` pops the head and fails on the
  empty list, `kfree` pushes.  Physical memory contents are a total function
  `ppn → offset → byte`.
* Kernel panics (failed `assert`/`assertm`/`panic`) and undefined behaviour
  (the unchecked `memset(NULL)` path in `va2vpage_info`) are explicit `fault`
  outcomes carrying a `Fault` tag.  Loops of the C code that can fail to make
  progress are given a fuel argument; exhausted fuel is the `Fault.spin` tag,
  standing for an execution of the C loop that never reaches its exit.
* The per-page bookkeeping chunks (`struct vpi_page`) are a `List` of
  `Nat → VpageInfo` record arrays (the singly linked chunk list), and a C
  pointer returned by `va2vpage_info` is represented by the flat record index
  it addresses, with reads/writes through the pointer done by `vpiGet`/`vpiSet`.
-/

namespace VSpace

/-- Page size in bytes (`PGSIZE`, standard x86-64 4 KiB pages). -/
def PGSIZE : Nat := 4096

/-- 2^64, the modulus of C `uint64_t` arithmetic. -/
def MOD64 : Nat := 2 ^ 64

/-- Modelled from the spec: the fixed user/kernel split constant `KERNBASE`
(`memlayout.h` is not part of the sources; the spec only requires a fixed
split address below which all user mappings live).  The customary x86-64
higher-half value is used. -/
def KERNBASE : Nat := 0xFFFFFFFF80000000

/-- Modelled from the spec: `VPIPPAGE`, the fixed capacity of one bookkeeping
chunk (`vspace.h` is not part of the sources; the spec only requires chunks of
fixed capacity).  `(PGSIZE - 8) / 16 = 255` records fit in one page. -/
def VPIPPAGE : Nat := 255

/-- Modelled from the spec: x86 page-table-entry permission bit `PTE_P`. -/
def PTE_P : Nat := 1

/-- Modelled from the spec: x86 page-table-entry permission bit `PTE_W`. -/
def PTE_W : Nat := 2

/-- Modelled from the spec: x86 page-table-entry permission bit `PTE_U`. -/
def PTE_U : Nat := 4

/-- Modelled from the spec: the top-level page-table entries `0 ..
PML4_INDEX(SZ_4G)` cleared by `vspaceupdate` are exactly entry 0, which covers
virtual addresses `[0, 2^39)`, i.e. virtual page numbers below `2^27`.
(`PML4_INDEX(x) = (x >> 39) & 0x1ff` and `SZ_4G = 2^32`, whose index is 0.) -/
def UPDATE_CLEAR_VPNS : Nat := 2 ^ 27

/-- `2^32`: the modulus of the C 32-bit `int`'s bit pattern. -/
def MOD32 : Nat := 2 ^ 32

/-- Narrowing a `uint64_t` value to the C 32-bit signed `int` (two's
complement truncation, the behaviour of the target ABI). -/
def int32 (n : Nat) : Int :=
  if n % MOD32 < 2 ^ 31 then Int.ofNat (n % MOD32)
  else Int.ofNat (n % MOD32) - Int.ofNat MOD32

/-- `uint64_t` addition. -/
def add64 (a b : Nat) : Nat := (a + b) % MOD64

/-- `uint64_t` subtraction (callers pass values `< 2^64`). -/
def sub64 (a b : Nat) : Nat := (a + MOD64 - b % MOD64) % MOD64

/-- `PGROUNDUP(a) = ((a) + PGSIZE - 1) & ~(PGSIZE - 1)` with `uint64_t` wrap. -/
def PGROUNDUP (a : Nat) : Nat := add64 a (PGSIZE - 1) / PGSIZE * PGSIZE

/-- `PGROUNDDOWN(a) = (a) & ~(PGSIZE - 1)`. -/
def PGROUNDDOWN (a : Nat) : Nat := a / PGSIZE * PGSIZE

/-- Number of iterations of a C loop `for (a = lo; a < hi; a += PGSIZE)`
(with `lo` page aligned and no wrap inside the loop). -/
def pagecount (lo hi : Nat) : Nat := (hi - lo + PGSIZE - 1) / PGSIZE

/-- One `struct vpage_info` record: `short used, present, writable` (only the
boolean truth value of the shorts is ever consulted) and `uint64 ppn`. -/
structure VpageInfo where
  used : Bool
  present : Bool
  writable : Bool
  ppn : Nat
deriving DecidableEq

/-- The all-zero record: what a freshly `memset` chunk holds, and what
`vregionaddmap`'s failure path resets a record to. -/
def VpageInfo.zero : VpageInfo := ⟨false, false, false, 0⟩

instance : Inhabited VpageInfo := ⟨VpageInfo.zero⟩

/-- The record array of one `struct vpi_page` chunk (indices `< VPIPPAGE`). -/
def Chunk : Type := Nat → VpageInfo

/-- A freshly allocated, zeroed chunk. -/
def zeroChunk : Chunk := fun _ => VpageInfo.zero

/-- Write one record of a chunk. -/
def chunkSet (c : Chunk) (i : Nat) (v : VpageInfo) : Chunk :=
  fun j => if j = i then v else c j

/-- Growth direction of a region (`VRDIR_UP` / `VRDIR_DOWN`). -/
inductive VRDir
  | up
  | down
deriving DecidableEq

/-- `struct vregion`: base address, size in bytes, direction, and the chunk
list of its page-info store (`vr->pages`; the empty list is the NULL pointer). -/
structure VRegion where
  va_base : Nat
  size : Nat
  dir : VRDir
  pages : List Chunk

instance : Inhabited VRegion := ⟨⟨0, 0, VRDir.up, []⟩⟩

/-- External collaborator state: physical allocator free list plus physical
memory contents (`mem ppn off` = the byte at offset `off` of page `ppn`). -/
structure Sys where
  free : List Nat
  mem : Nat → Nat → Nat

/-- `kalloc()`: pop one free page, or fail when exhausted. -/
def kalloc (s : Sys) : Option (Nat × Sys) :=
  match s.free with
  | [] => none
  | p :: rest => some (p, { s with free := rest })

/-- `kfree(p)`: push the page back on the free list. -/
def kfree (p : Nat) (s : Sys) : Sys := { s with free := p :: s.free }

/-- `memset(page, 0, PGSIZE)` on physical page `p`. -/
def memsetMem (p : Nat) (m : Nat → Nat → Nat) : Nat → Nat → Nat :=
  fun q off => if q = p then 0 else m q off

/-- `memset` on a whole `Sys`. -/
def memsetPage (p : Nat) (s : Sys) : Sys := { s with mem := memsetMem p s.mem }

/-- Faults: kernel panics (failed asserts), undefined behaviour, and the
marker for a loop that never reaches its exit within its fuel. -/
inductive Fault
  | memsetNull
  | vpiMissing
  | assertUsed
  | assertMapped
  | assertAligned
  | assertNoSeg
  | assertPos
  | assertBound
  | nullDeref
  | spin
deriving DecidableEq

/-- The `uint64` page-offset index computed inside `va2vpi_idx` before its
`int` return type narrows it (`uint64` arithmetic, then `>> PAGE_SHIFT`). -/
def vpiIdxRaw (r : VRegion) (va : Nat) : Nat :=
  match r.dir with
  | VRDir.up => sub64 va r.va_base / PGSIZE
  | VRDir.down => sub64 (sub64 r.va_base 1) va / PGSIZE

/-- `va2vpi_idx`: flat record index of `va`'s page inside region `r`.  The C
function returns `int`, narrowing the `uint64` page offset to its low 32
bits.  The store walk of `va2vpage_info` compares that `int idx` against the
`sizeof`-typed (unsigned) `VPIPPAGE`, so a negative bit pattern promotes to a
huge `uint64` and the loop keeps going; tracking the unsigned 32-bit pattern
`w`, `idx -= VPIPPAGE` is `w := w - VPIPPAGE` (no 32-bit wrap occurs, since
the loop exits exactly when `w < VPIPPAGE`), so the walk consumes
`w / VPIPPAGE` chunks and lands on record `w % VPIPPAGE`.  The model's index
is therefore that pattern: the flat page offset reduced mod `2^32`. -/
def va2vpi_idx (r : VRegion) (va : Nat) : Nat := vpiIdxRaw r va % MOD32

/-- Read the record at flat index `idx` of a region's store.  A missing chunk
reads as all-zero, matching the spec: an absent chunk and a zeroed chunk are
indistinguishable. -/
def vpiGet (r : VRegion) (idx : Nat) : VpageInfo :=
  match r.pages[idx / VPIPPAGE]? with
  | none => VpageInfo.zero
  | some c => c (idx % VPIPPAGE)

/-- Write through a `va2vpage_info` pointer: update the record at flat index
`idx` (no-op if the chunk does not exist; callers only write after
`va2vpage_info` has grown the chunk). -/
def vpiSet (r : VRegion) (idx : Nat) (v : VpageInfo) : VRegion :=
  { r with pages :=
      match r.pages[idx / VPIPPAGE]? with
      | none => r.pages
      | some c => r.pages.set (idx / VPIPPAGE) (chunkSet c (idx % VPIPPAGE) v) }

/-- Grow freshly zeroed chunks from the allocator, as the `info->next`
branch of `va2vpage_info`'s walk does once it runs off the existing list:
each new chunk consumes one physical page which is `memset` to zero.  The
returned `Bool` is false when the allocator ran out; chunks allocated before
the failure are kept (the C code has already linked them). -/
def allocChunks (depth : Nat) (free : List Nat) (m : Nat → Nat → Nat) :
    List Chunk × List Nat × (Nat → Nat → Nat) × Bool :=
  if depth = 0 then ([], free, m, true)
  else
    match free with
    | [] => ([], [], m, false)
    | p :: rest =>
      let r := allocChunks (depth - 1) rest (memsetMem p m)
      (zeroChunk :: r.1, r.2.1, r.2.2.1, r.2.2.2)

/-- The `while (idx >= VPIPPAGE)` walk of `va2vpage_info`, starting from the
first chunk `c`: follow `depth` links, allocating missing chunks.  Returns the
(possibly grown) chunk list, the new system state, and whether the walk
reached its target chunk. -/
def walkChunks (c : Chunk) (rest : List Chunk) (depth : Nat) (s : Sys) :
    List Chunk × Sys × Bool :=
  if depth = 0 then (c :: rest, s, true)
  else
    match rest with
    | c2 :: rest2 =>
      let r := walkChunks c2 rest2 (depth - 1) s
      (c :: r.1, r.2.1, r.2.2)
    | [] =>
      let r := allocChunks depth s.free s.mem
      (c :: r.1, ⟨r.2.1, r.2.2.1⟩, r.2.2.2)

/-- Result of `va2vpage_info`: a pointer (flat record index) on success, the
NULL return on a failed `info->next` allocation (with the chunk growth that
already happened retained), or the undefined-behaviour fault of the unchecked
first allocation (`vr->pages = kalloc(); memset(vr->pages, 0, PGSIZE)` with a
NULL result). -/
inductive LRes
  | ok (idx : Nat) (r : VRegion) (s : Sys)
  | fail (r : VRegion) (s : Sys)
  | fault

/-- Package a finished walk as the `va2vpage_info` return: the pointer on a
successful walk, NULL on a failed one, the grown store kept either way. -/
def locateRes (r : VRegion) (idx : Nat) (w : List Chunk × Sys × Bool) : LRes :=
  if w.2.2 then LRes.ok idx { r with pages := w.1 } w.2.1
  else LRes.fail { r with pages := w.1 } w.2.1

/-- `va2vpage_info(vr, va)`. -/
def va2vpage_info (r : VRegion) (va : Nat) (s : Sys) : LRes :=
  match r.pages with
  | [] =>
    match s.free with
    | [] => LRes.fault
    | p :: rest =>
      locateRes r (va2vpi_idx r va)
        (walkChunks zeroChunk [] (va2vpi_idx r va / VPIPPAGE) ⟨rest, memsetMem p s.mem⟩)
  | c :: cs =>
    locateRes r (va2vpi_idx r va) (walkChunks c cs (va2vpi_idx r va / VPIPPAGE) s)

/-- Result of `vregionaddmap`: the C `int` return (`(int)sz`, i.e.
`int32 sz`, on success — `return sz` narrows the `uint64` count to 32-bit
`int` — and `-1` on failure) together with the mutated region and system
state, or a fault. -/
inductive AR
  | ret (code : Int) (r : VRegion) (s : Sys)
  | fault (f : Fault)

/-- The failure path of `vregionaddmap`:
`for (a -= PGSIZE; a >= PGROUNDUP(from_va); a -= PGSIZE)` releasing each page
mapped by this call and zeroing its record.  `a >= stop` on `uint64` values is
always true when `stop = 0`, so the decrement wraps past zero and the loop
only leaves via a fault; fuel bounds the iterations we model, `Fault.spin`
standing for a C execution that never reaches the loop exit. -/
def addmapRollback : Nat → VRegion → Nat → Nat → Sys → AR
  | 0, _, _, _, _ => AR.fault Fault.spin
  | f + 1, r, a, stop, s =>
    if stop ≤ a then
      match va2vpage_info r a s with
      | LRes.ok idx r1 s1 =>
        addmapRollback f (vpiSet r1 idx VpageInfo.zero) (sub64 a PGSIZE) stop
          (kfree (vpiGet r1 idx).ppn s1)
      | LRes.fail _ _ => AR.fault Fault.vpiMissing
      | LRes.fault => AR.fault Fault.memsetNull
    else AR.ret (-1) r s

/-- The allocation loop of `vregionaddmap`, `n` pages starting at `a`
(`a = PGROUNDUP(from_va)` initially, stepping by `PGSIZE`; inside the loop
`a` never wraps because `a < from_va + sz < KERNBASE` in `uint64`).  On an
already-used record the `assert(!vpi->used)` fires; on a chunk- or
page-allocation failure the rollback loop runs from the previous page. -/
def addmapLoop (pres wr : Bool) (a0 sz : Nat) : Nat → Nat → VRegion → Sys → AR
  | 0, _, r, s => AR.ret (int32 sz) r s
  | n + 1, a, r, s =>
    match va2vpage_info r a s with
    | LRes.fault => AR.fault Fault.memsetNull
    | LRes.fail r1 s1 => addmapRollback MOD64 r1 (sub64 a PGSIZE) a0 s1
    | LRes.ok idx r1 s1 =>
      if (vpiGet r1 idx).used then AR.fault Fault.assertUsed
      else
        match kalloc s1 with
        | none => addmapRollback MOD64 r1 (sub64 a PGSIZE) a0 s1
        | some (p, s2) =>
          addmapLoop pres wr a0 sz n (a + PGSIZE)
            (vpiSet r1 idx ⟨true, pres, wr, p⟩) (memsetPage p s2)

/-- `vregionaddmap(vr, from_va, sz, present, writable)`.  The two guards are
in C order: the `uint64` sum `sz + from_va` against `KERNBASE` first, then
`sz <= 0` (on the unsigned `sz`, equivalent to `sz == 0`). -/
def vregionaddmap (r : VRegion) (from_va sz : Nat) (pres wr : Bool) (s : Sys) : AR :=
  if KERNBASE ≤ add64 sz from_va then AR.ret (-1) r s
  else if sz = 0 then AR.ret 0 r s
  else
    addmapLoop pres wr (PGROUNDUP from_va) sz
      (pagecount (PGROUNDUP from_va) (add64 from_va sz)) (PGROUNDUP from_va) r s

/-- Modelled from the spec: `VRTOP(vr)` (the macro lives in the missing
`vspace.h`; the spec fixes the extents as `[base, base+size)` for UP and
`[base-size, base)` for DOWN regions, with `uint64` arithmetic). -/
def VRTOP (r : VRegion) : Nat :=
  match r.dir with
  | VRDir.up => add64 r.va_base r.size
  | VRDir.down => r.va_base

/-- Modelled from the spec: `VRBOT(vr)`, see `VRTOP`. -/
def VRBOT (r : VRegion) : Nat :=
  match r.dir with
  | VRDir.up => r.va_base
  | VRDir.down => sub64 r.va_base r.size

/-- `vregioncontains(vr, va, size)`; `size` is a non-negative C `int` here
(claims only concern `size >= 0`), and `va + size` is the `uint64` sum. -/
def vregioncontains (r : VRegion) (va : Nat) (size : Nat) : Bool :=
  if size = 0 && va == VRTOP r then false
  else decide (VRBOT r ≤ va) && decide (add64 va size ≤ VRTOP r)

/-- An installed hardware mapping: target physical page number and x86
permission bits.  The multi-level tree (an external collaborator, built by
`walkpml4`/`mappages`) is modelled by its translation: a partial map from
virtual page number to entry. -/
def PTbl : Type := Nat → Option (Nat × Nat)

/-- `struct vspace`: the fixed region array (`VR_CODE`, `VR_HEAP`,
`VR_USTACK`, in scan order) plus the hardware tree handle. -/
structure VSpaceT where
  code : VRegion
  heap : VRegion
  ustack : VRegion
  pgtbl : PTbl

/-- The regions of an address space in the order `va2vregion` scans them. -/
def VSpaceT.rlist (vs : VSpaceT) : List VRegion := [vs.code, vs.heap, vs.ustack]

/-- Region by array index. -/
def getR (vs : VSpaceT) (i : Nat) : VRegion :=
  if i = 0 then vs.code else if i = 1 then vs.heap else vs.ustack

/-- Replace the region at array index `i`. -/
def setR (vs : VSpaceT) (i : Nat) (r : VRegion) : VSpaceT :=
  if i = 0 then { vs with code := r }
  else if i = 1 then { vs with heap := r }
  else { vs with ustack := r }

/-- `x86perms(vpi)`: `PTE_U` always, `PTE_P` iff present, `PTE_W` iff
writable (the bits are distinct powers of two, so `+` is the C `|`). -/
def x86perms (v : VpageInfo) : Nat :=
  PTE_U + (if v.present then PTE_P else 0) + (if v.writable then PTE_W else 0)

/-- Whether `va` lies in region `r` by `va2vregion`'s test (`uint64`
arithmetic on both bounds). -/
def inRegion (r : VRegion) (va : Nat) : Bool :=
  match r.dir with
  | VRDir.up => decide (r.va_base ≤ va) && decide (va < add64 r.va_base r.size)
  | VRDir.down => decide (sub64 r.va_base r.size ≤ va) && decide (va < r.va_base)

/-- `va2vregion(vs, va)`: index of the first region containing `va`, or none. -/
def va2vregionIdx (vs : VSpaceT) (va : Nat) : Option Nat :=
  if inRegion vs.code va then some 0
  else if inRegion vs.heap va then some 1
  else if inRegion vs.ustack va then some 2
  else none

/-- The first phase of `vspaceupdate`: free the user sub-trees hanging off
top-level entries `0 .. PML4_INDEX(SZ_4G)` and zero those entries.  In the
flat translation map this removes every entry whose virtual page number lies
below `UPDATE_CLEAR_VPNS` (an absent top-level entry has no sub-tree and hence
contributed no entries, so clearing unconditionally is observationally the
same as the C presence test). -/
def clearUser (t : PTbl) : PTbl :=
  fun vpn => if vpn < UPDATE_CLEAR_VPNS then none else t vpn

/-- `mappages(pgtbl, vpn, 1, ppn, perms, 0)` as a map insertion. -/
def mappages (t : PTbl) (vpn ppn perms : Nat) : PTbl :=
  fun v => if v = vpn then some (ppn, perms) else t v

/-- Intermediate result of rebuilding one region's mappings. -/
inductive RStep
  | ok (r : VRegion) (t : PTbl) (s : Sys)
  | fault (f : Fault)

/-- The per-region page loop of `vspaceupdate`: `n` pages starting at `a`;
a NULL `va2vpage_info` result is dereferenced unchecked (`vpi->used`), which
is the `nullDeref` fault.  Used records are installed, holes are skipped. -/
def updatePages : Nat → Nat → VRegion → PTbl → Sys → RStep
  | 0, _, r, t, s => RStep.ok r t s
  | n + 1, a, r, t, s =>
    match va2vpage_info r a s with
    | LRes.fault => RStep.fault Fault.memsetNull
    | LRes.fail _ _ => RStep.fault Fault.nullDeref
    | LRes.ok idx r1 s1 =>
      if (vpiGet r1 idx).used then
        updatePages n (a + PGSIZE) r1
          (mappages t (a / PGSIZE) (vpiGet r1 idx).ppn (x86perms (vpiGet r1 idx))) s1
      else updatePages n (a + PGSIZE) r1 t s1

/-- One region of `vspaceupdate`'s rebuild loop, including the
`assert(start % PGSIZE == 0)` on `VRBOT`. -/
def updateRegion (r : VRegion) (t : PTbl) (s : Sys) : RStep :=
  if VRBOT r % PGSIZE = 0 then
    updatePages (pagecount (VRBOT r) (VRTOP r)) (VRBOT r) r t s
  else RStep.fault Fault.assertAligned

/-- Result of `vspaceupdate`. -/
inductive UR
  | ok (vs : VSpaceT) (s : Sys)
  | fault (f : Fault)

/-- `vspaceupdate(vs)`: clear the user range of the hardware tree, then
re-install every `used` page of every region. -/
def vspaceupdate (vs : VSpaceT) (s : Sys) : UR :=
  match updateRegion vs.code (clearUser vs.pgtbl) s with
  | RStep.fault f => UR.fault f
  | RStep.ok c1 t1 s1 =>
    match updateRegion vs.heap t1 s1 with
    | RStep.fault f => UR.fault f
    | RStep.ok h1 t2 s2 =>
      match updateRegion vs.ustack t2 s2 with
      | RStep.fault f => UR.fault f
      | RStep.ok u1 t3 s3 => UR.ok ⟨c1, h1, u1, t3⟩ s3

/-- The `for (i = 0; i < VPIPPAGE; i++)` record loop of `copy_vpi_page` on
one chunk: `fuel` counts remaining records, `i` is the current index.  For
each used source record the flags are copied, a fresh page is acquired
(failure aborts, keeping what was built) and the whole page's bytes are
copied from the source's backing page. -/
def copyChunkRecs (src : Chunk) : Chunk → Nat → Nat → Sys → Chunk × Sys × Bool
  | acc, _, 0, s => (acc, s, true)
  | acc, i, fuel + 1, s =>
    if (src i).used then
      match s.free with
      | [] => (chunkSet acc i ⟨true, (src i).present, (src i).writable, 0⟩, s, false)
      | p :: rest =>
        copyChunkRecs src
          (chunkSet acc i ⟨true, (src i).present, (src i).writable, p⟩) (i + 1) fuel
          ⟨rest, fun q o => if q = p then s.mem (src i).ppn o else s.mem q o⟩
    else copyChunkRecs src acc (i + 1) fuel s

/-- `copy_vpi_page(dst, src)`: deep-copy the chunk list.  A failed chunk
allocation yields `*dst = 0` (empty tail); a failed page allocation keeps the
partially filled chunk (the C code has already linked it). -/
def copy_vpi_page : List Chunk → Sys → List Chunk × Sys × Bool
  | [], s => ([], s, true)
  | c :: cs, s =>
    match s.free with
    | [] => ([], s, false)
    | p :: rest =>
      let r := copyChunkRecs c zeroChunk 0 VPIPPAGE ⟨rest, memsetMem p s.mem⟩
      if r.2.2 then
        let t := copy_vpi_page cs r.2.1
        (r.1 :: t.1, t.2.1, t.2.2)
      else (r.1 :: [], r.2.1, false)

/-- Deep-copy one region's store (metadata was already copied verbatim by the
`memmove` of the region array). -/
def copyRegion (r : VRegion) (s : Sys) : VRegion × Sys × Bool :=
  let t := copy_vpi_page r.pages s
  ({ r with pages := t.1 }, t.2.1, t.2.2)

/-- Result of `vspacecopy`. -/
inductive CR
  | ret (code : Int) (vs : VSpaceT) (s : Sys) | fault (f : Fault)

/-- `vspacecopy(dst, src)`: `memmove` the region array (so `dst` starts out
sharing `src`'s chunk pointers and metadata), deep-copy each region's chunks
in order, then rebuild `dst`'s hardware tree (`dst`'s own `pgtbl`, passed in
as `dstT`).  A copy failure returns `-1` leaving the partial state. -/
def vspacecopy (dstT : PTbl) (src : VSpaceT) (s : Sys) : CR :=
  let c := copyRegion src.code s
  if c.2.2 then
    let h := copyRegion src.heap c.2.1
    if h.2.2 then
      let u := copyRegion src.ustack h.2.1
      if u.2.2 then
        match vspaceupdate ⟨c.1, h.1, u.1, dstT⟩ u.2.1 with
        | UR.ok vs1 s1 => CR.ret 0 vs1 s1
        | UR.fault f => CR.fault f
      else CR.ret (-1) ⟨c.1, h.1, u.1, dstT⟩ u.2.1
    else CR.ret (-1) ⟨c.1, h.1, src.ustack, dstT⟩ h.2.1
  else CR.ret (-1) ⟨c.1, src.heap, src.ustack, dstT⟩ c.2.1

/-- Result of `vspacewritetova`. -/
inductive WR
  | ret (code : Int) (vs : VSpaceT) (s : Sys)
  | fault (f : Fault)

/-- `memmove(P2V(ppn << PT_SHIFT) + pageOff, data + dOff, n)`. -/
def writeBytes (ppn pageOff : Nat) (data : Nat → Nat) (dOff n : Nat) (s : Sys) : Sys :=
  { s with mem := fun q o =>
      if q = ppn ∧ pageOff ≤ o ∧ o < pageOff + n then data (dOff + (o - pageOff))
      else s.mem q o }

/-- The `while (va < stop)` loop of `vspacewritetova`.  Each iteration writes
`wsz = min(PGROUNDUP(va) - va, szLeft)` bytes (note: zero when `va` is page
aligned, so an iteration whose checks pass at an aligned `va` makes no
progress — the C loop then never exits, which fuel exhaustion models as
`Fault.spin`).  Checks in C order: containing region, `assert(vpi->used)`,
writability. -/
def writeLoop (data : Nat → Nat) (stop : Nat) :
    Nat → Nat → Nat → Nat → VSpaceT → Sys → WR
  | 0, _, _, _, _, _ => WR.fault Fault.spin
  | fuel + 1, va, dOff, szLeft, vs, s =>
    if va < stop then
      match va2vregionIdx vs va with
      | none => WR.ret (-1) vs s
      | some i =>
        match va2vpage_info (getR vs i) va s with
        | LRes.fault => WR.fault Fault.memsetNull
        | LRes.fail _ _ => WR.fault Fault.nullDeref
        | LRes.ok idx r1 s1 =>
          if (vpiGet r1 idx).used then
            if (vpiGet r1 idx).writable then
              writeLoop data stop fuel (va + min (PGROUNDUP va - va) szLeft)
                (dOff + min (PGROUNDUP va - va) szLeft)
                (szLeft - min (PGROUNDUP va - va) szLeft) (setR vs i r1)
                (writeBytes (vpiGet r1 idx).ppn (va % PGSIZE) data dOff
                  (min (PGROUNDUP va - va) szLeft) s1)
            else WR.ret (-1) (setR vs i r1) s1
          else WR.fault Fault.assertMapped
    else WR.ret 0 vs s

/-- `vspacewritetova(vs, va, data, sz)`: asserts `sz > 0` and that the
`uint64` sum `va + sz` stays below `KERNBASE`, then copies chunk by chunk.
(`sz` is a C `int`; claims only concern `sz > 0`, so it is a `Nat` here.)
Fuel `sz + 1` covers every terminating execution of the C loop, since every
iteration that continues past an aligned page start makes no progress at all. -/
def vspacewritetova (vs : VSpaceT) (va : Nat) (data : Nat → Nat) (sz : Nat) (s : Sys) : WR :=
  if sz = 0 then WR.fault Fault.assertPos
  else if KERNBASE ≤ add64 va sz then WR.fault Fault.assertBound
  else writeLoop data (add64 va sz) (sz + 1) va 0 sz vs s

/-- `ELF_MAGIC`. -/
def ELF_MAGIC : Nat := 0x464C457F

/-- Loadable-segment type tag `ELF_PROG_LOAD`. -/
def ELF_PROG_LOAD : Nat := 1

/-- Write-permission flag bit `ELF_PROG_FLAG_WRITE`. -/
def ELF_PROG_FLAG_WRITE : Nat := 2

/-- One program-header entry (`struct proghdr`, the fields `vspaceloadcode`
consults). -/
structure ProgHdr where
  type : Nat
  flags : Nat
  off : Nat
  vaddr : Nat
  filesz : Nat
  memsz : Nat

/-- Modelled from the spec: the opened executable as the file reader (an
external collaborator) presents it — a validated header's magic number,
entry point and program-header list, plus random-access byte contents of
`size` bytes.  `readi` of a range past `size` is a short read. -/
structure ElfFile where
  magic : Nat
  entry : Nat
  phs : List ProgHdr
  size : Nat
  byte : Nat → Nat

/-- Result of `vrloaddata`/`vradddata`-style region loads. -/
inductive LR
  | ret (code : Int) (r : VRegion) (s : Sys)
  | fault (f : Fault)

/-- `readi(ip, P2V(ppn << PT_SHIFT), fileOff, n)`'s copy into page `ppn`. -/
def readiCopy (file : ElfFile) (ppn fileOff n : Nat) (s : Sys) : Sys :=
  { s with mem := fun q o =>
      if q = ppn ∧ o < n then file.byte (fileOff + o) else s.mem q o }

/-- The page loop of `vrloaddata`: `n` pages, `i` the current byte offset.
Each page must already be mapped (`assertm(vpi->used, ...)`); a short read
returns `-1` with no rollback. -/
def loaddataLoop (file : ElfFile) (vaBase off sz : Nat) :
    Nat → Nat → VRegion → Sys → LR
  | 0, _, r, s => LR.ret 0 r s
  | n + 1, i, r, s =>
    match va2vpage_info r (vaBase + i) s with
    | LRes.fault => LR.fault Fault.memsetNull
    | LRes.fail _ _ => LR.fault Fault.nullDeref
    | LRes.ok idx r1 s1 =>
      if (vpiGet r1 idx).used then
        if off + i + min (sz - i) PGSIZE ≤ file.size then
          loaddataLoop file vaBase off sz n (i + PGSIZE) r1
            (readiCopy file (vpiGet r1 idx).ppn (off + i) (min (sz - i) PGSIZE) s1)
        else LR.ret (-1) r1 s1
      else LR.fault Fault.assertMapped

/-- `vrloaddata(r, va, ip, offset, sz)`: `va` must be page aligned. -/
def vrloaddata (r : VRegion) (va : Nat) (file : ElfFile) (off sz : Nat) (s : Sys) : LR :=
  if va % PGSIZE = 0 then loaddataLoop file va off sz (pagecount 0 sz) 0 r s
  else LR.fault Fault.assertAligned

/-- Result of `vspaceloadcode`: the C `int` return (0 on every failure, the
last segment's `vregionaddmap` count on success), the entry point written to
`*rip` (only on success), and the mutated address space and system state. -/
inductive LC
  | ret (code : Int) (rip : Option Nat) (vs : VSpaceT) (s : Sys)
  | fault (f : Fault)

/-- The program-header loop of `vspaceloadcode` plus the epilogue that fixes
the code region's size and positions the heap.  `first` is `first_section`,
`code_end` and `sz` the accumulators of the C code. -/
def loadSegs (file : ElfFile) :
    List ProgHdr → Bool → Nat → Int → VSpaceT → Sys → LC
  | [], first, code_end, sz, vs, s =>
    if first then LC.fault Fault.assertNoSeg
    else
      LC.ret sz (some file.entry)
        { vs with
          code := { vs.code with size := sub64 code_end vs.code.va_base },
          heap := { vs.heap with va_base := add64 (PGROUNDUP code_end) PGSIZE, size := 0 } }
        s
  | ph :: rest, first, code_end, sz, vs, s =>
    if ph.type ≠ ELF_PROG_LOAD then loadSegs file rest first code_end sz vs s
    else if ph.memsz < ph.filesz then LC.ret 0 none vs s
    else if add64 ph.vaddr ph.memsz < ph.vaddr then LC.ret 0 none vs s
    else
      let vs1 :=
        if first then { vs with code := { vs.code with va_base := PGROUNDDOWN ph.vaddr } }
        else vs
      match vregionaddmap vs1.code ph.vaddr ph.memsz true
          (decide (ph.flags &&& ELF_PROG_FLAG_WRITE ≠ 0)) s with
      | AR.fault f => LC.fault f
      | AR.ret c r1 s1 =>
        if c < 0 then LC.ret 0 none { vs1 with code := r1 } s1
        else if ph.vaddr % PGSIZE ≠ 0 then LC.ret 0 none { vs1 with code := r1 } s1
        else
          match vrloaddata r1 ph.vaddr file ph.off ph.filesz s1 with
          | LR.fault f => LC.fault f
          | LR.ret lc r2 s2 =>
            if lc < 0 then LC.ret 0 none { vs1 with code := r2 } s2
            else loadSegs file rest false (add64 ph.vaddr ph.memsz) c
              { vs1 with code := r2 } s2

/-- `vspaceloadcode(vs, path, rip)`: `none` stands for a failed `namei`
(returns 0); the header read and magic check come first, then the
program-header loop. -/
def vspaceloadcode (vs : VSpaceT) (f : Option ElfFile) (s : Sys) : LC :=
  match f with
  | none => LC.ret 0 none vs s
  | some file =>
    if file.magic = ELF_MAGIC then loadSegs file file.phs true 0 0 vs s
    else LC.ret 0 none vs s

instance : Inhabited Sys := ⟨⟨[], fun _ _ => 0⟩⟩

instance : Inhabited VSpaceT := ⟨⟨default, default, default, fun _ => none⟩⟩

/-- The `int` return of `vregionaddmap`, `none` when it faulted. -/
def AR.code : AR → Option Int
  | AR.ret c _ _ => some c
  | AR.fault _ => none

/-- The region state `vregionaddmap` returned (junk on a fault). -/
def AR.reg : AR → VRegion
  | AR.ret _ r _ => r
  | AR.fault _ => default

/-- The system state `vregionaddmap` returned (junk on a fault). -/
def AR.sys : AR → Sys
  | AR.ret _ _ s => s
  | AR.fault _ => default

/-- The fault a `vregionaddmap` call hit, if any. -/
def AR.faultTag : AR → Option Fault
  | AR.ret _ _ _ => none
  | AR.fault f => some f

/-- The `int` return of `vspaceloadcode`, `none` when it faulted. -/
def LC.code : LC → Option Int
  | LC.ret c _ _ _ => some c
  | LC.fault _ => none

/-- The entry point `vspaceloadcode` stored through `rip`, if any. -/
def LC.ripOf : LC → Option Nat
  | LC.ret _ rip _ _ => rip
  | LC.fault _ => none

/-- The address space `vspaceloadcode` returned (junk on a fault). -/
def LC.vsOf : LC → VSpaceT
  | LC.ret _ _ vs _ => vs
  | LC.fault _ => default

/-- The `int` return of `vspacewritetova`, `none` when it faulted. -/
def WR.code : WR → Option Int
  | WR.ret c _ _ => c
  | WR.fault _ => none

/-- The address space `vspacewritetova` returned (junk on a fault). -/
def WR.vsOf : WR → VSpaceT
  | WR.ret _ vs _ => vs
  | WR.fault _ => default

/-- The system state `vspacewritetova` returned (junk on a fault). -/
def WR.sysOf : WR → Sys
  | WR.ret _ _ s => s
  | WR.fault _ => default

/-- The `int` return of `vspacecopy`, `none` when it faulted. -/
def CR.code : CR → Option Int
  | CR.ret c _ _ => some c
  | CR.fault _ => none

/-- The address space `vspacecopy` returned (junk on a fault). -/
def CR.vsOf : CR → VSpaceT
  | CR.ret _ vs _ => vs
  | CR.fault _ => default

/-- The system state `vspacecopy` returned (junk on a fault). -/
def CR.sysOf : CR → Sys
  | CR.ret _ _ s => s
  | CR.fault _ => default

/-- Whether `vspaceupdate` completed without a fault. -/
def UR.isOk : UR → Bool
  | UR.ok _ _ => true
  | UR.fault _ => false

/-- The address space `vspaceupdate` returned (junk on a fault). -/
def UR.vsOf : UR → VSpaceT
  | UR.ok vs _ => vs
  | UR.fault _ => default

/-- The system state `vspaceupdate` returned (junk on a fault). -/
def UR.sysOf : UR → Sys
  | UR.ok _ s => s
  | UR.fault _ => default

/-- The byte at `va` lands in some region whose page is mapped and writable —
the condition `vspacewritetova` checks page by page. -/
def pageOKb (vs : VSpaceT) (va : Nat) : Bool :=
  match va2vregionIdx vs va with
  | none => false
  | some i =>
    (vpiGet (getR vs i) (va2vpi_idx (getR vs i) va)).used &&
      (vpiGet (getR vs i) (va2vpi_idx (getR vs i) va)).writable

/-- The condition under which `vspacewritetova` returns `-1` at `va`: no
region contains it, or its page is mapped but not writable. -/
def writeFailsAt (vs : VSpaceT) (va : Nat) : Bool :=
  match va2vregionIdx vs va with
  | none => true
  | some i =>
    (vpiGet (getR vs i) (va2vpi_idx (getR vs i) va)).used &&
      !(vpiGet (getR vs i) (va2vpi_idx (getR vs i) va)).writable

/-- The chunk holding flat record index `idx` exists in `r`'s store. -/
def chunkFor (r : VRegion) (idx : Nat) : Prop := idx / VPIPPAGE < r.pages.length

/-- Physical location (page number, in-page offset) that a write to `va`
through `vs`'s bookkeeping lands on, if any region claims `va`. -/
def byteTarget (vs : VSpaceT) (va : Nat) : Option (Nat × Nat) :=
  match va2vregionIdx vs va with
  | none => none
  | some i => some ((vpiGet (getR vs i) (va2vpi_idx (getR vs i) va)).ppn, va % PGSIZE)

/-- Concrete inputs reused by several checks below. -/
def memZero : Nat → Nat → Nat := fun _ _ => 0

/-- An exhausted allocator over zeroed memory. -/
def sysEmpty : Sys := ⟨[], memZero⟩

/-- An all-zero source buffer for write calls. -/
def memZeroData : Nat → Nat := fun _ => 0

/-- A freshly initialized address space as `vspaceinit` leaves it: zeroed
regions with the `VR_CODE`/`VR_HEAP` up, `VR_USTACK` down directions, and an
empty user translation. -/
def initVs : VSpaceT :=
  ⟨⟨0, 0, VRDir.up, []⟩, ⟨0, 0, VRDir.up, []⟩, ⟨0, 0, VRDir.down, []⟩, fun _ => none⟩

/-- The two-segment executable of the C5 scenario: segment A at `0x10000`
(file size `0x100`, memory size `0x1000`, read-only), segment B at `0x11000`
(file size `0x50`, memory size `0x50`, writable). -/
def c5file : ElfFile :=
  ⟨ELF_MAGIC, 0x10000,
    [⟨1, 0, 0x1000, 0x10000, 0x100, 0x1000⟩, ⟨1, 2, 0x2000, 0x11000, 0x50, 0x50⟩],
    0x3000, fun n => n % 251⟩

/-- An allocator with three pages, enough for the C5 load (one bookkeeping
chunk plus one backing page per segment). -/
def c5sys : Sys := ⟨[1, 2, 3], memZero⟩

/-- A region whose second page is already mapped (for C8). -/
def c8r : VRegion := ⟨0x1000, 0, VRDir.up, [chunkSet zeroChunk 1 ⟨true, true, true, 9⟩]⟩

/-- A region whose first page is already mapped (for the C8 witness). -/
def c8r1 : VRegion := ⟨0x1000, 0, VRDir.up, [chunkSet zeroChunk 0 ⟨true, true, true, 9⟩]⟩

/-- A user translation with a stale present entry at 512 GiB (vpn `2^27`),
i.e. just beyond the range `vspaceupdate` clears (for C1). -/
def c1staleT : PTbl := fun vpn => if vpn = 2 ^ 27 then some (0, PTE_U + PTE_P) else none

/-- An address space whose code region sits at 512 GiB over the stale
translation `c1staleT` with an unmapped page there (for C1). -/
def c1vs : VSpaceT :=
  ⟨⟨2 ^ 39, 0x1000, VRDir.up, []⟩, ⟨0, 0, VRDir.up, []⟩, ⟨0, 0, VRDir.down, []⟩, c1staleT⟩

/-- A fresh region at `0x1000` (for the C2/C3/C8 witnesses). -/
def c2reg : VRegion := ⟨0x1000, 0, VRDir.up, []⟩

/-- A two-page allocator (C2 witness: the chunk and the first page succeed,
the second page's allocation fails). -/
def c2sys : Sys := ⟨[7, 8], memZero⟩

/-- A three-page allocator (C3 witness: chunk plus two data pages). -/
def c3sys : Sys := ⟨[5, 6, 7], memZero⟩

/-- C4 counterexample: the claim says every call with `sz <= 0` is a no-op
returning 0, but the `KERNBASE` guard runs first: `vregionaddmap` with
`from_va = KERNBASE` and `sz = 0` returns `-1`, not 0. -/
theorem c4_counterexample :
    AR.code (vregionaddmap ⟨0, 0, VRDir.up, []⟩ KERNBASE 0 true true sysEmpty) ≠
        some 0 ∧
      AR.code (vregionaddmap ⟨0, 0, VRDir.up, []⟩ KERNBASE 0 true true sysEmpty) =
        some (-1) := by
  exact ⟨by decide, by decide⟩

/-- C4 (amended): if the `uint64` sum `sz + from_va` reaches `KERNBASE` the
call fails with `-1` leaving region and system state untouched; if that sum
stays below `KERNBASE` and `sz = 0` (the only `uint64` value with `sz <= 0`),
the call is a no-op returning 0. -/
theorem c4_boundary_and_zero (r : VRegion) (from_va sz : Nat) (pres wr : Bool) (s : Sys) :
    (KERNBASE ≤ add64 sz from_va →
      vregionaddmap r from_va sz pres wr s = AR.ret (-1) r s) ∧
    (add64 sz from_va < KERNBASE → sz = 0 →
      vregionaddmap r from_va sz pres wr s = AR.ret 0 r s) := by
  constructor
  · intro h
    unfold vregionaddmap
    rw [if_pos h]
  · intro h1 h2
    unfold vregionaddmap
    rw [if_neg (Nat.not_le.mpr h1), if_pos h2]

/-- Witness for C4: both branches at concrete inputs. -/
theorem c4_boundary_and_zero_witness :
    vregionaddmap ⟨0, 0, VRDir.up, []⟩ KERNBASE 0 true true sysEmpty =
        AR.ret (-1) ⟨0, 0, VRDir.up, []⟩ sysEmpty ∧
      vregionaddmap ⟨0, 0, VRDir.up, []⟩ 0x1000 0 true true sysEmpty =
        AR.ret 0 ⟨0, 0, VRDir.up, []⟩ sysEmpty :=
  ⟨(c4_boundary_and_zero _ _ _ _ _ _).1 (by decide),
    (c4_boundary_and_zero _ _ _ _ _ _).2 (by decide) rfl⟩

/-- C7: the code, not the claim, is wrong.  `va2vpage_info` on a region with
no chunk list yet (`vr->pages == NULL`) and an exhausted allocator does not
report the allocation failure: the C code assigns the NULL `kalloc` result
and passes it to `memset`, which is the undefined-behaviour fault the model
returns, instead of the claimed null/failure result. -/
theorem c7_lookup_crash :
    va2vpage_info ⟨0x1000, 0x1000, VRDir.up, []⟩ 0x1000 sysEmpty = LRes.fault := rfl

/-- C9 counterexample: with `uint64` wraparound the claimed equivalence for
`sz > 0` fails: the region `[0x10000, 0x11000)` "contains" the 8-byte range
starting at `2^64 - 4`, though that range does not lie within the extent. -/
theorem c9_counterexample :
    vregioncontains ⟨0x10000, 0x1000, VRDir.up, []⟩ (2 ^ 64 - 4) 8 = true ∧
      ¬(2 ^ 64 - 4 + 8 ≤ VRTOP ⟨0x10000, 0x1000, VRDir.up, []⟩) := by
  exact ⟨by decide, by decide⟩

/-- C9 (amended): `vregioncontains(r, va, 0)` is true exactly for addresses
strictly inside `[VRBOT, VRTOP)` (so false at `VRTOP` itself); for `sz > 0`
and `va + sz` not overflowing 64 bits, it is true iff `[va, va+sz)` lies
within `[VRBOT, VRTOP]`, i.e. `VRBOT ≤ va` and `va + sz ≤ VRTOP`.  (When
`va + sz` overflows, the code compares the wrapped sum, see the
counterexample.) -/
theorem c9_contains_spec (r : VRegion) (va sz : Nat) :
    (va < MOD64 →
      (vregioncontains r va 0 = true ↔ VRBOT r ≤ va ∧ va < VRTOP r)) ∧
    (0 < sz → va + sz < MOD64 →
      (vregioncontains r va sz = true ↔ VRBOT r ≤ va ∧ va + sz ≤ VRTOP r)) := by
  constructor
  · intro hva
    have h0 : add64 va 0 = va := by
      simp [add64, Nat.mod_eq_of_lt hva]
    by_cases h : va = VRTOP r
    · simp [vregioncontains, h]
    · simp [vregioncontains, h, h0]
      intro _
      omega
  · intro hsz hov
    have hne : ¬sz = 0 := by omega
    have h64 : add64 va sz = va + sz := by
      simp [add64, Nat.mod_eq_of_lt hov]
    simp [vregioncontains, hne, h64]

/-- Witness for C9: the size-0 boundary and interior cases and a positive-size
case on the region `[0x1000, 0x3000)`. -/
theorem c9_contains_spec_witness :
    (vregioncontains ⟨0x1000, 0x2000, VRDir.up, []⟩ 0x3000 0 = true ↔
      VRBOT ⟨0x1000, 0x2000, VRDir.up, []⟩ ≤ 0x3000 ∧
        0x3000 < VRTOP ⟨0x1000, 0x2000, VRDir.up, []⟩) ∧
    (vregioncontains ⟨0x1000, 0x2000, VRDir.up, []⟩ 0x1500 0x800 = true ↔
      VRBOT ⟨0x1000, 0x2000, VRDir.up, []⟩ ≤ 0x1500 ∧
        0x1500 + 0x800 ≤ VRTOP ⟨0x1000, 0x2000, VRDir.up, []⟩) :=
  ⟨(c9_contains_spec ⟨0x1000, 0x2000, VRDir.up, []⟩ 0x3000 1).1 (by decide),
    (c9_contains_spec ⟨0x1000, 0x2000, VRDir.up, []⟩ 0x1500 0x800).2 (by decide) (by decide)⟩

/-- C5 counterexample: loading the two-segment image leaves the heap region
based at `0x13000` — the page-rounded end of segment B (`0x12000`) plus one
guard page — not at the claimed `0x12000`. -/
theorem c5_counterexample :
    (LC.vsOf (vspaceloadcode initVs (some c5file) c5sys)).heap.va_base ≠ 0x12000 ∧
      (LC.vsOf (vspaceloadcode initVs (some c5file) c5sys)).heap.va_base = 0x13000 := by
  exact ⟨by decide, by decide⟩

/-- C5 (amended): the two-segment load succeeds (returning the last segment's
byte count `0x50` and the entry point) and leaves the code region at base
`0x10000` with size `0x1050` and the heap region at base `0x13000`
(`PGROUNDUP(0x11050) + PGSIZE`) with size 0. -/
theorem c5_load_scenario :
    LC.code (vspaceloadcode initVs (some c5file) c5sys) = some 0x50 ∧
    LC.ripOf (vspaceloadcode initVs (some c5file) c5sys) = some 0x10000 ∧
    (LC.vsOf (vspaceloadcode initVs (some c5file) c5sys)).code.va_base = 0x10000 ∧
    (LC.vsOf (vspaceloadcode initVs (some c5file) c5sys)).code.size = 0x1050 ∧
    (LC.vsOf (vspaceloadcode initVs (some c5file) c5sys)).heap.va_base = 0x13000 ∧
    (LC.vsOf (vspaceloadcode initVs (some c5file) c5sys)).heap.size = 0 := by
  refine ⟨by decide, by decide, by decide, by decide, by decide, by decide⟩

/-- C2 counterexample: a mid-range allocation failure does not always roll
back and return `-1`.  With `from_va = 0` the rollback loop's bound
`PGROUNDUP(from_va)` is 0, so its `uint64` counter wraps past zero and walks
addresses far outside the mapped range until the bookkeeping walk dies: here
mapping one page at 0 whose backing-page allocation fails ends in the
`assertm(vpi = va2vpage_info(...))` panic, not in a `-1` return. -/
theorem c2_counterexample :
    vregionaddmap ⟨0, 0, VRDir.up, []⟩ 0 0x1000 true true ⟨[11], memZero⟩ =
      AR.fault Fault.vpiMissing := rfl

/-- C3 counterexample: a "successful" call that maps nothing.  With
`from_va = 2^64 - 0x2000` and `sz = 0x3000` the `uint64` sum wraps to
`0x1000`, passing the `KERNBASE` guard, and the mapping loop body never runs
(`PGROUNDUP(from_va) < from_va + sz` fails on the wrapped bound); the call
returns `sz` with the page-aligned in-range address `2^64 - 0x2000` left
unmapped and the allocator untouched.  Second flaw: the `int` narrowing of
`va2vpi_idx` aliases records mod `2^32` — at `from_va = 2^44` over a base-0
region the truncated index is 0, so the "successful" call (returning `sz`)
maps the record that serves `va = 0`, a page far outside the requested
range, falsifying "no PageInfo outside that page range is altered". -/
theorem c3_counterexample :
    (AR.code (vregionaddmap ⟨0, 0, VRDir.up, []⟩ (2 ^ 64 - 0x2000) 0x3000 true true
        ⟨[11], memZero⟩) = some 0x3000 ∧
    PGROUNDUP (2 ^ 64 - 0x2000) = 2 ^ 64 - 0x2000 ∧
    2 ^ 64 - 0x2000 < 2 ^ 64 - 0x2000 + 0x3000 ∧
    (vpiGet
        (AR.reg (vregionaddmap ⟨0, 0, VRDir.up, []⟩ (2 ^ 64 - 0x2000) 0x3000 true true
          ⟨[11], memZero⟩))
        (va2vpi_idx
          (AR.reg (vregionaddmap ⟨0, 0, VRDir.up, []⟩ (2 ^ 64 - 0x2000) 0x3000 true true
            ⟨[11], memZero⟩))
          (2 ^ 64 - 0x2000))).used = false) ∧
    (va2vpi_idx (⟨0, 2 ^ 45, VRDir.up, []⟩ : VRegion) (2 ^ 44) =
      va2vpi_idx (⟨0, 2 ^ 45, VRDir.up, []⟩ : VRegion) 0 ∧
    AR.code (vregionaddmap ⟨0, 2 ^ 45, VRDir.up, []⟩ (2 ^ 44) 0x1000 true true
        ⟨[5, 6], memZero⟩) = some 0x1000 ∧
    (vpiGet
        (AR.reg (vregionaddmap ⟨0, 2 ^ 45, VRDir.up, []⟩ (2 ^ 44) 0x1000 true true
          ⟨[5, 6], memZero⟩))
        (va2vpi_idx (⟨0, 2 ^ 45, VRDir.up, []⟩ : VRegion) 0)).used = true) := by
  exact ⟨⟨by decide, by decide, by decide, by decide⟩, by decide, by decide, by decide⟩

/-- C8 counterexample: a range containing an already-mapped page does not
always hit the `assert(!vpi->used)` fault — when a physical-page allocation
for an earlier page of the range fails first, the call rolls back and returns
`-1` without reaching the mapped page. -/
theorem c8_counterexample :
    (vpiGet c8r (va2vpi_idx c8r 0x2000)).used = true ∧
    PGROUNDUP 0x1000 ≤ 0x2000 ∧ 0x2000 < 0x1000 + 0x2000 ∧
    AR.faultTag (vregionaddmap c8r 0x1000 0x2000 true true sysEmpty) = none ∧
    AR.code (vregionaddmap c8r 0x1000 0x2000 true true sysEmpty) = some (-1) := by
  refine ⟨by decide, by decide, by decide, by decide, by decide⟩

/-- C10 counterexample: `vspacewritetova` can return 0 although no byte of
`[va, va+sz)` landed anywhere: with `va = 2^64 - 8`, `sz = 16` the `uint64`
end `va + sz` wraps to 8, the `KERNBASE` assert passes, the copy loop's
`va < end` test is immediately false, and the call returns 0 though `va`
lies in no region at all. -/
theorem c10_counterexample :
    WR.code (vspacewritetova initVs (2 ^ 64 - 8) memZeroData 16 sysEmpty) = some 0 ∧
      pageOKb initVs (2 ^ 64 - 8) = false := by
  exact ⟨by decide, by decide⟩

/-- C1 counterexample: `vspaceupdate` only clears the hardware sub-trees of
the top-level entries covering `[0, 512 GiB)`.  On an address space whose
code region sits at `2^39` with its page unmapped, a stale present hardware
entry at that address survives the rebuild, so "present hardware mapping iff
mapped and present" fails there. -/
theorem c1_counterexample :
    UR.isOk (vspaceupdate c1vs ⟨[21], memZero⟩) = true ∧
    2 ^ 39 % PGSIZE = 0 ∧
    VRBOT (UR.vsOf (vspaceupdate c1vs ⟨[21], memZero⟩)).code ≤ 2 ^ 39 ∧
    2 ^ 39 < VRTOP (UR.vsOf (vspaceupdate c1vs ⟨[21], memZero⟩)).code ∧
    ((UR.vsOf (vspaceupdate c1vs ⟨[21], memZero⟩)).pgtbl (2 ^ 39 / PGSIZE) =
      some (0, PTE_U + PTE_P)) ∧
    (vpiGet (UR.vsOf (vspaceupdate c1vs ⟨[21], memZero⟩)).code
        (va2vpi_idx (UR.vsOf (vspaceupdate c1vs ⟨[21], memZero⟩)).code (2 ^ 39))).used =
      false := by
  refine ⟨by decide, by decide, by decide, by decide, by decide, by decide⟩

/-! Helper lemmas about the arithmetic and the page-info store. -/

lemma div_ne_of_ne_of_mod_eq {x y P : Nat} (hne : x ≠ y) (hm : x % P = y % P) :
    x / P ≠ y / P := by
  intro h
  apply hne
  have hx := Nat.div_add_mod x P
  have hy := Nat.div_add_mod y P
  rw [h, hm] at hx
  omega

lemma vpiIdxRaw_inj (r : VRegion) {a b : Nat} (ha : a < MOD64) (hb : b < MOD64)
    (hma : a % PGSIZE = 0) (hmb : b % PGSIZE = 0) (hne : a ≠ b) :
    vpiIdxRaw r a ≠ vpiIdxRaw r b := by
  unfold vpiIdxRaw
  unfold MOD64 at ha hb
  unfold PGSIZE at hma hmb ⊢
  cases r.dir
  · unfold sub64 MOD64
    apply div_ne_of_ne_of_mod_eq
    · omega
    · omega
  · unfold sub64 MOD64
    apply div_ne_of_ne_of_mod_eq
    · omega
    · omega

/-- Distinct aligned addresses keep distinct record indices as long as both
flat page offsets fit the `int` narrowing (below `2^32`). -/
lemma va2vpi_idx_inj (r : VRegion) {a b : Nat} (ha : a < MOD64) (hb : b < MOD64)
    (hma : a % PGSIZE = 0) (hmb : b % PGSIZE = 0) (hne : a ≠ b)
    (hfa : vpiIdxRaw r a < MOD32) (hfb : vpiIdxRaw r b < MOD32) :
    va2vpi_idx r a ≠ va2vpi_idx r b := by
  unfold va2vpi_idx
  rw [Nat.mod_eq_of_lt hfa, Nat.mod_eq_of_lt hfb]
  exact vpiIdxRaw_inj r ha hb hma hmb hne

lemma int32_small {n : Nat} (h : n < 2 ^ 31) : int32 n = Int.ofNat n := by
  unfold int32 MOD32
  rw [Nat.mod_eq_of_lt (by omega), if_pos (by omega)]

lemma int32_ne_neg_one {n : Nat} (h : n < 2 ^ 31) : int32 n ≠ (-1 : Int) := by
  rw [int32_small h, Int.ofNat_eq_natCast]
  omega

lemma vpiGet_append_zero (r : VRegion) (k j : Nat) :
    vpiGet { r with pages := r.pages ++ List.replicate k zeroChunk } j = vpiGet r j := by
  unfold vpiGet
  rcases h : r.pages[j / VPIPPAGE]? with _ | c
  · have hlen : r.pages.length ≤ j / VPIPPAGE := by
      by_contra hcon
      obtain ⟨a, ha⟩ : ∃ a, r.pages[j / VPIPPAGE]? = some a :=
        ⟨_, List.getElem?_eq_getElem (Nat.lt_of_not_le hcon)⟩
      rw [h] at ha
      exact Option.noConfusion ha
    show (match (r.pages ++ List.replicate k zeroChunk)[j / VPIPPAGE]? with
      | none => VpageInfo.zero
      | some c => c (j % VPIPPAGE)) = _
    rw [List.getElem?_append_right hlen]
    rcases h2 : (List.replicate k zeroChunk)[j / VPIPPAGE - r.pages.length]? with _ | c2
    · rfl
    · have hc2 : c2 = zeroChunk := List.eq_of_mem_replicate (List.getElem?_mem h2)
      simp [hc2, zeroChunk]
  · have hlt : j / VPIPPAGE < r.pages.length := by
      by_contra hcon
      rw [List.getElem?_eq_none (Nat.le_of_not_lt hcon)] at h
      exact Option.noConfusion h
    show (match (r.pages ++ List.replicate k zeroChunk)[j / VPIPPAGE]? with
      | none => VpageInfo.zero
      | some c => c (j % VPIPPAGE)) = _
    rw [List.getElem?_append, if_pos hlt, h]

lemma div_mod_pair_inj {j idx P : Nat} (hdiv : j / P = idx / P)
    (hmod : j % P = idx % P) : j = idx := by
  have hj := Nat.div_add_mod j P
  have hi := Nat.div_add_mod idx P
  rw [hdiv, hmod] at hj
  omega

lemma vpiSet_va_base (r : VRegion) (idx : Nat) (v : VpageInfo) :
    (vpiSet r idx v).va_base = r.va_base := by
  unfold vpiSet
  rcases r.pages[idx / VPIPPAGE]? <;> rfl

lemma vpiSet_size (r : VRegion) (idx : Nat) (v : VpageInfo) :
    (vpiSet r idx v).size = r.size := by
  unfold vpiSet
  rcases r.pages[idx / VPIPPAGE]? <;> rfl

lemma vpiSet_dir (r : VRegion) (idx : Nat) (v : VpageInfo) :
    (vpiSet r idx v).dir = r.dir := by
  unfold vpiSet
  rcases r.pages[idx / VPIPPAGE]? <;> rfl

lemma vpiSet_pages_length (r : VRegion) (idx : Nat) (v : VpageInfo) :
    (vpiSet r idx v).pages.length = r.pages.length := by
  unfold vpiSet
  rcases r.pages[idx / VPIPPAGE]? <;> simp

lemma vpiGet_set_same (r : VRegion) (idx : Nat) (v : VpageInfo) (h : chunkFor r idx) :
    vpiGet (vpiSet r idx v) idx = v := by
  unfold chunkFor at h
  have hc : r.pages[idx / VPIPPAGE]? = some r.pages[idx / VPIPPAGE] :=
    List.getElem?_eq_getElem h
  unfold vpiGet vpiSet
  rw [hc]
  show (match (r.pages.set (idx / VPIPPAGE) _)[idx / VPIPPAGE]? with
    | none => VpageInfo.zero
    | some c => c (idx % VPIPPAGE)) = v
  rw [List.getElem?_set_eq_of_lt _ h]
  simp [chunkSet]

lemma vpiGet_set_other (r : VRegion) (idx j : Nat) (v : VpageInfo) (hne : j ≠ idx) :
    vpiGet (vpiSet r idx v) j = vpiGet r j := by
  unfold vpiGet vpiSet
  rcases hc : r.pages[idx / VPIPPAGE]? with _ | c
  · rfl
  · by_cases hdiv : j / VPIPPAGE = idx / VPIPPAGE
    · have hmod : j % VPIPPAGE ≠ idx % VPIPPAGE := by
        intro hm
        exact hne (div_mod_pair_inj hdiv hm)
      show (match (r.pages.set (idx / VPIPPAGE) _)[j / VPIPPAGE]? with
        | none => VpageInfo.zero
        | some c => c (j % VPIPPAGE)) = _
      rw [hdiv, List.getElem?_set_eq_of_lt, hc]
      · simp [chunkSet, hmod]
      · by_contra hcon
        rw [List.getElem?_eq_none (Nat.le_of_not_lt hcon)] at hc
        exact Option.noConfusion hc
    · show (match (r.pages.set (idx / VPIPPAGE) _)[j / VPIPPAGE]? with
        | none => VpageInfo.zero
        | some c => c (j % VPIPPAGE)) = _
      rw [List.getElem?_set_ne (fun h => hdiv h.symm)]

lemma allocChunks_zero (free : List Nat) (m : Nat → Nat → Nat) :
    allocChunks 0 free m = ([], free, m, true) := by
  unfold allocChunks
  rfl

lemma allocChunks_nil {depth : Nat} (m : Nat → Nat → Nat) (h : depth ≠ 0) :
    allocChunks depth [] m = ([], [], m, false) := by
  unfold allocChunks
  rw [if_neg h]

lemma allocChunks_cons {depth : Nat} (p : Nat) (rest : List Nat) (m : Nat → Nat → Nat)
    (h : depth ≠ 0) :
    allocChunks depth (p :: rest) m =
      (zeroChunk :: (allocChunks (depth - 1) rest (memsetMem p m)).1,
        (allocChunks (depth - 1) rest (memsetMem p m)).2.1,
        (allocChunks (depth - 1) rest (memsetMem p m)).2.2.1,
        (allocChunks (depth - 1) rest (memsetMem p m)).2.2.2) := by
  conv_lhs => unfold allocChunks
  rw [if_neg h]

lemma allocChunks_spec (free : List Nat) (depth : Nat) (m : Nat → Nat → Nat) :
    ∃ k, (allocChunks depth free m).1 = List.replicate k zeroChunk ∧
      (allocChunks depth free m).2.1 = free.drop k ∧
      (∀ q, q ∉ free.take k → (allocChunks depth free m).2.2.1 q = m q) ∧
      ((allocChunks depth free m).2.2.2 = true →
        (allocChunks depth free m).1.length = depth) ∧
      k ≤ free.length ∧
      (∀ q o, (allocChunks depth free m).2.2.1 q o = m q o ∨
        (allocChunks depth free m).2.2.1 q o = 0) := by
  induction free generalizing depth m with
  | nil =>
    by_cases h : depth = 0
    · subst h
      exact ⟨0, by simp [allocChunks_zero]⟩
    · exact ⟨0, by simp [allocChunks_nil m h]⟩
  | cons p rest ih =>
    by_cases h : depth = 0
    · subst h
      exact ⟨0, by simp [allocChunks_zero]⟩
    · obtain ⟨k, h1, h2, h3, h4, h5, h6⟩ := ih (depth - 1) (memsetMem p m)
      refine ⟨k + 1, ?_, ?_, ?_, ?_, ?_, ?_⟩
      · rw [allocChunks_cons p rest m h, h1]
        rfl
      · rw [allocChunks_cons p rest m h]
        exact h2
      · intro q hq
        simp only [List.take_succ_cons, List.mem_cons] at hq
        push_neg at hq
        rw [allocChunks_cons p rest m h]
        show (allocChunks (depth - 1) rest (memsetMem p m)).2.2.1 q = m q
        rw [h3 q hq.2]
        funext o
        simp [memsetMem, hq.1]
      · intro hs
        rw [allocChunks_cons p rest m h] at hs ⊢
        show (zeroChunk :: (allocChunks (depth - 1) rest (memsetMem p m)).1).length = depth
        simp only [List.length_cons]
        rw [h4 hs]
        omega
      · simp only [List.length_cons]
        omega
      · intro q o
        rw [allocChunks_cons p rest m h]
        show (allocChunks (depth - 1) rest (memsetMem p m)).2.2.1 q o = m q o ∨ _ = 0
        rcases h6 q o with h7 | h7
        · rw [h7]
          unfold memsetMem
          by_cases hqp : q = p
          · right
            rw [if_pos hqp]
          · left
            rw [if_neg hqp]
        · right
          exact h7

lemma walkChunks_zero (c : Chunk) (rest : List Chunk) (s : Sys) :
    walkChunks c rest 0 s = (c :: rest, s, true) := by
  unfold walkChunks
  rfl

lemma walkChunks_nil {depth : Nat} (c : Chunk) (s : Sys) (h : depth ≠ 0) :
    walkChunks c [] depth s =
      (c :: (allocChunks depth s.free s.mem).1,
        ⟨(allocChunks depth s.free s.mem).2.1, (allocChunks depth s.free s.mem).2.2.1⟩,
        (allocChunks depth s.free s.mem).2.2.2) := by
  conv_lhs => unfold walkChunks
  rw [if_neg h]

lemma walkChunks_cons {depth : Nat} (c c2 : Chunk) (rest2 : List Chunk) (s : Sys)
    (h : depth ≠ 0) :
    walkChunks c (c2 :: rest2) depth s =
      (c :: (walkChunks c2 rest2 (depth - 1) s).1,
        (walkChunks c2 rest2 (depth - 1) s).2.1,
        (walkChunks c2 rest2 (depth - 1) s).2.2) := by
  conv_lhs => unfold walkChunks
  rw [if_neg h]

lemma walkChunks_spec (rest : List Chunk) (c : Chunk) (depth : Nat) (s : Sys) :
    ∃ k, (walkChunks c rest depth s).1 = (c :: rest) ++ List.replicate k zeroChunk ∧
      (walkChunks c rest depth s).2.1.free = s.free.drop k ∧
      (∀ q, q ∉ s.free.take k → (walkChunks c rest depth s).2.1.mem q = s.mem q) ∧
      ((walkChunks c rest depth s).2.2 = true →
        depth < (walkChunks c rest depth s).1.length) ∧
      k ≤ s.free.length ∧
      (∀ q o, (walkChunks c rest depth s).2.1.mem q o = s.mem q o ∨
        (walkChunks c rest depth s).2.1.mem q o = 0) := by
  induction rest generalizing c depth s with
  | nil =>
    by_cases h : depth = 0
    · subst h
      exact ⟨0, by simp [walkChunks_zero]⟩
    · obtain ⟨k, h1, h2, h3, h4, h5, h6⟩ := allocChunks_spec s.free depth s.mem
      refine ⟨k, ?_, ?_, ?_, ?_, h5, ?_⟩
      · rw [walkChunks_nil c s h]
        show c :: (allocChunks depth s.free s.mem).1 = _
        rw [h1]
        rfl
      · rw [walkChunks_nil c s h]
        exact h2
      · intro q hq
        rw [walkChunks_nil c s h]
        exact h3 q hq
      · intro hs
        rw [walkChunks_nil c s h] at hs ⊢
        show depth < (c :: (allocChunks depth s.free s.mem).1).length
        have hlen := h4 hs
        simp only [List.length_cons]
        omega
      · intro q o
        rw [walkChunks_nil c s h]
        exact h6 q o
  | cons c2 rest2 ih =>
    by_cases h : depth = 0
    · subst h
      exact ⟨0, by simp [walkChunks_zero]⟩
    · obtain ⟨k, h1, h2, h3, h4, h5, h6⟩ := ih c2 (depth - 1) s
      refine ⟨k, ?_, ?_, ?_, ?_, h5, ?_⟩
      · rw [walkChunks_cons c c2 rest2 s h]
        show c :: (walkChunks c2 rest2 (depth - 1) s).1 = _
        rw [h1]
        rfl
      · rw [walkChunks_cons c c2 rest2 s h]
        exact h2
      · intro q hq
        rw [walkChunks_cons c c2 rest2 s h]
        exact h3 q hq
      · intro hs
        rw [walkChunks_cons c c2 rest2 s h] at hs ⊢
        show depth < (c :: (walkChunks c2 rest2 (depth - 1) s).1).length
        have hlen := h4 hs
        rw [h1] at hlen ⊢
        simp only [List.length_cons, List.length_append, List.length_replicate] at hlen ⊢
        omega
      · intro q o
        rw [walkChunks_cons c c2 rest2 s h]
        exact h6 q o

lemma walkChunks_no_alloc (rest : List Chunk) (c : Chunk) (depth : Nat) (s : Sys)
    (h : depth < (c :: rest).length) :
    walkChunks c rest depth s = (c :: rest, s, true) := by
  induction rest generalizing c depth s with
  | nil =>
    have h0 : depth = 0 := by
      simp only [List.length_cons, List.length_nil] at h
      omega
    subst h0
    exact walkChunks_zero c [] s
  | cons c2 rest2 ih =>
    by_cases h0 : depth = 0
    · subst h0
      exact walkChunks_zero c (c2 :: rest2) s
    · have hlt : depth - 1 < (c2 :: rest2).length := by
        simp only [List.length_cons] at h ⊢
        omega
      rw [walkChunks_cons c c2 rest2 s h0, ih c2 (depth - 1) s hlt]

lemma locateRes_ok {r : VRegion} {idx0 : Nat} {w : List Chunk × Sys × Bool} {idx : Nat}
    {r1 : VRegion} {s1 : Sys} (h : locateRes r idx0 w = LRes.ok idx r1 s1) :
    idx = idx0 ∧ r1 = { r with pages := w.1 } ∧ s1 = w.2.1 ∧ w.2.2 = true := by
  unfold locateRes at h
  by_cases hb : w.2.2 = true
  · rw [if_pos hb] at h
    injection h with h1 h2 h3
    exact ⟨h1.symm, h2.symm, h3.symm, hb⟩
  · rw [if_neg hb] at h
    exact absurd h (by simp)

lemma locateRes_fail {r : VRegion} {idx0 : Nat} {w : List Chunk × Sys × Bool}
    {r1 : VRegion} {s1 : Sys} (h : locateRes r idx0 w = LRes.fail r1 s1) :
    r1 = { r with pages := w.1 } ∧ s1 = w.2.1 ∧ w.2.2 = false := by
  unfold locateRes at h
  by_cases hb : w.2.2 = true
  · rw [if_pos hb] at h
    exact absurd h (by simp)
  · rw [if_neg hb] at h
    injection h with h1 h2
    exact ⟨h1.symm, h2.symm, by simpa using hb⟩

lemma va2vpage_info_def_fault {r : VRegion} (va : Nat) {s : Sys} (hp : r.pages = [])
    (hf : s.free = []) : va2vpage_info r va s = LRes.fault := by
  unfold va2vpage_info
  rw [hp, hf]

lemma va2vpage_info_def_empty {r : VRegion} (va : Nat) {s : Sys} (hp : r.pages = [])
    {p : Nat} {rest : List Nat} (hf : s.free = p :: rest) :
    va2vpage_info r va s =
      locateRes r (va2vpi_idx r va)
        (walkChunks zeroChunk [] (va2vpi_idx r va / VPIPPAGE) ⟨rest, memsetMem p s.mem⟩) := by
  unfold va2vpage_info
  rw [hp, hf]

lemma va2vpage_info_def_cons {r : VRegion} (va : Nat) (s : Sys) {c : Chunk}
    {cs : List Chunk} (hp : r.pages = c :: cs) :
    va2vpage_info r va s =
      locateRes r (va2vpi_idx r va) (walkChunks c cs (va2vpi_idx r va / VPIPPAGE) s) := by
  unfold va2vpage_info
  rw [hp]

/-- The success case of `va2vpage_info`: the returned index is `va2vpi_idx`,
the region's metadata is unchanged, the store only grew by zeroed chunks (so
every record reads as before), the allocator shrank by exactly the pages
handed to those chunks (only those pages' contents changed), and the chunk
holding the index exists afterwards. -/
lemma locate_ok_spec {r : VRegion} {va : Nat} {s : Sys} {idx : Nat} {r1 : VRegion}
    {s1 : Sys} (h : va2vpage_info r va s = LRes.ok idx r1 s1) :
    idx = va2vpi_idx r va ∧ r1.va_base = r.va_base ∧ r1.size = r.size ∧ r1.dir = r.dir ∧
      (∃ k, r1.pages = r.pages ++ List.replicate k zeroChunk ∧
        s1.free = s.free.drop k ∧ (∀ q, q ∉ s.free.take k → s1.mem q = s.mem q) ∧
        k ≤ s.free.length) ∧
      (∀ j, vpiGet r1 j = vpiGet r j) ∧ chunkFor r1 idx ∧
      (∀ q o, s1.mem q o = s.mem q o ∨ s1.mem q o = 0) := by
  rcases hp : r.pages with _ | ⟨c, cs⟩
  · rcases hf : s.free with _ | ⟨p, rest⟩
    · rw [va2vpage_info_def_fault va hp hf] at h
      exact absurd h (by simp)
    · rw [va2vpage_info_def_empty va hp hf] at h
      obtain ⟨hidx, hr1, hs1, hok⟩ := locateRes_ok h
      obtain ⟨k, h1, h2, h3, h4, h5, h6⟩ :=
        walkChunks_spec [] zeroChunk (va2vpi_idx r va / VPIPPAGE) ⟨rest, memsetMem p s.mem⟩
      refine ⟨hidx, by rw [hr1], by rw [hr1], by rw [hr1], ⟨k + 1, ?_, ?_, ?_, ?_⟩, ?_, ?_, ?_⟩
      · rw [hr1]
        show (walkChunks zeroChunk [] _ _).1 = _
        rw [h1]
        simp [List.replicate_succ]
      · rw [hs1]
        show (walkChunks zeroChunk [] _ _).2.1.free = _
        rw [h2]
        simp
      · intro q hq
        simp only [List.take_succ_cons, List.mem_cons] at hq
        push_neg at hq
        rw [hs1, h3 q hq.2]
        show memsetMem p s.mem q = s.mem q
        funext o
        simp [memsetMem, hq.1]
      · have h5x : k ≤ rest.length := h5
        simp only [List.length_cons]
        omega
      · intro j
        have hreq : r1 = { r with pages := r.pages ++ List.replicate (k + 1) zeroChunk } := by
          rw [hr1]
          show ({ r with pages := (walkChunks zeroChunk [] _ _).1 } : VRegion) = _
          rw [h1, hp]
          simp [List.replicate_succ]
        rw [hreq]
        exact vpiGet_append_zero r (k + 1) j
      · unfold chunkFor
        rw [hidx, hr1]
        show va2vpi_idx r va / VPIPPAGE < (walkChunks zeroChunk [] _ _).1.length
        exact h4 hok
      · intro q o
        rw [hs1]
        rcases h6 q o with h7 | h7
        · rw [h7]
          show memsetMem p s.mem q o = _ ∨ memsetMem p s.mem q o = 0
          unfold memsetMem
          by_cases hqp : q = p
          · right
            rw [if_pos hqp]
          · left
            rw [if_neg hqp]
        · right
          exact h7
  · rw [va2vpage_info_def_cons va s hp] at h
    obtain ⟨hidx, hr1, hs1, hok⟩ := locateRes_ok h
    obtain ⟨k, h1, h2, h3, h4, h5, h6⟩ := walkChunks_spec cs c (va2vpi_idx r va / VPIPPAGE) s
    refine ⟨hidx, by rw [hr1], by rw [hr1], by rw [hr1], ⟨k, ?_, ?_, ?_, h5⟩, ?_, ?_, ?_⟩
    · rw [hr1]
      show (walkChunks c cs _ _).1 = _
      rw [h1]
    · rw [hs1]
      exact h2
    · intro q hq
      rw [hs1]
      exact h3 q hq
    · intro j
      have hreq : r1 = { r with pages := r.pages ++ List.replicate k zeroChunk } := by
        rw [hr1]
        show ({ r with pages := (walkChunks c cs _ _).1 } : VRegion) = _
        rw [h1, hp]
      rw [hreq]
      exact vpiGet_append_zero r k j
    · unfold chunkFor
      rw [hidx, hr1]
      show va2vpi_idx r va / VPIPPAGE < (walkChunks c cs _ _).1.length
      exact h4 hok
    · intro q o
      rw [hs1]
      exact h6 q o

/-- The NULL-return case of `va2vpage_info`: same growth facts as success. -/
lemma locate_fail_spec {r : VRegion} {va : Nat} {s : Sys} {r1 : VRegion} {s1 : Sys}
    (h : va2vpage_info r va s = LRes.fail r1 s1) :
    r1.va_base = r.va_base ∧ r1.size = r.size ∧ r1.dir = r.dir ∧
      (∃ k, r1.pages = r.pages ++ List.replicate k zeroChunk ∧
        s1.free = s.free.drop k ∧ (∀ q, q ∉ s.free.take k → s1.mem q = s.mem q) ∧
        k ≤ s.free.length) ∧
      (∀ j, vpiGet r1 j = vpiGet r j) ∧
      (∀ q o, s1.mem q o = s.mem q o ∨ s1.mem q o = 0) := by
  rcases hp : r.pages with _ | ⟨c, cs⟩
  · rcases hf : s.free with _ | ⟨p, rest⟩
    · rw [va2vpage_info_def_fault va hp hf] at h
      exact absurd h (by simp)
    · rw [va2vpage_info_def_empty va hp hf] at h
      obtain ⟨hr1, hs1, _⟩ := locateRes_fail h
      obtain ⟨k, h1, h2, h3, h4, h5, h6⟩ :=
        walkChunks_spec [] zeroChunk (va2vpi_idx r va / VPIPPAGE) ⟨rest, memsetMem p s.mem⟩
      refine ⟨by rw [hr1], by rw [hr1], by rw [hr1], ⟨k + 1, ?_, ?_, ?_, ?_⟩, ?_, ?_⟩
      · rw [hr1]
        show (walkChunks zeroChunk [] _ _).1 = _
        rw [h1]
        simp [List.replicate_succ]
      · rw [hs1]
        show (walkChunks zeroChunk [] _ _).2.1.free = _
        rw [h2]
        simp
      · intro q hq
        simp only [List.take_succ_cons, List.mem_cons] at hq
        push_neg at hq
        rw [hs1, h3 q hq.2]
        show memsetMem p s.mem q = s.mem q
        funext o
        simp [memsetMem, hq.1]
      · have h5x : k ≤ rest.length := h5
        simp only [List.length_cons]
        omega
      · intro j
        have hreq : r1 = { r with pages := r.pages ++ List.replicate (k + 1) zeroChunk } := by
          rw [hr1]
          show ({ r with pages := (walkChunks zeroChunk [] _ _).1 } : VRegion) = _
          rw [h1, hp]
          simp [List.replicate_succ]
        rw [hreq]
        exact vpiGet_append_zero r (k + 1) j
      · intro q o
        rw [hs1]
        rcases h6 q o with h7 | h7
        · rw [h7]
          show memsetMem p s.mem q o = _ ∨ memsetMem p s.mem q o = 0
          unfold memsetMem
          by_cases hqp : q = p
          · right
            rw [if_pos hqp]
          · left
            rw [if_neg hqp]
        · right
          exact h7
  · rw [va2vpage_info_def_cons va s hp] at h
    obtain ⟨hr1, hs1, _⟩ := locateRes_fail h
    obtain ⟨k, h1, h2, h3, h4, h5, h6⟩ := walkChunks_spec cs c (va2vpi_idx r va / VPIPPAGE) s
    refine ⟨by rw [hr1], by rw [hr1], by rw [hr1], ⟨k, ?_, ?_, ?_, h5⟩, ?_, ?_⟩
    · rw [hr1]
      show (walkChunks c cs _ _).1 = _
      rw [h1]
    · rw [hs1]
      exact h2
    · intro q hq
      rw [hs1]
      exact h3 q hq
    · intro j
      have hreq : r1 = { r with pages := r.pages ++ List.replicate k zeroChunk } := by
        rw [hr1]
        show ({ r with pages := (walkChunks c cs _ _).1 } : VRegion) = _
        rw [h1, hp]
      rw [hreq]
      exact vpiGet_append_zero r k j
    · intro q o
      rw [hs1]
      exact h6 q o

/-- When the chunk for `va`'s record already exists, `va2vpage_info` succeeds
without touching anything. -/
lemma locate_of_chunkFor (r : VRegion) (va : Nat) (s : Sys)
    (h : chunkFor r (va2vpi_idx r va)) :
    va2vpage_info r va s = LRes.ok (va2vpi_idx r va) r s := by
  rcases hp : r.pages with _ | ⟨c, cs⟩
  · unfold chunkFor at h
    rw [hp] at h
    exact absurd h (by simp)
  · rw [va2vpage_info_def_cons va s hp]
    unfold chunkFor at h
    rw [hp] at h
    rw [walkChunks_no_alloc cs c _ s h]
    unfold locateRes
    rw [if_pos rfl]
    rw [← hp]

lemma sub64_eq {a b : Nat} (hb : b ≤ a) (ha : a < MOD64) : sub64 a b = a - b := by
  unfold sub64 MOD64 at *
  omega

lemma vpiIdxRaw_congr {r2 r : VRegion} (hb : r2.va_base = r.va_base)
    (hd : r2.dir = r.dir) (va : Nat) : vpiIdxRaw r2 va = vpiIdxRaw r va := by
  unfold vpiIdxRaw
  rw [hb, hd]

lemma va2vpi_idx_congr {r2 r : VRegion} (hb : r2.va_base = r.va_base)
    (hd : r2.dir = r.dir) (va : Nat) : va2vpi_idx r2 va = va2vpi_idx r va := by
  unfold va2vpi_idx
  rw [vpiIdxRaw_congr hb hd]

lemma chunkFor_vpiSet (r : VRegion) (idx : Nat) (v : VpageInfo) (j : Nat)
    (h : chunkFor r j) : chunkFor (vpiSet r idx v) j := by
  unfold chunkFor at *
  rw [vpiSet_pages_length]
  exact h

lemma rollback_fuel_zero (r : VRegion) (a stop : Nat) (s : Sys) :
    addmapRollback 0 r a stop s = AR.fault Fault.spin := rfl

lemma rollback_done {a stop : Nat} (f : Nat) (r : VRegion) (s : Sys) (h : a < stop) :
    addmapRollback (f + 1) r a stop s = AR.ret (-1) r s := by
  conv_lhs => unfold addmapRollback
  rw [if_neg (Nat.not_le.mpr h)]

lemma rollback_step {a stop : Nat} (f : Nat) {r : VRegion} {s : Sys} (h : stop ≤ a)
    {idx : Nat} {r1 : VRegion} {s1 : Sys} (hl : va2vpage_info r a s = LRes.ok idx r1 s1) :
    addmapRollback (f + 1) r a stop s =
      addmapRollback f (vpiSet r1 idx VpageInfo.zero) (sub64 a PGSIZE) stop
        (kfree (vpiGet r1 idx).ppn s1) := by
  conv_lhs => unfold addmapRollback
  rw [if_pos h, hl]

lemma rollback_fail {a stop : Nat} (f : Nat) {r : VRegion} {s : Sys} (h : stop ≤ a)
    {r1 : VRegion} {s1 : Sys} (hl : va2vpage_info r a s = LRes.fail r1 s1) :
    addmapRollback (f + 1) r a stop s = AR.fault Fault.vpiMissing := by
  conv_lhs => unfold addmapRollback
  rw [if_pos h, hl]

lemma rollback_no_success (fuel : Nat) :
    ∀ (r : VRegion) (a stop : Nat) (s : Sys) (c : Int) (r' : VRegion) (s' : Sys),
      addmapRollback fuel r a stop s = AR.ret c r' s' → c = -1 := by
  induction fuel with
  | zero =>
    intro r a stop s c r' s' h
    rw [rollback_fuel_zero] at h
    exact absurd h (by simp)
  | succ f ih =>
    intro r a stop s c r' s' h
    by_cases ha : stop ≤ a
    · rcases hl : va2vpage_info r a s with ⟨idx, r1, s1⟩ | ⟨r1, s1⟩ | _
      · rw [rollback_step f ha hl] at h
        exact ih _ _ _ _ _ _ _ h
      · rw [rollback_fail f ha hl] at h
        exact absurd h (by simp)
      · rw [show addmapRollback (f + 1) r a stop s = AR.fault Fault.memsetNull from by
          conv_lhs => unfold addmapRollback
          rw [if_pos ha, hl]] at h
        exact absurd h (by simp)
    · rw [rollback_done f r s (Nat.lt_of_not_le ha)] at h
      injection h with h1 h2 h3
      exact h1.symm

lemma addmapLoop_zero (pres wr : Bool) (a0 sz a : Nat) (r : VRegion) (s : Sys) :
    addmapLoop pres wr a0 sz 0 a r s = AR.ret (int32 sz) r s := rfl

lemma addmapLoop_succ_fault {a : Nat} {r : VRegion} {s : Sys} (pres wr : Bool)
    (a0 sz n : Nat) (h : va2vpage_info r a s = LRes.fault) :
    addmapLoop pres wr a0 sz (n + 1) a r s = AR.fault Fault.memsetNull := by
  conv_lhs => unfold addmapLoop
  rw [h]

lemma addmapLoop_succ_fail {a : Nat} {r : VRegion} {s : Sys} (pres wr : Bool)
    (a0 sz n : Nat) {r1 : VRegion} {s1 : Sys}
    (h : va2vpage_info r a s = LRes.fail r1 s1) :
    addmapLoop pres wr a0 sz (n + 1) a r s =
      addmapRollback MOD64 r1 (sub64 a PGSIZE) a0 s1 := by
  conv_lhs => unfold addmapLoop
  rw [h]

lemma addmapLoop_succ_used {a : Nat} {r : VRegion} {s : Sys} (pres wr : Bool)
    (a0 sz n : Nat) {idx : Nat} {r1 : VRegion} {s1 : Sys}
    (h : va2vpage_info r a s = LRes.ok idx r1 s1) (hu : (vpiGet r1 idx).used = true) :
    addmapLoop pres wr a0 sz (n + 1) a r s = AR.fault Fault.assertUsed := by
  conv_lhs => unfold addmapLoop
  rw [h]
  simp only [hu, if_pos]

lemma addmapLoop_succ_nofree {a : Nat} {r : VRegion} {s : Sys} (pres wr : Bool)
    (a0 sz n : Nat) {idx : Nat} {r1 : VRegion} {s1 : Sys}
    (h : va2vpage_info r a s = LRes.ok idx r1 s1) (hu : (vpiGet r1 idx).used = false)
    (hf : s1.free = []) :
    addmapLoop pres wr a0 sz (n + 1) a r s =
      addmapRollback MOD64 r1 (sub64 a PGSIZE) a0 s1 := by
  conv_lhs => unfold addmapLoop
  rw [h]
  simp only [hu, Bool.false_eq_true, if_neg, ite_false]
  unfold kalloc
  rw [hf]

lemma addmapLoop_succ_step {a : Nat} {r : VRegion} {s : Sys} (pres wr : Bool)
    (a0 sz n : Nat) {idx : Nat} {r1 : VRegion} {s1 : Sys}
    (h : va2vpage_info r a s = LRes.ok idx r1 s1) (hu : (vpiGet r1 idx).used = false)
    {p : Nat} {rest : List Nat} (hf : s1.free = p :: rest) :
    addmapLoop pres wr a0 sz (n + 1) a r s =
      addmapLoop pres wr a0 sz n (a + PGSIZE) (vpiSet r1 idx ⟨true, pres, wr, p⟩)
        ⟨rest, memsetMem p s1.mem⟩ := by
  conv_lhs => unfold addmapLoop
  rw [h]
  simp only [hu, Bool.false_eq_true, if_neg, ite_false]
  unfold kalloc
  rw [hf]
  rfl

/-- The rollback loop, in the sane case `PGROUNDUP(from_va) >= PGSIZE`:
starting one page below the failure address `stop + m * PGSIZE`, it returns
`-1` after zeroing the `m` records of this call's pages, releasing one
physical page per record, and touching nothing else. -/
lemma rollback_spec (stop : Nat) (hstop : PGSIZE ≤ stop) (hal : stop % PGSIZE = 0)
    (m : Nat) :
    ∀ (fuel : Nat) (r : VRegion) (s : Sys), m < fuel → stop + (m + 1) * PGSIZE ≤ MOD64 →
      (∀ i, i < m → chunkFor r (va2vpi_idx r (stop + i * PGSIZE))) →
      ∃ r' s',
        addmapRollback fuel r (stop + m * PGSIZE - PGSIZE) stop s = AR.ret (-1) r' s' ∧
        (∀ i, i < m → vpiGet r' (va2vpi_idx r (stop + i * PGSIZE)) = VpageInfo.zero) ∧
        (∀ j, (∀ i, i < m → j ≠ va2vpi_idx r (stop + i * PGSIZE)) →
          vpiGet r' j = vpiGet r j) ∧
        r'.va_base = r.va_base ∧ r'.size = r.size ∧ r'.dir = r.dir ∧
        r'.pages.length = r.pages.length ∧
        s'.free.length = s.free.length + m ∧ s'.mem = s.mem := by
  induction m with
  | zero =>
    intro fuel r s hfuel _ _
    obtain ⟨f, rfl⟩ : ∃ f, fuel = f + 1 := ⟨fuel - 1, by omega⟩
    refine ⟨r, s, ?_, ?_, ?_, rfl, rfl, rfl, rfl, by omega, rfl⟩
    · have hlt : stop + 0 * PGSIZE - PGSIZE < stop := by
        have : 0 < PGSIZE := by decide
        omega
      exact rollback_done f r s hlt
    · intro i hi
      omega
    · intro j _
      rfl
  | succ m ih =>
    intro fuel r s hfuel hbound hchunks
    obtain ⟨f, rfl⟩ : ∃ f, fuel = f + 1 := ⟨fuel - 1, by omega⟩
    have hP : 0 < PGSIZE := by decide
    have ha_eq : stop + (m + 1) * PGSIZE - PGSIZE = stop + m * PGSIZE := by
      have : (m + 1) * PGSIZE = m * PGSIZE + PGSIZE := by ring
      omega
    have ha : stop ≤ stop + m * PGSIZE := Nat.le_add_right _ _
    have hcf := hchunks m (Nat.lt_succ_self m)
    have hl := locate_of_chunkFor r (stop + m * PGSIZE) s hcf
    have hmlt : stop + m * PGSIZE < MOD64 := by
      have h1 : (m + 1) * PGSIZE = m * PGSIZE + PGSIZE := by ring
      have h2 : (m + 1 + 1) * PGSIZE = m * PGSIZE + 2 * PGSIZE := by ring
      omega
    have hsub : sub64 (stop + m * PGSIZE) PGSIZE = stop + m * PGSIZE - PGSIZE :=
      sub64_eq (by omega) hmlt
    have hb2 := vpiSet_va_base r (va2vpi_idx r (stop + m * PGSIZE)) VpageInfo.zero
    have hsz2 := vpiSet_size r (va2vpi_idx r (stop + m * PGSIZE)) VpageInfo.zero
    have hd2 := vpiSet_dir r (va2vpi_idx r (stop + m * PGSIZE)) VpageInfo.zero
    have hlen2 := vpiSet_pages_length r (va2vpi_idx r (stop + m * PGSIZE)) VpageInfo.zero
    have hcongr : ∀ va, va2vpi_idx (vpiSet r (va2vpi_idx r (stop + m * PGSIZE))
        VpageInfo.zero) va = va2vpi_idx r va := va2vpi_idx_congr hb2 hd2
    have hchunks2 : ∀ i, i < m →
        chunkFor (vpiSet r (va2vpi_idx r (stop + m * PGSIZE)) VpageInfo.zero)
          (va2vpi_idx (vpiSet r (va2vpi_idx r (stop + m * PGSIZE)) VpageInfo.zero)
            (stop + i * PGSIZE)) := by
      intro i hi
      rw [hcongr]
      exact chunkFor_vpiSet _ _ _ _ (hchunks i (by omega))
    obtain ⟨r', s', hrun, hzero, huntouched, hb', hsz', hd', hlen', hfree', hmem'⟩ :=
      ih f (vpiSet r (va2vpi_idx r (stop + m * PGSIZE)) VpageInfo.zero)
        (kfree (vpiGet r (va2vpi_idx r (stop + m * PGSIZE))).ppn s) (by omega)
        (by
          have h1 : (m + 1) * PGSIZE = m * PGSIZE + PGSIZE := by ring
          have h2 : (m + 1 + 1) * PGSIZE = m * PGSIZE + 2 * PGSIZE := by ring
          omega)
        hchunks2
    refine ⟨r', s', ?_, ?_, ?_, ?_, ?_, ?_, ?_, ?_, ?_⟩
    · rw [ha_eq, rollback_step f ha hl, hsub]
      exact hrun
    · intro i hi
      rcases Nat.lt_succ_iff_lt_or_eq.mp hi with hlt | heq
      · have := hzero i hlt
        rw [hcongr] at this
        exact this
      · subst heq
        by_cases hcoll : ∃ i2, i2 < i ∧
            va2vpi_idx r (stop + i * PGSIZE) = va2vpi_idx r (stop + i2 * PGSIZE)
        · obtain ⟨i2, hi2, heq2⟩ := hcoll
          rw [heq2]
          have := hzero i2 hi2
          rw [hcongr] at this
          exact this
        · push_neg at hcoll
          have huse := huntouched (va2vpi_idx r (stop + i * PGSIZE)) (by
            intro i2 hi2
            rw [hcongr]
            exact hcoll i2 hi2)
          rw [huse]
          exact vpiGet_set_same r _ VpageInfo.zero hcf
    · intro j hj
      have h1 := huntouched j (by
        intro i2 hi2
        rw [hcongr]
        exact hj i2 (by omega))
      rw [h1]
      exact vpiGet_set_other r _ j VpageInfo.zero (hj m (Nat.lt_succ_self m))
    · rw [hb', hb2]
    · rw [hsz', hsz2]
    · rw [hd', hd2]
    · rw [hlen', hlen2]
    · rw [hfree']
      show (kfree _ s).free.length + m = s.free.length + (m + 1)
      unfold kfree
      simp only [List.length_cons]
      omega
    · rw [hmem']
      rfl

/-- The allocation loop of `vregionaddmap`, entered at page `d` of the range
(current address `a0 + d * PGSIZE`, with this call's pages `0..d-1` already
mapped so their chunks exist), returning `-1`: some `m` with `d ≤ m ≤ d + n`
bounds the pages this call had touched; their records are zeroed, all other
records are unchanged, metadata is intact, the store only grew, the
allocator's net count lost exactly the retained chunks, and memory changed
only to zero. -/
lemma addmapLoop_fail_spec (pres wr : Bool) (a0 sz : Nat) (ha0 : PGSIZE ≤ a0)
    (hal : a0 % PGSIZE = 0) (hm1 : int32 sz ≠ -1) :
    ∀ (n d : Nat) (r : VRegion) (s : Sys) (r' : VRegion) (s' : Sys),
      a0 + (d + n + 1) * PGSIZE ≤ MOD64 →
      (∀ i, i < d → chunkFor r (va2vpi_idx r (a0 + i * PGSIZE))) →
      addmapLoop pres wr a0 sz n (a0 + d * PGSIZE) r s = AR.ret (-1) r' s' →
      ∃ m, d ≤ m ∧ m ≤ d + n ∧
        (∀ i, i < m → vpiGet r' (va2vpi_idx r (a0 + i * PGSIZE)) = VpageInfo.zero) ∧
        (∀ j, (∀ i, i < m → j ≠ va2vpi_idx r (a0 + i * PGSIZE)) →
          vpiGet r' j = vpiGet r j) ∧
        r'.va_base = r.va_base ∧ r'.size = r.size ∧ r'.dir = r.dir ∧
        r.pages.length ≤ r'.pages.length ∧
        s'.free.length + r'.pages.length = s.free.length + r.pages.length + d ∧
        (∀ q o, s'.mem q o = s.mem q o ∨ s'.mem q o = 0) := by
  intro n
  induction n with
  | zero =>
    intro d r s r' s' _ _ h
    rw [addmapLoop_zero] at h
    injection h with h1 h2 h3
    exact absurd h1 hm1
  | succ n ih =>
    intro d r s r' s' hbound hchunks h
    have hP : 0 < PGSIZE := by decide
    have hMpos : 0 < MOD64 := by decide
    have hmul1 : (d + 1) * PGSIZE ≤ (d + (n + 1) + 1) * PGSIZE :=
      Nat.mul_le_mul_right _ (by omega)
    have hmul2 : (d + 1) * PGSIZE = d * PGSIZE + PGSIZE := by ring
    have haM : a0 + d * PGSIZE < MOD64 := by omega
    have halt : (a0 + d * PGSIZE) % PGSIZE = 0 := by
      rw [Nat.add_mul_mod_self_right]
      exact hal
    have hsub : sub64 (a0 + d * PGSIZE) PGSIZE = a0 + d * PGSIZE - PGSIZE :=
      sub64_eq (by omega) haM
    have hdM : d < MOD64 := by
      have : d ≤ d * PGSIZE := Nat.le_mul_of_pos_right d hP
      omega
    have hboundR : a0 + (d + 1) * PGSIZE ≤ MOD64 := by omega
    rcases hl : va2vpage_info r (a0 + d * PGSIZE) s with ⟨idx, r1, s1⟩ | ⟨r1, s1⟩ | _
    · -- lookup succeeded
      obtain ⟨hidx, hb1, hsz1, hd1, ⟨k, hpg1, hfr1, hmem1, hk1⟩, hget1, hcf1, hmd1⟩ :=
        locate_ok_spec hl
      have hlen1 : r1.pages.length = r.pages.length + k := by
        rw [hpg1]
        simp
      have hcongr1 : ∀ va, va2vpi_idx r1 va = va2vpi_idx r va := va2vpi_idx_congr hb1 hd1
      have hlens1 : s1.free.length = s.free.length - k := by
        rw [hfr1]
        exact List.length_drop k s.free
      by_cases hu : (vpiGet r1 idx).used = true
      · rw [addmapLoop_succ_used pres wr a0 sz n hl hu] at h
        exact absurd h (by simp)
      · have hu' : (vpiGet r1 idx).used = false := by simpa using hu
        rcases hf1 : s1.free with _ | ⟨p, rest⟩
        · -- kalloc failed: rollback from the previous page
          rw [addmapLoop_succ_nofree pres wr a0 sz n hl hu' hf1, hsub] at h
          have hchunks1 : ∀ i, i < d →
              chunkFor r1 (va2vpi_idx r1 (a0 + i * PGSIZE)) := by
            intro i hi
            rw [hcongr1]
            unfold chunkFor at *
            have := hchunks i hi
            omega
          obtain ⟨r2, s2, hrun, hzero, hunt, hb2, hsz2, hd2, hlen2, hfree2, hmem2⟩ :=
            rollback_spec a0 ha0 hal d MOD64 r1 s1 hdM hboundR hchunks1
          rw [hrun] at h
          injection h with h1 h2 h3
          subst h2
          subst h3
          refine ⟨d, Nat.le_refl d, by omega, ?_, ?_, ?_, ?_, ?_, by omega, ?_, ?_⟩
          · intro i hi
            have := hzero i hi
            rw [hcongr1] at this
            exact this
          · intro j hj
            have h4 := hunt j (by
              intro i hi
              rw [hcongr1]
              exact hj i hi)
            rw [h4]
            exact hget1 j
          · rw [hb2, hb1]
          · rw [hsz2, hsz1]
          · rw [hd2, hd1]
          · have h5 : s1.free.length = 0 := by
              rw [hf1]
              rfl
            omega
          · intro q o
            rw [hmem2]
            exact hmd1 q o
        · -- kalloc succeeded: one more page mapped, recurse
          rw [addmapLoop_succ_step pres wr a0 sz n hl hu' hf1] at h
          have haP1 : a0 + d * PGSIZE + PGSIZE = a0 + (d + 1) * PGSIZE := by ring
          rw [haP1] at h
          have hb2 := vpiSet_va_base r1 idx ⟨true, pres, wr, p⟩
          have hsz2 := vpiSet_size r1 idx ⟨true, pres, wr, p⟩
          have hd2 := vpiSet_dir r1 idx ⟨true, pres, wr, p⟩
          have hlen2 := vpiSet_pages_length r1 idx ⟨true, pres, wr, p⟩
          have hcongr2 : ∀ va,
              va2vpi_idx (vpiSet r1 idx ⟨true, pres, wr, p⟩) va = va2vpi_idx r va := by
            intro va
            rw [va2vpi_idx_congr hb2 hd2, hcongr1]
          have hchunks2 : ∀ i, i < d + 1 →
              chunkFor (vpiSet r1 idx ⟨true, pres, wr, p⟩)
                (va2vpi_idx (vpiSet r1 idx ⟨true, pres, wr, p⟩) (a0 + i * PGSIZE)) := by
            intro i hi
            rw [hcongr2]
            unfold chunkFor at *
            rw [hlen2]
            rcases Nat.lt_succ_iff_lt_or_eq.mp hi with hil | hie
            · have := hchunks i hil
              omega
            · rw [hie, ← hidx]
              exact hcf1
          have hbound2 : a0 + ((d + 1) + n + 1) * PGSIZE ≤ MOD64 := by
            have he : (d + 1) + n + 1 = d + (n + 1) + 1 := by omega
            rw [he]
            exact hbound
          obtain ⟨m, hdm, hmn, hzero, hunt, hb', hsz', hd', hlen', hfree', hmemd⟩ :=
            ih (d + 1) (vpiSet r1 idx ⟨true, pres, wr, p⟩) ⟨rest, memsetMem p s1.mem⟩
              r' s' hbound2 hchunks2 h
          have hlen_s1 : s1.free.length = rest.length + 1 := by
            rw [hf1]
            rfl
          refine ⟨m, by omega, by omega, ?_, ?_, ?_, ?_, ?_, ?_, ?_, ?_⟩
          · intro i hi
            have := hzero i hi
            rw [hcongr2] at this
            exact this
          · intro j hj
            have h4 := hunt j (by
              intro i hi
              rw [hcongr2]
              exact hj i hi)
            rw [h4]
            have hne : j ≠ idx := by
              rw [hidx]
              exact hj d (by omega)
            rw [vpiGet_set_other r1 idx j _ hne]
            exact hget1 j
          · rw [hb', hb2, hb1]
          · rw [hsz', hsz2, hsz1]
          · rw [hd', hd2, hd1]
          · rw [hlen2, hlen1] at hlen'
            omega
          · rw [hlen2, hlen1] at hfree'
            have h6 : (⟨rest, memsetMem p s1.mem⟩ : Sys).free.length = rest.length := rfl
            rw [h6] at hfree'
            omega
          · intro q o
            rcases hmemd q o with h7 | h7
            · have h8 : (⟨rest, memsetMem p s1.mem⟩ : Sys).mem q o =
                  memsetMem p s1.mem q o := rfl
              rw [h8] at h7
              unfold memsetMem at h7
              by_cases hqp : q = p
              · rw [if_pos hqp] at h7
                right
                exact h7
              · rw [if_neg hqp] at h7
                rw [h7]
                exact hmd1 q o
            · right
              exact h7
    · -- lookup returned NULL: rollback from the previous page
      rw [addmapLoop_succ_fail pres wr a0 sz n hl, hsub] at h
      obtain ⟨hb1, hsz1, hd1, ⟨k, hpg1, hfr1, hmem1, hk1⟩, hget1, hmd1⟩ :=
        locate_fail_spec hl
      have hlen1 : r1.pages.length = r.pages.length + k := by
        rw [hpg1]
        simp
      have hcongr1 : ∀ va, va2vpi_idx r1 va = va2vpi_idx r va := va2vpi_idx_congr hb1 hd1
      have hlens1 : s1.free.length = s.free.length - k := by
        rw [hfr1]
        exact List.length_drop k s.free
      have hchunks1 : ∀ i, i < d → chunkFor r1 (va2vpi_idx r1 (a0 + i * PGSIZE)) := by
        intro i hi
        rw [hcongr1]
        unfold chunkFor at *
        have := hchunks i hi
        omega
      obtain ⟨r2, s2, hrun, hzero, hunt, hb2, hsz2, hd2, hlen2, hfree2, hmem2⟩ :=
        rollback_spec a0 ha0 hal d MOD64 r1 s1 hdM hboundR hchunks1
      rw [hrun] at h
      injection h with h1 h2 h3
      subst h2
      subst h3
      refine ⟨d, Nat.le_refl d, by omega, ?_, ?_, ?_, ?_, ?_, by omega, by omega, ?_⟩
      · intro i hi
        have := hzero i hi
        rw [hcongr1] at this
        exact this
      · intro j hj
        have h4 := hunt j (by
          intro i hi
          rw [hcongr1]
          exact hj i hi)
        rw [h4]
        exact hget1 j
      · rw [hb2, hb1]
      · rw [hsz2, hsz1]
      · rw [hd2, hd1]
      · intro q o
        rw [hmem2]
        exact hmd1 q o
    · rw [addmapLoop_succ_fault pres wr a0 sz n hl] at h
      exact absurd h (by simp)

/-- The allocation loop of `vregionaddmap`, succeeding over `n` pages from
aligned address `a`: every page of the range gets a fresh physical page from
the incoming free list, zero-filled, with the requested flags; no other
record changes; metadata is intact; memory changed only to zero. -/
lemma addmapLoop_success_spec (pres wr : Bool) (a0 sz : Nat) (hsz31 : sz < 2 ^ 31) :
    ∀ (n a : Nat) (r : VRegion) (s : Sys) (r' : VRegion) (s' : Sys),
      a % PGSIZE = 0 → a + n * PGSIZE ≤ MOD64 →
      (∀ i, i < n → vpiIdxRaw r (a + i * PGSIZE) < MOD32) →
      addmapLoop pres wr a0 sz n a r s = AR.ret (int32 sz) r' s' →
      (∀ i, i < n → ∃ p, p ∈ s.free ∧
        vpiGet r' (va2vpi_idx r (a + i * PGSIZE)) = ⟨true, pres, wr, p⟩ ∧
        (∀ o, s'.mem p o = 0)) ∧
      (∀ j, (∀ i, i < n → j ≠ va2vpi_idx r (a + i * PGSIZE)) →
        vpiGet r' j = vpiGet r j) ∧
      r'.va_base = r.va_base ∧ r'.size = r.size ∧ r'.dir = r.dir ∧
      (∀ q o, s'.mem q o = s.mem q o ∨ s'.mem q o = 0) := by
  intro n
  induction n with
  | zero =>
    intro a r s r' s' _ _ _ h
    rw [addmapLoop_zero] at h
    injection h with h1 h2 h3
    subst h2
    subst h3
    refine ⟨by omega, fun j _ => rfl, rfl, rfl, rfl, fun q o => Or.inl rfl⟩
  | succ n ih =>
    intro a r s r' s' hal hbound hfit h
    have hP : 0 < PGSIZE := by decide
    have hsP : (n + 1) * PGSIZE = n * PGSIZE + PGSIZE := by ring
    rcases hl : va2vpage_info r a s with ⟨idx, r1, s1⟩ | ⟨r1, s1⟩ | _
    · obtain ⟨hidx, hb1, hsz1, hd1, ⟨k, hpg1, hfr1, hmem1, hk1⟩, hget1, hcf1, hmd1⟩ :=
        locate_ok_spec hl
      have hcongr1 : ∀ va, va2vpi_idx r1 va = va2vpi_idx r va := va2vpi_idx_congr hb1 hd1
      by_cases hu : (vpiGet r1 idx).used = true
      · rw [addmapLoop_succ_used pres wr a0 sz n hl hu] at h
        exact absurd h (by simp)
      · have hu' : (vpiGet r1 idx).used = false := by simpa using hu
        rcases hf1 : s1.free with _ | ⟨p, rest⟩
        · rw [addmapLoop_succ_nofree pres wr a0 sz n hl hu' hf1] at h
          have := rollback_no_success MOD64 r1 (sub64 a PGSIZE) a0 s1 _ r' s' h
          exact absurd this (int32_ne_neg_one hsz31)
        · rw [addmapLoop_succ_step pres wr a0 sz n hl hu' hf1] at h
          have hb2 := vpiSet_va_base r1 idx ⟨true, pres, wr, p⟩
          have hsz2 := vpiSet_size r1 idx ⟨true, pres, wr, p⟩
          have hd2 := vpiSet_dir r1 idx ⟨true, pres, wr, p⟩
          have hcongr2 : ∀ va,
              va2vpi_idx (vpiSet r1 idx ⟨true, pres, wr, p⟩) va = va2vpi_idx r va := by
            intro va
            rw [va2vpi_idx_congr hb2 hd2, hcongr1]
          have hrawcongr2 : ∀ va,
              vpiIdxRaw (vpiSet r1 idx ⟨true, pres, wr, p⟩) va = vpiIdxRaw r va := by
            intro va
            rw [vpiIdxRaw_congr hb2 hd2, vpiIdxRaw_congr hb1 hd1]
          have hal2 : (a + PGSIZE) % PGSIZE = 0 := by
            rw [Nat.add_mod_right]
            exact hal
          have hbound2 : (a + PGSIZE) + n * PGSIZE ≤ MOD64 := by omega
          have hfit2 : ∀ i, i < n →
              vpiIdxRaw (vpiSet r1 idx ⟨true, pres, wr, p⟩)
                (a + PGSIZE + i * PGSIZE) < MOD32 := by
            intro i hi
            rw [hrawcongr2]
            have h9 : a + PGSIZE + i * PGSIZE = a + (i + 1) * PGSIZE := by ring
            rw [h9]
            exact hfit (i + 1) (by omega)
          obtain ⟨hmap, hunt, hb', hsz', hd', hmemd⟩ :=
            ih (a + PGSIZE) (vpiSet r1 idx ⟨true, pres, wr, p⟩)
              ⟨rest, memsetMem p s1.mem⟩ r' s' hal2 hbound2 hfit2 h
          have hPmem : ∀ x, x ∈ rest → x ∈ s.free := by
            intro x hx
            have h1 : x ∈ s1.free := by
              rw [hf1]
              exact List.mem_cons_of_mem p hx
            rw [hfr1] at h1
            exact List.drop_subset k s.free h1
          have hpmem : p ∈ s.free := by
            have h1 : p ∈ s1.free := by
              rw [hf1]
              exact List.mem_cons_self p rest
            rw [hfr1] at h1
            exact List.drop_subset k s.free h1
          have hinj : ∀ x y : Nat, x % PGSIZE = 0 → y % PGSIZE = 0 → x < MOD64 →
              y < MOD64 → x ≠ y → vpiIdxRaw r x < MOD32 → vpiIdxRaw r y < MOD32 →
              va2vpi_idx r x ≠ va2vpi_idx r y := by
            intro x y hx hy hxm hym hxy hfx hfy
            exact va2vpi_idx_inj r hxm hym hx hy hxy hfx hfy
          refine ⟨?_, ?_, ?_, ?_, ?_, ?_⟩
          · intro i hi
            rcases Nat.eq_zero_or_pos i with hi0 | hipos
            · subst hi0
              refine ⟨p, hpmem, ?_, ?_⟩
              · have hne : ∀ i2, i2 < n →
                    va2vpi_idx r (a + 0 * PGSIZE) ≠
                      va2vpi_idx (vpiSet r1 idx ⟨true, pres, wr, p⟩)
                        (a + PGSIZE + i2 * PGSIZE) := by
                  intro i2 hi2
                  rw [hcongr2]
                  apply hinj
                  · simpa using hal
                  · rw [Nat.add_mul_mod_self_right, Nat.add_mod_right]
                    exact hal
                  · have h1 : (i2 + 1) * PGSIZE ≤ n * PGSIZE :=
                      Nat.mul_le_mul_right _ (by omega)
                    have h2 : (i2 + 1) * PGSIZE = i2 * PGSIZE + PGSIZE := by ring
                    omega
                  · have h1 : (i2 + 1) * PGSIZE ≤ n * PGSIZE :=
                      Nat.mul_le_mul_right _ (by omega)
                    have h2 : (i2 + 1) * PGSIZE = i2 * PGSIZE + PGSIZE := by ring
                    omega
                  · have h1 : (i2 + 1) * PGSIZE ≤ n * PGSIZE :=
                      Nat.mul_le_mul_right _ (by omega)
                    have h2 : (i2 + 1) * PGSIZE = i2 * PGSIZE + PGSIZE := by ring
                    omega
                  · exact hfit 0 (by omega)
                  · have h9 : a + PGSIZE + i2 * PGSIZE = a + (i2 + 1) * PGSIZE := by ring
                    rw [h9]
                    exact hfit (i2 + 1) (by omega)
                have h4 := hunt (va2vpi_idx r (a + 0 * PGSIZE)) hne
                rw [h4]
                have h5 : a + 0 * PGSIZE = a := by ring
                rw [h5, ← hidx]
                rw [vpiGet_set_same r1 idx _ hcf1]
              · intro o
                rcases hmemd p o with h7 | h7
                · rw [h7]
                  show memsetMem p s1.mem p o = 0
                  unfold memsetMem
                  rw [if_pos rfl]
                · exact h7
            · obtain ⟨i2, rfl⟩ : ∃ i2, i = i2 + 1 := ⟨i - 1, by omega⟩
              obtain ⟨p2, hp2mem, hp2get, hp2zero⟩ := hmap i2 (by omega)
              refine ⟨p2, ?_, ?_, hp2zero⟩
              · have h8 : p2 ∈ (⟨rest, memsetMem p s1.mem⟩ : Sys).free := hp2mem
                exact hPmem p2 h8
              · rw [hcongr2] at hp2get
                have h9 : a + PGSIZE + i2 * PGSIZE = a + (i2 + 1) * PGSIZE := by ring
                rw [h9] at hp2get
                exact hp2get
          · intro j hj
            have h4 := hunt j (by
              intro i2 hi2
              rw [hcongr2]
              have h9 : a + PGSIZE + i2 * PGSIZE = a + (i2 + 1) * PGSIZE := by ring
              rw [h9]
              exact hj (i2 + 1) (by omega))
            rw [h4]
            have hne : j ≠ idx := by
              rw [hidx]
              have := hj 0 (by omega)
              have h5 : a + 0 * PGSIZE = a := by ring
              rw [h5] at this
              exact this
            rw [vpiGet_set_other r1 idx j _ hne]
            exact hget1 j
          · rw [hb', hb2, hb1]
          · rw [hsz', hsz2, hsz1]
          · rw [hd', hd2, hd1]
          · intro q o
            rcases hmemd q o with h7 | h7
            · have h8 : (⟨rest, memsetMem p s1.mem⟩ : Sys).mem q o =
                  memsetMem p s1.mem q o := rfl
              rw [h8] at h7
              unfold memsetMem at h7
              by_cases hqp : q = p
              · rw [if_pos hqp] at h7
                right
                exact h7
              · rw [if_neg hqp] at h7
                rw [h7]
                exact hmd1 q o
            · right
              exact h7
    · rw [addmapLoop_succ_fail pres wr a0 sz n hl] at h
      have := rollback_no_success MOD64 r1 (sub64 a PGSIZE) a0 s1 _ r' s' h
      exact absurd this (int32_ne_neg_one hsz31)
    · rw [addmapLoop_succ_fault pres wr a0 sz n hl] at h
      exact absurd h (by simp)

lemma add64_comm (a b : Nat) : add64 a b = add64 b a := by
  unfold add64
  rw [Nat.add_comm]

lemma PGROUNDUP_aligned (a : Nat) : PGROUNDUP a % PGSIZE = 0 := by
  unfold PGROUNDUP
  exact Nat.mul_mod_left _ _

lemma add64_lt (a b : Nat) : add64 a b < MOD64 := by
  unfold add64
  exact Nat.mod_lt _ (by decide)

lemma PGROUNDUP_lt (a : Nat) : PGROUNDUP a < MOD64 := by
  unfold PGROUNDUP
  have h1 : add64 a (PGSIZE - 1) / PGSIZE * PGSIZE ≤ add64 a (PGSIZE - 1) :=
    Nat.div_mul_le_self _ _
  have h2 : add64 a (PGSIZE - 1) < MOD64 := add64_lt _ _
  omega

lemma add64_small {a b : Nat} (h : a + b < MOD64) : add64 a b = a + b := by
  unfold add64
  exact Nat.mod_eq_of_lt h

lemma chunkFor_of_used {r : VRegion} {j : Nat} (h : (vpiGet r j).used = true) :
    chunkFor r j := by
  unfold chunkFor
  by_contra hcon
  have hnone : r.pages[j / VPIPPAGE]? = none :=
    List.getElem?_eq_none (Nat.le_of_not_lt hcon)
  unfold vpiGet at h
  rw [hnone] at h
  exact absurd h (by simp [VpageInfo.zero])

lemma addmapLoop_codes (pres wr : Bool) (a0 sz : Nat) :
    ∀ (n a : Nat) (r : VRegion) (s : Sys) (c : Int) (r' : VRegion) (s' : Sys),
      addmapLoop pres wr a0 sz n a r s = AR.ret c r' s' →
      c = int32 sz ∨ c = -1 := by
  intro n
  induction n with
  | zero =>
    intro a r s c r' s' h
    rw [addmapLoop_zero] at h
    injection h with h1 h2 h3
    exact Or.inl h1.symm
  | succ n ih =>
    intro a r s c r' s' h
    rcases hl : va2vpage_info r a s with ⟨idx, r1, s1⟩ | ⟨r1, s1⟩ | _
    · by_cases hu : (vpiGet r1 idx).used = true
      · rw [addmapLoop_succ_used pres wr a0 sz n hl hu] at h
        exact absurd h (by simp)
      · have hu' : (vpiGet r1 idx).used = false := by simpa using hu
        rcases hf1 : s1.free with _ | ⟨p, rest⟩
        · rw [addmapLoop_succ_nofree pres wr a0 sz n hl hu' hf1] at h
          exact Or.inr (rollback_no_success _ _ _ _ _ _ _ _ h)
        · rw [addmapLoop_succ_step pres wr a0 sz n hl hu' hf1] at h
          exact ih _ _ _ _ _ _ h
    · rw [addmapLoop_succ_fail pres wr a0 sz n hl] at h
      exact Or.inr (rollback_no_success _ _ _ _ _ _ _ _ h)
    · rw [addmapLoop_succ_fault pres wr a0 sz n hl] at h
      exact absurd h (by simp)

lemma addmapLoop_never_success_if_used (pres wr : Bool) (a0 sz : Nat)
    (hsz31 : sz < 2 ^ 31) :
    ∀ (n a : Nat) (r : VRegion) (s : Sys), a % PGSIZE = 0 → a + n * PGSIZE ≤ MOD64 →
      (∃ i, i < n ∧ (vpiGet r (va2vpi_idx r (a + i * PGSIZE))).used = true) →
      ∀ (r' : VRegion) (s' : Sys),
        addmapLoop pres wr a0 sz n a r s ≠ AR.ret (int32 sz) r' s' := by
  intro n
  induction n with
  | zero =>
    intro a r s _ _ hex r' s' _
    obtain ⟨i, hi, _⟩ := hex
    omega
  | succ n ih =>
    intro a r s hal hbound hex r' s' h
    have hP : 0 < PGSIZE := by decide
    have hsP : (n + 1) * PGSIZE = n * PGSIZE + PGSIZE := by ring
    obtain ⟨i, hi, hiu⟩ := hex
    rcases hl : va2vpage_info r a s with ⟨idx, r1, s1⟩ | ⟨r1, s1⟩ | _
    · obtain ⟨hidx, hb1, hsz1, hd1, ⟨k, hpg1, hfr1, hmem1, hk1⟩, hget1, hcf1, hmd1⟩ :=
        locate_ok_spec hl
      have hcongr1 : ∀ va, va2vpi_idx r1 va = va2vpi_idx r va := va2vpi_idx_congr hb1 hd1
      by_cases hu : (vpiGet r1 idx).used = true
      · rw [addmapLoop_succ_used pres wr a0 sz n hl hu] at h
        exact absurd h (by simp)
      · have hu' : (vpiGet r1 idx).used = false := by simpa using hu
        rcases Nat.eq_zero_or_pos i with hi0 | hipos
        · subst hi0
          rw [hget1 idx, hidx] at hu'
          have h5 : a + 0 * PGSIZE = a := by ring
          rw [h5] at hiu
          rw [hiu] at hu'
          exact absurd hu' (by simp)
        · obtain ⟨i2, rfl⟩ : ∃ i2, i = i2 + 1 := ⟨i - 1, by omega⟩
          rcases hf1 : s1.free with _ | ⟨p, rest⟩
          · rw [addmapLoop_succ_nofree pres wr a0 sz n hl hu' hf1] at h
            have := rollback_no_success MOD64 r1 (sub64 a PGSIZE) a0 s1 _ r' s' h
            exact absurd this (int32_ne_neg_one hsz31)
          · rw [addmapLoop_succ_step pres wr a0 sz n hl hu' hf1] at h
            have hb2 := vpiSet_va_base r1 idx ⟨true, pres, wr, p⟩
            have hd2 := vpiSet_dir r1 idx ⟨true, pres, wr, p⟩
            have hcongr2 : ∀ va,
                va2vpi_idx (vpiSet r1 idx ⟨true, pres, wr, p⟩) va = va2vpi_idx r va := by
              intro va
              rw [va2vpi_idx_congr hb2 hd2, hcongr1]
            refine ih (a + PGSIZE) (vpiSet r1 idx ⟨true, pres, wr, p⟩)
              ⟨rest, memsetMem p s1.mem⟩ ?_ ?_ ?_ r' s' h
            · rw [Nat.add_mod_right]
              exact hal
            · omega
            · refine ⟨i2, by omega, ?_⟩
              rw [hcongr2]
              have h9 : a + PGSIZE + i2 * PGSIZE = a + (i2 + 1) * PGSIZE := by ring
              rw [h9]
              by_cases hne : va2vpi_idx r (a + (i2 + 1) * PGSIZE) = idx
              · rw [hne, vpiGet_set_same r1 idx _ hcf1]
              · rw [vpiGet_set_other r1 idx _ _ hne, hget1]
                exact hiu
    · rw [addmapLoop_succ_fail pres wr a0 sz n hl] at h
      have := rollback_no_success MOD64 r1 (sub64 a PGSIZE) a0 s1 _ r' s' h
      exact absurd this (int32_ne_neg_one hsz31)
    · rw [addmapLoop_succ_fault pres wr a0 sz n hl] at h
      exact absurd h (by simp)

/-- C2 (amended): provided `PGROUNDUP(from_va)` is at least one page
(`from_va` neither 0 nor within a page of `2^64`, where the rollback loop's
`uint64` counter wraps — see the counterexample) and the `int`-narrowed
success return is not itself `-1` (`(int)sz != -1`; for `sz ≡ 2^32-1 mod
2^32` a fully successful call also returns `-1`, having rolled back
nothing), a `vregionaddmap` call that returns `-1` has rolled back: the records of the pages this call had mapped
(a prefix of its page range) are cleared to zero, every other record of the
region reads as before, region metadata is unchanged, the store only grew by
retained zeroed chunks, the allocator's page count is restored apart from
those chunks, and pages mapped by earlier calls are untouched (their records
are outside the cleared prefix). -/
theorem c2_rollback (r : VRegion) (from_va sz : Nat) (pres wr : Bool) (s : Sys)
    (r' : VRegion) (s' : Sys) (hup : PGSIZE ≤ PGROUNDUP from_va)
    (hm1 : int32 sz ≠ -1)
    (hres : vregionaddmap r from_va sz pres wr s = AR.ret (-1) r' s') :
    ∃ m, m ≤ pagecount (PGROUNDUP from_va) (add64 from_va sz) ∧
      (∀ i, i < m →
        vpiGet r' (va2vpi_idx r (PGROUNDUP from_va + i * PGSIZE)) = VpageInfo.zero) ∧
      (∀ j, (∀ i, i < m → j ≠ va2vpi_idx r (PGROUNDUP from_va + i * PGSIZE)) →
        vpiGet r' j = vpiGet r j) ∧
      r'.va_base = r.va_base ∧ r'.size = r.size ∧ r'.dir = r.dir ∧
      r.pages.length ≤ r'.pages.length ∧
      s'.free.length + r'.pages.length = s.free.length + r.pages.length ∧
      (∀ q o, s'.mem q o = s.mem q o ∨ s'.mem q o = 0) := by
  by_cases hb : KERNBASE ≤ add64 sz from_va
  · unfold vregionaddmap at hres
    rw [if_pos hb] at hres
    injection hres with h1 h2 h3
    subst h2
    subst h3
    exact ⟨0, Nat.zero_le _, fun i hi => absurd hi (Nat.not_lt_zero i),
      fun j _ => rfl, rfl, rfl, rfl, Nat.le_refl _, rfl, fun q o => Or.inl rfl⟩
  · by_cases hsz : sz = 0
    · unfold vregionaddmap at hres
      rw [if_neg hb, if_pos hsz] at hres
      injection hres with h1 h2 h3
      exact absurd h1 (by decide)
    · unfold vregionaddmap at hres
      rw [if_neg hb, if_neg hsz] at hres
      have hals := PGROUNDUP_aligned from_va
      have hbound : PGROUNDUP from_va +
          (0 + pagecount (PGROUNDUP from_va) (add64 from_va sz) + 1) * PGSIZE ≤
            MOD64 := by
        have hnP : pagecount (PGROUNDUP from_va) (add64 from_va sz) * PGSIZE ≤
            add64 from_va sz - PGROUNDUP from_va + PGSIZE - 1 := by
          unfold pagecount
          exact Nat.div_mul_le_self _ _
        have hlt : PGROUNDUP from_va < MOD64 := PGROUNDUP_lt from_va
        have hst : add64 from_va sz < KERNBASE := by
          rw [add64_comm]
          exact Nat.not_le.mp hb
        have hexp : (0 + pagecount (PGROUNDUP from_va) (add64 from_va sz) + 1) * PGSIZE =
            pagecount (PGROUNDUP from_va) (add64 from_va sz) * PGSIZE + PGSIZE := by
          ring
        unfold PGSIZE KERNBASE MOD64 at *
        omega
      obtain ⟨m, hm0, hmn, hzero, hunt, hbb, hss, hdd, hll, hff, hmm⟩ :=
        addmapLoop_fail_spec pres wr (PGROUNDUP from_va) sz hup hals hm1
          (pagecount (PGROUNDUP from_va) (add64 from_va sz)) 0 r s r' s' hbound
          (fun i hi => absurd hi (Nat.not_lt_zero i)) (by simpa using hres)
      exact ⟨m, by omega, hzero, hunt, hbb, hss, hdd, hll, by omega, hmm⟩

/-- Witness for C2: mapping two pages at `0x1000` with one chunk and one data
page available fails on the second page and rolls back. -/
theorem c2_rollback_witness :
    ∃ m, m ≤ pagecount (PGROUNDUP 0x1000) (add64 0x1000 0x2000) ∧
      (∀ i, i < m →
        vpiGet (AR.reg (vregionaddmap c2reg 0x1000 0x2000 true true c2sys))
          (va2vpi_idx c2reg (PGROUNDUP 0x1000 + i * PGSIZE)) = VpageInfo.zero) ∧
      (∀ j, (∀ i, i < m → j ≠ va2vpi_idx c2reg (PGROUNDUP 0x1000 + i * PGSIZE)) →
        vpiGet (AR.reg (vregionaddmap c2reg 0x1000 0x2000 true true c2sys)) j =
          vpiGet c2reg j) ∧
      (AR.reg (vregionaddmap c2reg 0x1000 0x2000 true true c2sys)).va_base =
        c2reg.va_base ∧
      (AR.reg (vregionaddmap c2reg 0x1000 0x2000 true true c2sys)).size = c2reg.size ∧
      (AR.reg (vregionaddmap c2reg 0x1000 0x2000 true true c2sys)).dir = c2reg.dir ∧
      c2reg.pages.length ≤
        (AR.reg (vregionaddmap c2reg 0x1000 0x2000 true true c2sys)).pages.length ∧
      (AR.sys (vregionaddmap c2reg 0x1000 0x2000 true true c2sys)).free.length +
          (AR.reg (vregionaddmap c2reg 0x1000 0x2000 true true c2sys)).pages.length =
        c2sys.free.length + c2reg.pages.length ∧
      (∀ q o, (AR.sys (vregionaddmap c2reg 0x1000 0x2000 true true c2sys)).mem q o =
          c2sys.mem q o ∨
        (AR.sys (vregionaddmap c2reg 0x1000 0x2000 true true c2sys)).mem q o = 0) :=
  c2_rollback c2reg 0x1000 0x2000 true true c2sys
    (AR.reg (vregionaddmap c2reg 0x1000 0x2000 true true c2sys))
    (AR.sys (vregionaddmap c2reg 0x1000 0x2000 true true c2sys)) (by decide) (by decide)
    rfl

/-- C3 (amended): provided the requested range does not wrap 64 bits
(`from_va + sz < 2^64` — see the counterexample), `sz` fits the `int`
narrowing of the success return (`sz < 2^31`), and every page of the range
has flat record index below `2^32` (so the `int` narrowing of `va2vpi_idx`
does not alias records), a call of `vregionaddmap` with `sz > 0` that
returns a non-negative code returns exactly `sz` (the bytes requested), and
afterwards every page-aligned address of `[PGROUNDUP(from_va), from_va+sz)`
has a record that is mapped with the given present/writable flags and a
freshly acquired physical page whose bytes are all zero; records outside
that page range read as before (per record index unconditionally, and per
aligned address whose own flat index also fits the narrowing), and the
region's metadata — in particular `vr->size` — is unchanged. -/
theorem c3_addmap_success (r : VRegion) (from_va sz : Nat) (pres wr : Bool) (s : Sys)
    (c : Int) (r' : VRegion) (s' : Sys) (hnw : from_va + sz < MOD64) (hsz : 0 < sz)
    (hsz31 : sz < 2 ^ 31)
    (hfit : ∀ i, i < pagecount (PGROUNDUP from_va) (from_va + sz) →
      vpiIdxRaw r (PGROUNDUP from_va + i * PGSIZE) < MOD32)
    (hc : 0 ≤ c) (hres : vregionaddmap r from_va sz pres wr s = AR.ret c r' s') :
    c = Int.ofNat sz ∧
    (∀ va, va % PGSIZE = 0 → PGROUNDUP from_va ≤ va → va < from_va + sz →
      ∃ p, p ∈ s.free ∧ vpiGet r' (va2vpi_idx r va) = ⟨true, pres, wr, p⟩ ∧
        (∀ o, s'.mem p o = 0)) ∧
    (∀ j, (∀ va, va % PGSIZE = 0 → PGROUNDUP from_va ≤ va → va < from_va + sz →
      j ≠ va2vpi_idx r va) → vpiGet r' j = vpiGet r j) ∧
    (∀ vb, vb % PGSIZE = 0 → vb < MOD64 → vpiIdxRaw r vb < MOD32 →
      ¬(PGROUNDUP from_va ≤ vb ∧ vb < from_va + sz) →
      vpiGet r' (va2vpi_idx r vb) = vpiGet r (va2vpi_idx r vb)) ∧
    r'.va_base = r.va_base ∧ r'.size = r.size ∧ r'.dir = r.dir := by
  have hszne : sz ≠ 0 := by omega
  by_cases hb : KERNBASE ≤ add64 sz from_va
  · unfold vregionaddmap at hres
    rw [if_pos hb] at hres
    injection hres with h1 h2 h3
    subst h1
    exact absurd hc (by decide)
  · unfold vregionaddmap at hres
    rw [if_neg hb, if_neg hszne] at hres
    have hcode := addmapLoop_codes pres wr (PGROUNDUP from_va) sz _ _ r s c r' s' hres
    have hcsz : c = Int.ofNat sz := by
      rcases hcode with h | h
      · rw [int32_small hsz31] at h
        exact h
      · subst h
        exact absurd hc (by decide)
    subst hcsz
    rw [← int32_small hsz31] at hres
    have hstop : add64 from_va sz = from_va + sz := add64_small hnw
    rw [hstop] at hres
    have hals := PGROUNDUP_aligned from_va
    have hA0lt : PGROUNDUP from_va < MOD64 := PGROUNDUP_lt from_va
    have hnP : pagecount (PGROUNDUP from_va) (from_va + sz) * PGSIZE ≤
        from_va + sz - PGROUNDUP from_va + PGSIZE - 1 := by
      unfold pagecount
      exact Nat.div_mul_le_self _ _
    have hbound : PGROUNDUP from_va +
        pagecount (PGROUNDUP from_va) (from_va + sz) * PGSIZE ≤ MOD64 := by
      unfold PGSIZE MOD64 at *
      omega
    obtain ⟨hmap, hunt, hb'', hsz'', hd'', hmemd⟩ :=
      addmapLoop_success_spec pres wr (PGROUNDUP from_va) sz hsz31
        (pagecount (PGROUNDUP from_va) (from_va + sz)) (PGROUNDUP from_va) r s r' s'
        hals hbound hfit hres
    have hrange : ∀ i, i < pagecount (PGROUNDUP from_va) (from_va + sz) →
        PGROUNDUP from_va + i * PGSIZE < from_va + sz := by
      intro i hi
      unfold pagecount PGSIZE MOD64 at *
      omega
    have hindex : ∀ va, va % PGSIZE = 0 → PGROUNDUP from_va ≤ va → va < from_va + sz →
        (va - PGROUNDUP from_va) / PGSIZE < pagecount (PGROUNDUP from_va) (from_va + sz) ∧
        PGROUNDUP from_va + (va - PGROUNDUP from_va) / PGSIZE * PGSIZE = va := by
      intro va h1 h2 h3
      unfold pagecount PGSIZE MOD64 at *
      omega
    refine ⟨rfl, ?_, ?_, ?_, hb'', hsz'', hd''⟩
    · intro va h1 h2 h3
      obtain ⟨hi1, hi2⟩ := hindex va h1 h2 h3
      obtain ⟨p, hp1, hp2, hp3⟩ := hmap ((va - PGROUNDUP from_va) / PGSIZE) hi1
      rw [hi2] at hp2
      exact ⟨p, hp1, hp2, hp3⟩
    · intro j hj
      apply hunt
      intro i hi
      apply hj
      · rw [Nat.add_mul_mod_self_right]
        exact hals
      · omega
      · exact hrange i hi
    · intro vb h1 h2 hfitb h3
      apply hunt
      intro i hi
      apply va2vpi_idx_inj r h2
      · unfold PGSIZE MOD64 at *
        omega
      · exact h1
      · rw [Nat.add_mul_mod_self_right]
        exact hals
      · intro hcon
        apply h3
        rw [hcon]
        exact ⟨Nat.le_add_right _ _, hrange i hi⟩
      · exact hfitb
      · exact hfit i hi

/-- Witness for C3: mapping two pages at `0x1000` with a sufficient
allocator. -/
theorem c3_addmap_success_witness :
    (0x2000 : Int) = Int.ofNat 0x2000 ∧
    (∀ va, va % PGSIZE = 0 → PGROUNDUP 0x1000 ≤ va → va < 0x1000 + 0x2000 →
      ∃ p, p ∈ c3sys.free ∧
        vpiGet (AR.reg (vregionaddmap c2reg 0x1000 0x2000 true false c3sys))
          (va2vpi_idx c2reg va) = ⟨true, true, false, p⟩ ∧
        (∀ o, (AR.sys (vregionaddmap c2reg 0x1000 0x2000 true false c3sys)).mem p o = 0)) ∧
    (∀ j, (∀ va, va % PGSIZE = 0 → PGROUNDUP 0x1000 ≤ va → va < 0x1000 + 0x2000 →
      j ≠ va2vpi_idx c2reg va) →
      vpiGet (AR.reg (vregionaddmap c2reg 0x1000 0x2000 true false c3sys)) j =
        vpiGet c2reg j) ∧
    (∀ vb, vb % PGSIZE = 0 → vb < MOD64 → vpiIdxRaw c2reg vb < MOD32 →
      ¬(PGROUNDUP 0x1000 ≤ vb ∧ vb < 0x1000 + 0x2000) →
      vpiGet (AR.reg (vregionaddmap c2reg 0x1000 0x2000 true false c3sys))
          (va2vpi_idx c2reg vb) =
        vpiGet c2reg (va2vpi_idx c2reg vb)) ∧
    (AR.reg (vregionaddmap c2reg 0x1000 0x2000 true false c3sys)).va_base =
      c2reg.va_base ∧
    (AR.reg (vregionaddmap c2reg 0x1000 0x2000 true false c3sys)).size = c2reg.size ∧
    (AR.reg (vregionaddmap c2reg 0x1000 0x2000 true false c3sys)).dir = c2reg.dir :=
  c3_addmap_success c2reg 0x1000 0x2000 true false c3sys 0x2000
    (AR.reg (vregionaddmap c2reg 0x1000 0x2000 true false c3sys))
    (AR.sys (vregionaddmap c2reg 0x1000 0x2000 true false c3sys))
    (by decide) (by decide) (by decide) (by decide) (by decide) rfl

/-- C8 (amended): when a page of the requested range is already mapped —
mapped at the record the code actually consults, i.e. at the `int`-narrowed
index `va2vpi_idx` — and `sz < 2^31` (so the narrowed success return
`(int)sz` is non-negative and distinguishable from the `-1` failure),
`vregionaddmap` never silently succeeds or overwrites: any normal return is
the `-1` failure, which happens only when an allocation for an earlier page
of the range fails before the loop reaches the mapped page (see the
counterexample); when the already-mapped page is the first page of the
range, the `assert(!vpi->used)` invariant fault always fires. -/
theorem c8_double_map (r : VRegion) (from_va sz : Nat) (pres wr : Bool) (s : Sys)
    (p : Nat) (hb : add64 sz from_va < KERNBASE) (hsz : 0 < sz)
    (hsz31 : sz < 2 ^ 31)
    (hnw : from_va + sz < MOD64) (hp : p % PGSIZE = 0)
    (hp1 : PGROUNDUP from_va ≤ p) (hp2 : p < from_va + sz)
    (hused : (vpiGet r (va2vpi_idx r p)).used = true) :
    (∀ c r' s', vregionaddmap r from_va sz pres wr s = AR.ret c r' s' → c = -1) ∧
    (p = PGROUNDUP from_va →
      vregionaddmap r from_va sz pres wr s = AR.fault Fault.assertUsed) := by
  have hszne : sz ≠ 0 := by omega
  have hbK : ¬KERNBASE ≤ add64 sz from_va := Nat.not_le.mpr hb
  have hstop : add64 from_va sz = from_va + sz := add64_small hnw
  have hals := PGROUNDUP_aligned from_va
  have hA0lt : PGROUNDUP from_va < MOD64 := PGROUNDUP_lt from_va
  have hnP : pagecount (PGROUNDUP from_va) (from_va + sz) * PGSIZE ≤
      from_va + sz - PGROUNDUP from_va + PGSIZE - 1 := by
    unfold pagecount
    exact Nat.div_mul_le_self _ _
  have hbound : PGROUNDUP from_va +
      pagecount (PGROUNDUP from_va) (from_va + sz) * PGSIZE ≤ MOD64 := by
    unfold PGSIZE MOD64 at *
    omega
  constructor
  · intro c r' s' hres
    unfold vregionaddmap at hres
    rw [if_neg hbK, if_neg hszne, hstop] at hres
    rcases addmapLoop_codes pres wr (PGROUNDUP from_va) sz _ _ r s c r' s' hres with
      hcode | hcode
    · subst hcode
      exfalso
      refine addmapLoop_never_success_if_used pres wr (PGROUNDUP from_va) sz hsz31
        (pagecount (PGROUNDUP from_va) (from_va + sz)) (PGROUNDUP from_va) r s hals
        hbound ⟨(p - PGROUNDUP from_va) / PGSIZE, ?_, ?_⟩ r' s' hres
      · unfold pagecount PGSIZE at *
        omega
      · have hiva : PGROUNDUP from_va + (p - PGROUNDUP from_va) / PGSIZE * PGSIZE = p := by
          unfold PGSIZE at *
          omega
        rw [hiva]
        exact hused
    · exact hcode
  · intro hpeq
    subst hpeq
    unfold vregionaddmap
    rw [if_neg hbK, if_neg hszne, hstop]
    obtain ⟨n', hn⟩ : ∃ n', pagecount (PGROUNDUP from_va) (from_va + sz) = n' + 1 := by
      refine ⟨pagecount (PGROUNDUP from_va) (from_va + sz) - 1, ?_⟩
      unfold pagecount PGSIZE at *
      omega
    rw [hn]
    have hcf : chunkFor r (va2vpi_idx r (PGROUNDUP from_va)) := chunkFor_of_used hused
    exact addmapLoop_succ_used pres wr (PGROUNDUP from_va) sz n'
      (locate_of_chunkFor r (PGROUNDUP from_va) s hcf) hused

/-- Witness for C8: a range whose first page is already mapped faults, and
any normal return of such a call is `-1`. -/
theorem c8_double_map_witness :
    (∀ c r' s', vregionaddmap c8r1 0x1000 0x1000 true true sysEmpty = AR.ret c r' s' →
      c = -1) ∧
    (0x1000 = PGROUNDUP 0x1000 →
      vregionaddmap c8r1 0x1000 0x1000 true true sysEmpty =
        AR.fault Fault.assertUsed) :=
  c8_double_map c8r1 0x1000 0x1000 true true sysEmpty 0x1000 (by decide) (by decide)
    (by decide) (by decide) (by decide) (by decide) (by decide) (by decide)

lemma updatePages_zero (a : Nat) (r : VRegion) (t : PTbl) (s : Sys) :
    updatePages 0 a r t s = RStep.ok r t s := rfl

lemma updatePages_succ_used {a : Nat} {r : VRegion} {s : Sys} (n : Nat) (t : PTbl)
    {idx : Nat} {r1 : VRegion} {s1 : Sys}
    (hl : va2vpage_info r a s = LRes.ok idx r1 s1) (hu : (vpiGet r1 idx).used = true) :
    updatePages (n + 1) a r t s =
      updatePages n (a + PGSIZE) r1
        (mappages t (a / PGSIZE) (vpiGet r1 idx).ppn (x86perms (vpiGet r1 idx))) s1 := by
  conv_lhs => unfold updatePages
  rw [hl]
  simp only [hu, if_pos]

lemma updatePages_succ_unused {a : Nat} {r : VRegion} {s : Sys} (n : Nat) (t : PTbl)
    {idx : Nat} {r1 : VRegion} {s1 : Sys}
    (hl : va2vpage_info r a s = LRes.ok idx r1 s1) (hu : (vpiGet r1 idx).used = false) :
    updatePages (n + 1) a r t s = updatePages n (a + PGSIZE) r1 t s1 := by
  conv_lhs => unfold updatePages
  rw [hl]
  simp only [hu, Bool.false_eq_true, if_neg, ite_false]

lemma updatePages_succ_fail {a : Nat} {r : VRegion} {s : Sys} (n : Nat) (t : PTbl)
    {r1 : VRegion} {s1 : Sys} (hl : va2vpage_info r a s = LRes.fail r1 s1) :
    updatePages (n + 1) a r t s = RStep.fault Fault.nullDeref := by
  conv_lhs => unfold updatePages
  rw [hl]

lemma updatePages_succ_fault {a : Nat} {r : VRegion} {s : Sys} (n : Nat) (t : PTbl)
    (hl : va2vpage_info r a s = LRes.fault) :
    updatePages (n + 1) a r t s = RStep.fault Fault.memsetNull := by
  conv_lhs => unfold updatePages
  rw [hl]

/-- The per-region page loop of `vspaceupdate`: on success the region's
records read as before (the store may have grown), metadata is unchanged,
entries outside the processed virtual page numbers are untouched, and each
processed page's entry is installed from its record when `used` and left
alone otherwise. -/
lemma updatePages_spec :
    ∀ (n a : Nat) (r : VRegion) (t : PTbl) (s : Sys) (r1 : VRegion) (t1 : PTbl) (s1 : Sys),
      updatePages n a r t s = RStep.ok r1 t1 s1 →
      (∀ i, vpiGet r1 i = vpiGet r i) ∧ r1.va_base = r.va_base ∧ r1.size = r.size ∧
      r1.dir = r.dir ∧
      (∀ vpn, (∀ i, i < n → vpn ≠ a / PGSIZE + i) → t1 vpn = t vpn) ∧
      (∀ i, i < n →
        t1 (a / PGSIZE + i) =
          if (vpiGet r (va2vpi_idx r (a + i * PGSIZE))).used then
            some ((vpiGet r (va2vpi_idx r (a + i * PGSIZE))).ppn,
              x86perms (vpiGet r (va2vpi_idx r (a + i * PGSIZE))))
          else t (a / PGSIZE + i)) := by
  intro n
  induction n with
  | zero =>
    intro a r t s r1 t1 s1 h
    rw [updatePages_zero] at h
    injection h with h1 h2 h3
    subst h1
    subst h2
    subst h3
    exact ⟨fun i => rfl, rfl, rfl, rfl, fun vpn _ => rfl,
      fun i hi => absurd hi (Nat.not_lt_zero i)⟩
  | succ n ih =>
    intro a r t s r1 t1 s1 h
    have hP : 0 < PGSIZE := by decide
    have hdiv : (a + PGSIZE) / PGSIZE = a / PGSIZE + 1 := by
      rw [Nat.add_div_right _ hP]
    rcases hl : va2vpage_info r a s with ⟨idx, rx, sx⟩ | ⟨rx, sx⟩ | _
    · obtain ⟨hidx, hb1, hsz1, hd1, _, hget1, hcf1, _⟩ := locate_ok_spec hl
      have hcongr1 : ∀ va, va2vpi_idx rx va = va2vpi_idx r va := va2vpi_idx_congr hb1 hd1
      by_cases hu : (vpiGet rx idx).used = true
      · rw [updatePages_succ_used n t hl hu] at h
        obtain ⟨hget', hb', hsz', hd', hunt', hins'⟩ := ih (a + PGSIZE) rx _ sx r1 t1 s1 h
        refine ⟨?_, ?_, ?_, ?_, ?_, ?_⟩
        · intro i
          rw [hget' i, hget1 i]
        · rw [hb', hb1]
        · rw [hsz', hsz1]
        · rw [hd', hd1]
        · intro vpn hvpn
          have h2 := hunt' vpn (by
            intro i hi
            rw [hdiv]
            have : a / PGSIZE + 1 + i = a / PGSIZE + (i + 1) := by omega
            rw [this]
            exact hvpn (i + 1) (by omega))
          rw [h2]
          unfold mappages
          rw [if_neg]
          have := hvpn 0 (by omega)
          omega
        · intro i hi
          rcases Nat.eq_zero_or_pos i with hi0 | hipos
          · subst hi0
            have h2 := hunt' (a / PGSIZE) (by
              intro i2 hi2
              rw [hdiv]
              omega)
            simp only [Nat.add_zero, Nat.zero_mul]
            rw [h2]
            unfold mappages
            rw [if_pos rfl]
            rw [← hidx]
            rw [hget1 idx] at hu
            rw [hget1 idx]
            rw [if_pos hu]
          · obtain ⟨i2, rfl⟩ : ∃ i2, i = i2 + 1 := ⟨i - 1, by omega⟩
            have h2 := hins' i2 (by omega)
            rw [hdiv] at h2
            have h3 : a / PGSIZE + 1 + i2 = a / PGSIZE + (i2 + 1) := by omega
            have h4 : a + PGSIZE + i2 * PGSIZE = a + (i2 + 1) * PGSIZE := by ring
            rw [h3, h4] at h2
            rw [h2]
            rw [hcongr1, hget1]
            by_cases hu2 : (vpiGet r (va2vpi_idx r (a + (i2 + 1) * PGSIZE))).used = true
            · rw [if_pos hu2, if_pos hu2]
            · have hu2' : (vpiGet r (va2vpi_idx r (a + (i2 + 1) * PGSIZE))).used = false := by
                simpa using hu2
              rw [if_neg (by rw [hu2']; simp), if_neg (by rw [hu2']; simp)]
              unfold mappages
              rw [if_neg (by omega)]
      · have hu' : (vpiGet rx idx).used = false := by simpa using hu
        rw [updatePages_succ_unused n t hl hu'] at h
        obtain ⟨hget', hb', hsz', hd', hunt', hins'⟩ := ih (a + PGSIZE) rx _ sx r1 t1 s1 h
        refine ⟨?_, ?_, ?_, ?_, ?_, ?_⟩
        · intro i
          rw [hget' i, hget1 i]
        · rw [hb', hb1]
        · rw [hsz', hsz1]
        · rw [hd', hd1]
        · intro vpn hvpn
          exact hunt' vpn (by
            intro i hi
            rw [hdiv]
            have : a / PGSIZE + 1 + i = a / PGSIZE + (i + 1) := by omega
            rw [this]
            exact hvpn (i + 1) (by omega))
        · intro i hi
          rcases Nat.eq_zero_or_pos i with hi0 | hipos
          · subst hi0
            have h2 := hunt' (a / PGSIZE) (by
              intro i2 hi2
              rw [hdiv]
              omega)
            simp only [Nat.add_zero, Nat.zero_mul]
            rw [h2]
            rw [← hidx]
            rw [hget1 idx] at hu'
            rw [if_neg (by rw [hu']; simp)]
          · obtain ⟨i2, rfl⟩ : ∃ i2, i = i2 + 1 := ⟨i - 1, by omega⟩
            have h2 := hins' i2 (by omega)
            rw [hdiv] at h2
            have h3 : a / PGSIZE + 1 + i2 = a / PGSIZE + (i2 + 1) := by omega
            have h4 : a + PGSIZE + i2 * PGSIZE = a + (i2 + 1) * PGSIZE := by ring
            rw [h3, h4] at h2
            rw [h2]
            rw [hcongr1, hget1]
    · rw [updatePages_succ_fail n t hl] at h
      exact absurd h (by simp)
    · rw [updatePages_succ_fault n t hl] at h
      exact absurd h (by simp)

/-- One region of the rebuild: on success `VRBOT` was page-aligned, the
region reads and metadata are unchanged, entries at virtual page numbers not
covered by an aligned address of the extent are untouched, and each aligned
address of the extent gets its record's mapping iff the record is `used`. -/
lemma updateRegion_spec {r : VRegion} {t : PTbl} {s : Sys} {r1 : VRegion} {t1 : PTbl} {s1 : Sys}
    (h : updateRegion r t s = RStep.ok r1 t1 s1) :
    (∀ i, vpiGet r1 i = vpiGet r i) ∧ r1.va_base = r.va_base ∧ r1.size = r.size ∧
    r1.dir = r.dir ∧
    (∀ vpn, (∀ va, va % PGSIZE = 0 → VRBOT r ≤ va → va < VRTOP r → vpn ≠ va / PGSIZE) →
      t1 vpn = t vpn) ∧
    (∀ va, va % PGSIZE = 0 → VRBOT r ≤ va → va < VRTOP r →
      t1 (va / PGSIZE) =
        if (vpiGet r (va2vpi_idx r va)).used then
          some ((vpiGet r (va2vpi_idx r va)).ppn, x86perms (vpiGet r (va2vpi_idx r va)))
        else t (va / PGSIZE)) := by
  unfold updateRegion at h
  by_cases hal : VRBOT r % PGSIZE = 0
  · rw [if_pos hal] at h
    obtain ⟨hget, hb, hsz, hd, hunt, hins⟩ := updatePages_spec _ _ _ _ _ _ _ _ h
    refine ⟨hget, hb, hsz, hd, ?_, ?_⟩
    · intro vpn hvpn
      apply hunt
      intro i hi
      have hlt : VRBOT r + i * PGSIZE < VRTOP r := by
        unfold pagecount at hi
        unfold PGSIZE at hi ⊢
        omega
      have hva : (VRBOT r + i * PGSIZE) % PGSIZE = 0 := by
        unfold PGSIZE at hal ⊢
        omega
      have hq : (VRBOT r + i * PGSIZE) / PGSIZE = VRBOT r / PGSIZE + i :=
        Nat.add_mul_div_right _ _ (by decide : 0 < PGSIZE)
      have h2 := hvpn (VRBOT r + i * PGSIZE) hva (Nat.le_add_right _ _) hlt
      rw [hq] at h2
      exact h2
    · intro va hva hlo hhi
      have hk1 : va = VRBOT r + (va - VRBOT r) / PGSIZE * PGSIZE := by
        unfold PGSIZE at hva hal ⊢
        omega
      have hk2 : (va - VRBOT r) / PGSIZE < pagecount (VRBOT r) (VRTOP r) := by
        unfold pagecount
        unfold PGSIZE at hva hal ⊢
        omega
      have h2 := hins _ hk2
      have hq : (VRBOT r + (va - VRBOT r) / PGSIZE * PGSIZE) / PGSIZE =
          VRBOT r / PGSIZE + (va - VRBOT r) / PGSIZE :=
        Nat.add_mul_div_right _ _ (by decide : 0 < PGSIZE)
      rw [← hk1] at h2 hq
      rw [← hq] at h2
      exact h2
  · rw [if_neg hal] at h
    exact absurd h (by simp)

/-- The bit content of `x86perms`: `PTE_P` iff present, `PTE_W` iff
writable, `PTE_U` always. -/
lemma x86perms_bits (v : VpageInfo) :
    (x86perms v &&& PTE_P ≠ 0 ↔ v.present = true) ∧
    (x86perms v &&& PTE_W ≠ 0 ↔ v.writable = true) ∧
    x86perms v &&& PTE_U ≠ 0 := by
  have he : x86perms v = 4 + (if v.present then 1 else 0) + (if v.writable then 2 else 0) := rfl
  rcases hp : v.present <;> rcases hw : v.writable <;> rw [he, hp, hw] <;> decide

/-- Reading the permission bits back out of an installed-or-absent entry. -/
lemma entry_bits {t : PTbl} {vpn : Nat} {v : VpageInfo}
    (h : t vpn = if v.used then some (v.ppn, x86perms v) else none) :
    ((∃ ppn perms, t vpn = some (ppn, perms) ∧ perms &&& PTE_P ≠ 0) ↔
      v.used = true ∧ v.present = true) ∧
    (∀ ppn perms, t vpn = some (ppn, perms) →
      ppn = v.ppn ∧ perms &&& PTE_U ≠ 0 ∧
      (perms &&& PTE_P ≠ 0 ↔ v.present = true) ∧
      (perms &&& PTE_W ≠ 0 ↔ v.writable = true)) := by
  obtain ⟨hP, hW, hU⟩ := x86perms_bits v
  by_cases hu : v.used = true
  · rw [if_pos hu] at h
    constructor
    · constructor
      · rintro ⟨ppn, perms, he, hp⟩
        rw [h] at he
        injection he with he1
        rw [Prod.mk.injEq] at he1
        obtain ⟨he2, he3⟩ := he1
        rw [← he3] at hp
        exact ⟨hu, hP.mp hp⟩
      · rintro ⟨hu2, hp2⟩
        exact ⟨v.ppn, x86perms v, h, hP.mpr hp2⟩
    · intro ppn perms he
      rw [h] at he
      injection he with he1
      rw [Prod.mk.injEq] at he1
      obtain ⟨he2, he3⟩ := he1
      rw [← he2, ← he3]
      exact ⟨rfl, hU, hP, hW⟩
  · rw [if_neg hu] at h
    constructor
    · constructor
      · rintro ⟨ppn, perms, he, hp⟩
        rw [h] at he
        exact absurd he (by simp)
      · rintro ⟨hu2, _⟩
        exact absurd hu2 hu
    · intro ppn perms he
      rw [h] at he
      exact absurd he (by simp)

/-- A one-page mapped code region (record at index 0), empty heap and
ustack, empty tree: a concrete input for the rebuild equivalence. -/
def c1wChunk : Chunk := chunkSet zeroChunk 0 ⟨true, true, false, 42⟩

/-- Concrete address space for the rebuild witness. -/
def c1wVs : VSpaceT :=
  ⟨⟨0x10000, 0x1000, VRDir.up, [c1wChunk]⟩,
   ⟨0x12000, 0, VRDir.up, []⟩,
   ⟨0x16000, 0, VRDir.down, []⟩,
   fun _ => none⟩

/-- Concrete allocator state for the rebuild witness. -/
def c1wSys : Sys := ⟨[], memZero⟩

/-- C1 (amended): for an address space whose region extents lie below
2^39 — the range whose top-level entries the rebuild clears — and are
pairwise disjoint, after `vspaceupdate` succeeds the region records read as
before, and for every page-aligned address in a region's extent the
rebuilt tree holds exactly the record's mapping: an entry iff the record is
`used`, targeting the record's physical page, with `PTE_U` always set,
`PTE_P` iff `present` and `PTE_W` iff `writable`; in particular an entry
with the present bit exists iff the record has `used = true` and
`present = true`. -/
theorem c1_rebuild_sync (vs : VSpaceT) (s : Sys) (vs' : VSpaceT) (s' : Sys)
    (hok : vspaceupdate vs s = UR.ok vs' s')
    (htop : ∀ i, i < 3 → VRTOP (getR vs i) ≤ 2 ^ 39)
    (hdisj : ∀ i, i < 3 → ∀ j, j < 3 → i ≠ j →
      VRTOP (getR vs i) ≤ VRBOT (getR vs j) ∨ VRTOP (getR vs j) ≤ VRBOT (getR vs i)) :
    (∀ i j, vpiGet (getR vs' i) j = vpiGet (getR vs i) j) ∧
    (∀ i, i < 3 → ∀ va, va % PGSIZE = 0 →
      VRBOT (getR vs i) ≤ va → va < VRTOP (getR vs i) →
      vs'.pgtbl (va / PGSIZE) =
        (if (vpiGet (getR vs i) (va2vpi_idx (getR vs i) va)).used then
          some ((vpiGet (getR vs i) (va2vpi_idx (getR vs i) va)).ppn,
            x86perms (vpiGet (getR vs i) (va2vpi_idx (getR vs i) va)))
        else none) ∧
      ((∃ ppn perms, vs'.pgtbl (va / PGSIZE) = some (ppn, perms) ∧ perms &&& PTE_P ≠ 0) ↔
        (vpiGet (getR vs i) (va2vpi_idx (getR vs i) va)).used = true ∧
        (vpiGet (getR vs i) (va2vpi_idx (getR vs i) va)).present = true) ∧
      (∀ ppn perms, vs'.pgtbl (va / PGSIZE) = some (ppn, perms) →
        ppn = (vpiGet (getR vs i) (va2vpi_idx (getR vs i) va)).ppn ∧
        perms &&& PTE_U ≠ 0 ∧
        (perms &&& PTE_P ≠ 0 ↔ (vpiGet (getR vs i) (va2vpi_idx (getR vs i) va)).present = true) ∧
        (perms &&& PTE_W ≠ 0 ↔
          (vpiGet (getR vs i) (va2vpi_idx (getR vs i) va)).writable = true))) := by
  unfold vspaceupdate at hok
  rcases hc : updateRegion vs.code (clearUser vs.pgtbl) s with ⟨cr, tc, sc⟩ | f
  · rw [hc] at hok
    dsimp only at hok
    rcases hh : updateRegion vs.heap tc sc with ⟨hr, th, sh⟩ | f
    · rw [hh] at hok
      dsimp only at hok
      rcases hu : updateRegion vs.ustack th sh with ⟨ur, tu, su⟩ | f
      · rw [hu] at hok
        dsimp only at hok
        injection hok with h1 h2
        subst h1
        subst h2
        obtain ⟨cget, cb, csz, cd, cunt, cins⟩ := updateRegion_spec hc
        obtain ⟨hget, hb2, hsz2, hd2, hunt, hins⟩ := updateRegion_spec hh
        obtain ⟨uget, ub, usz, ud, uunt, uins⟩ := updateRegion_spec hu
        constructor
        · intro i j
          by_cases h0 : i = 0
          · subst h0
            exact cget j
          · by_cases h1' : i = 1
            · subst h1'
              exact hget j
            · have e1 : getR (VSpaceT.mk cr hr ur tu) i = ur := by
                unfold getR
                rw [if_neg h0, if_neg h1']
              have e2 : getR vs i = vs.ustack := by
                unfold getR
                rw [if_neg h0, if_neg h1']
              rw [e1, e2]
              exact uget j
        · intro i hi va hva hlo hhi
          have hcl : va / PGSIZE < UPDATE_CLEAR_VPNS := by
            have h3 := htop i hi
            unfold UPDATE_CLEAR_VPNS
            unfold PGSIZE
            omega
          have hclear : clearUser vs.pgtbl (va / PGSIZE) = none := by
            unfold clearUser
            rw [if_pos hcl]
          have hmiss : ∀ j, j < 3 → j ≠ i →
              ∀ va', va' % PGSIZE = 0 → VRBOT (getR vs j) ≤ va' →
                va' < VRTOP (getR vs j) → va / PGSIZE ≠ va' / PGSIZE := by
            intro j hj hij va' hva' hlo' hhi' heq
            have hne : va = va' := by
              unfold PGSIZE at hva hva' heq
              omega
            rcases hdisj i hi j hj (fun he => hij he.symm) with hcase | hcase <;> omega
          interval_cases i
          · have hc0 := cins va hva hlo hhi
            rw [hclear] at hc0
            have hh0 : th (va / PGSIZE) = tc (va / PGSIZE) :=
              hunt _ (hmiss 1 (by omega) (by omega))
            have hu0 : tu (va / PGSIZE) = th (va / PGSIZE) :=
              uunt _ (hmiss 2 (by omega) (by omega))
            have hfin : tu (va / PGSIZE) =
                if (vpiGet vs.code (va2vpi_idx vs.code va)).used then
                  some ((vpiGet vs.code (va2vpi_idx vs.code va)).ppn,
                    x86perms (vpiGet vs.code (va2vpi_idx vs.code va)))
                else none := by
              rw [hu0, hh0]
              exact hc0
            exact ⟨hfin, (entry_bits hfin).1, (entry_bits hfin).2⟩
          · have hc1 : tc (va / PGSIZE) = none := by
              have h4 := cunt _ (hmiss 0 (by omega) (by omega))
              rw [hclear] at h4
              exact h4
            have hh1 := hins va hva hlo hhi
            rw [hc1] at hh1
            have hu1 : tu (va / PGSIZE) = th (va / PGSIZE) :=
              uunt _ (hmiss 2 (by omega) (by omega))
            have hfin : tu (va / PGSIZE) =
                if (vpiGet vs.heap (va2vpi_idx vs.heap va)).used then
                  some ((vpiGet vs.heap (va2vpi_idx vs.heap va)).ppn,
                    x86perms (vpiGet vs.heap (va2vpi_idx vs.heap va)))
                else none := by
              rw [hu1]
              exact hh1
            exact ⟨hfin, (entry_bits hfin).1, (entry_bits hfin).2⟩
          · have hc2 : tc (va / PGSIZE) = none := by
              have h4 := cunt _ (hmiss 0 (by omega) (by omega))
              rw [hclear] at h4
              exact h4
            have hh2 : th (va / PGSIZE) = none := by
              have h4 := hunt _ (hmiss 1 (by omega) (by omega))
              rw [hc2] at h4
              exact h4
            have hu2 := uins va hva hlo hhi
            rw [hh2] at hu2
            exact ⟨hu2, (entry_bits hu2).1, (entry_bits hu2).2⟩
      · rw [hu] at hok
        exact absurd hok (by simp)
    · rw [hh] at hok
      exact absurd hok (by simp)
  · rw [hc] at hok
    exact absurd hok (by simp)

/-- Witness for C1: the concrete one-page address space; `vspaceupdate`
succeeds and the rebuilt tree holds the code page's mapping at its virtual
page number, exactly as the record dictates. -/
theorem c1_rebuild_sync_witness :
    ((vspaceupdate c1wVs c1wSys).vsOf).pgtbl (0x10000 / PGSIZE) =
      (if (vpiGet (getR c1wVs 0) (va2vpi_idx (getR c1wVs 0) 0x10000)).used then
        some ((vpiGet (getR c1wVs 0) (va2vpi_idx (getR c1wVs 0) 0x10000)).ppn,
          x86perms (vpiGet (getR c1wVs 0) (va2vpi_idx (getR c1wVs 0) 0x10000)))
      else none) :=
  ((c1_rebuild_sync c1wVs c1wSys ((vspaceupdate c1wVs c1wSys).vsOf)
      ((vspaceupdate c1wVs c1wSys).sysOf) rfl (by decide) (by decide)).2 0 (by decide)
    0x10000 (by decide) (by decide) (by decide)).1

lemma writeLoop_stop (data : Nat → Nat) (stop fuel va dOff szLeft : Nat) (vs : VSpaceT)
    (s : Sys) (h : ¬ va < stop) :
    writeLoop data stop (fuel + 1) va dOff szLeft vs s = WR.ret 0 vs s := by
  conv_lhs => unfold writeLoop
  rw [if_neg h]

lemma writeLoop_noregion (data : Nat → Nat) (stop fuel va dOff szLeft : Nat) (vs : VSpaceT)
    (s : Sys) (h : va < stop) (hr : va2vregionIdx vs va = none) :
    writeLoop data stop (fuel + 1) va dOff szLeft vs s = WR.ret (-1) vs s := by
  conv_lhs => unfold writeLoop
  rw [if_pos h, hr]

lemma writeLoop_notwritable (data : Nat → Nat) (stop fuel va dOff szLeft : Nat)
    (vs : VSpaceT) (s : Sys) (i : Nat) {idx : Nat} {r1 : VRegion} {s1 : Sys}
    (h : va < stop) (hr : va2vregionIdx vs va = some i)
    (hl : va2vpage_info (getR vs i) va s = LRes.ok idx r1 s1)
    (hu : (vpiGet r1 idx).used = true) (hw : (vpiGet r1 idx).writable = false) :
    writeLoop data stop (fuel + 1) va dOff szLeft vs s = WR.ret (-1) (setR vs i r1) s1 := by
  conv_lhs => unfold writeLoop
  rw [if_pos h, hr]
  dsimp only
  rw [hl]
  dsimp only
  simp only [hu, if_pos]
  simp only [hw, Bool.false_eq_true, if_neg, ite_false]

lemma writeLoop_step (data : Nat → Nat) (stop fuel va dOff szLeft : Nat)
    (vs : VSpaceT) (s : Sys) (i : Nat) {idx : Nat} {r1 : VRegion} {s1 : Sys}
    (h : va < stop) (hr : va2vregionIdx vs va = some i)
    (hl : va2vpage_info (getR vs i) va s = LRes.ok idx r1 s1)
    (hu : (vpiGet r1 idx).used = true) (hw : (vpiGet r1 idx).writable = true) :
    writeLoop data stop (fuel + 1) va dOff szLeft vs s =
      writeLoop data stop fuel (va + min (PGROUNDUP va - va) szLeft)
        (dOff + min (PGROUNDUP va - va) szLeft)
        (szLeft - min (PGROUNDUP va - va) szLeft) (setR vs i r1)
        (writeBytes (vpiGet r1 idx).ppn (va % PGSIZE) data dOff
          (min (PGROUNDUP va - va) szLeft) s1) := by
  conv_lhs => unfold writeLoop
  rw [if_pos h, hr]
  dsimp only
  rw [hl]
  dsimp only
  simp only [hu, hw, if_pos]

lemma writeBytes_zero (ppn off : Nat) (data : Nat → Nat) (dOff : Nat) (s : Sys) :
    writeBytes ppn off data dOff 0 s = s := by
  unfold writeBytes
  have h : (fun q o => if q = ppn ∧ off ≤ o ∧ o < off + 0 then data (dOff + (o - off))
      else s.mem q o) = s.mem := by
    funext q o
    rw [if_neg (by omega)]
  rw [h]

lemma setR_getR (vs : VSpaceT) (i : Nat) : setR vs i (getR vs i) = vs := by
  unfold setR getR
  split_ifs <;> rfl

/-- At a page-aligned address whose containing page passes all the checks,
the write loop makes no progress (`wsz = 0`): the C loop never exits,
whatever the remaining size.  Fuel exhaustion surfaces as `Fault.spin`. -/
lemma writeLoop_spin (data : Nat → Nat) (stop va dOff szLeft : Nat) (vs : VSpaceT) (s : Sys)
    (i : Nat) (hb : va < MOD64) (hva : va % PGSIZE = 0) (hlt : va < stop)
    (hreg : va2vregionIdx vs va = some i)
    (hcf : chunkFor (getR vs i) (va2vpi_idx (getR vs i) va))
    (hused : (vpiGet (getR vs i) (va2vpi_idx (getR vs i) va)).used = true)
    (hwr : (vpiGet (getR vs i) (va2vpi_idx (getR vs i) va)).writable = true) :
    ∀ fuel, writeLoop data stop fuel va dOff szLeft vs s = WR.fault Fault.spin := by
  have h0 : PGROUNDUP va - va = 0 := by
    unfold PGROUNDUP add64 PGSIZE MOD64 at *
    omega
  intro fuel
  induction fuel with
  | zero => rfl
  | succ n ih =>
    have hl := locate_of_chunkFor (getR vs i) va s hcf
    rw [writeLoop_step data stop n va dOff szLeft vs s i hlt hreg hl hused hwr]
    rw [h0, Nat.zero_min]
    simp only [Nat.add_zero, Nat.sub_zero]
    rw [setR_getR, writeBytes_zero]
    exact ih

/-- C10 (amended): with `sz > 0` and no `uint64` wrap (`va + sz < KERNBASE`
as exact integers), `vspacewritetova` is not atomic, but its page walk only
progresses within the first page: (1) when `va` lies in no region it returns
-1 with nothing written; for a first page that exists and is `used`: (2) if
not writable it returns -1 with nothing written; if writable, (3) a write
confined to the tail of the first page (`va + sz ≤ PGROUNDUP(va)`) returns 0
having copied exactly `data[0..sz)` to that page's bytes at `va % PGSIZE`,
touching nothing else; and once the write would continue at the page
boundary `PGROUNDUP(va)` (`PGROUNDUP(va) < va + sz`), (4) if that aligned
address passes the same checks the loop computes `wsz = 0` forever and never
returns (divergence, `Fault.spin`), while (5) if it lies in no region the
call returns -1 with the first page's tail bytes already copied and left in
place. -/
theorem c10_writetova (vs : VSpaceT) (s : Sys) (va sz : Nat) (data : Nat → Nat)
    (hsz : 0 < sz) (hk : va + sz < KERNBASE) :
    (va2vregionIdx vs va = none →
      vspacewritetova vs va data sz s = WR.ret (-1) vs s) ∧
    (∀ i, va2vregionIdx vs va = some i →
      chunkFor (getR vs i) (va2vpi_idx (getR vs i) va) →
      (vpiGet (getR vs i) (va2vpi_idx (getR vs i) va)).used = true →
      (((vpiGet (getR vs i) (va2vpi_idx (getR vs i) va)).writable = false →
        vspacewritetova vs va data sz s = WR.ret (-1) vs s) ∧
      ((vpiGet (getR vs i) (va2vpi_idx (getR vs i) va)).writable = true →
        (va + sz ≤ PGROUNDUP va →
          vspacewritetova vs va data sz s =
            WR.ret 0 vs (writeBytes (vpiGet (getR vs i) (va2vpi_idx (getR vs i) va)).ppn
              (va % PGSIZE) data 0 sz s) ∧
          (∀ o, o < sz →
            (writeBytes (vpiGet (getR vs i) (va2vpi_idx (getR vs i) va)).ppn
              (va % PGSIZE) data 0 sz s).mem
                (vpiGet (getR vs i) (va2vpi_idx (getR vs i) va)).ppn (va % PGSIZE + o) =
              data o) ∧
          (∀ q o, q ≠ (vpiGet (getR vs i) (va2vpi_idx (getR vs i) va)).ppn ∨
              o < va % PGSIZE ∨ va % PGSIZE + sz ≤ o →
            (writeBytes (vpiGet (getR vs i) (va2vpi_idx (getR vs i) va)).ppn
              (va % PGSIZE) data 0 sz s).mem q o = s.mem q o)) ∧
        (PGROUNDUP va < va + sz →
          (∀ j, va2vregionIdx vs (PGROUNDUP va) = some j →
            chunkFor (getR vs j) (va2vpi_idx (getR vs j) (PGROUNDUP va)) →
            (vpiGet (getR vs j) (va2vpi_idx (getR vs j) (PGROUNDUP va))).used = true →
            (vpiGet (getR vs j) (va2vpi_idx (getR vs j) (PGROUNDUP va))).writable = true →
            vspacewritetova vs va data sz s = WR.fault Fault.spin) ∧
          (va2vregionIdx vs (PGROUNDUP va) = none →
            vspacewritetova vs va data sz s =
              WR.ret (-1) vs
                (writeBytes (vpiGet (getR vs i) (va2vpi_idx (getR vs i) va)).ppn
                  (va % PGSIZE) data 0 (PGROUNDUP va - va) s)))))) := by
  have hadd : add64 va sz = va + sz := by
    unfold add64 MOD64
    unfold KERNBASE at hk
    omega
  have hstart : vspacewritetova vs va data sz s =
      writeLoop data (va + sz) (sz + 1) va 0 sz vs s := by
    unfold vspacewritetova
    rw [if_neg (by omega), if_neg (by rw [hadd]; omega), hadd]
  have hvaup : va ≤ PGROUNDUP va := by
    unfold PGROUNDUP add64 PGSIZE MOD64
    unfold KERNBASE at hk
    omega
  constructor
  · intro hnone
    rw [hstart, writeLoop_noregion data (va + sz) sz va 0 sz vs s (by omega) hnone]
  · intro i hreg hcf hused
    have hl := locate_of_chunkFor (getR vs i) va s hcf
    constructor
    · intro hw
      rw [hstart,
        writeLoop_notwritable data (va + sz) sz va 0 sz vs s i (by omega) hreg hl hused hw,
        setR_getR]
    · intro hw
      constructor
      · intro hle
        have hmin : min (PGROUNDUP va - va) sz = sz := by omega
        refine ⟨?_, ?_, ?_⟩
        · rw [hstart,
            writeLoop_step data (va + sz) sz va 0 sz vs s i (by omega) hreg hl hused hw,
            hmin, setR_getR]
          obtain ⟨f, hf⟩ : ∃ f, sz = f + 1 := ⟨sz - 1, by omega⟩
          rw [hf]
          exact writeLoop_stop _ _ _ _ _ _ _ _ (by omega)
        · intro o ho
          unfold writeBytes
          dsimp only
          rw [if_pos ⟨rfl, by omega, by omega⟩]
          congr 1
          omega
        · intro q o hq
          unfold writeBytes
          dsimp only
          rw [if_neg (by rcases hq with h | h | h <;> omega)]
      · intro hgt
        have hmin : min (PGROUNDUP va - va) sz = PGROUNDUP va - va := by omega
        have hvap : va + (PGROUNDUP va - va) = PGROUNDUP va := by omega
        constructor
        · intro j hregj hcfj husedj hwrj
          by_cases hal : va % PGSIZE = 0
          · have hpe : PGROUNDUP va = va := by
              unfold PGROUNDUP add64 PGSIZE MOD64
              unfold PGSIZE at hal
              unfold KERNBASE at hk
              omega
            rw [hpe] at hregj hcfj husedj hwrj
            rw [hstart]
            exact writeLoop_spin data (va + sz) va 0 sz vs s j
              (by unfold MOD64; unfold KERNBASE at hk; omega) hal (by omega)
              hregj hcfj husedj hwrj (sz + 1)
          · rw [hstart,
              writeLoop_step data (va + sz) sz va 0 sz vs s i (by omega) hreg hl hused hw,
              hmin, setR_getR, hvap]
            obtain ⟨f, hf⟩ : ∃ f, sz = f + 1 := ⟨sz - 1, by omega⟩
            rw [hf]
            exact writeLoop_spin data (va + (f + 1)) (PGROUNDUP va) _ _ vs _ j
              (by unfold PGROUNDUP add64 PGSIZE MOD64; unfold KERNBASE at hk; omega)
              (PGROUNDUP_aligned va) (by omega) hregj hcfj husedj hwrj (f + 1)
        · intro hnone2
          by_cases hal : va % PGSIZE = 0
          · have hpe : PGROUNDUP va = va := by
              unfold PGROUNDUP add64 PGSIZE MOD64
              unfold PGSIZE at hal
              unfold KERNBASE at hk
              omega
            rw [hpe, hreg] at hnone2
            exact absurd hnone2 (by simp)
          · rw [hstart,
              writeLoop_step data (va + sz) sz va 0 sz vs s i (by omega) hreg hl hused hw,
              hmin, setR_getR, hvap]
            obtain ⟨f, hf⟩ : ∃ f, sz = f + 1 := ⟨sz - 1, by omega⟩
            rw [hf]
            exact writeLoop_noregion _ _ _ _ _ _ _ _ (by omega) hnone2

/-- Concrete address space for the write witness: one writable mapped code
page at `[0x10000, 0x11000)`. -/
def c10wVs : VSpaceT :=
  ⟨⟨0x10000, 0x1000, VRDir.up, [chunkSet zeroChunk 0 ⟨true, true, true, 9⟩]⟩,
   ⟨0x12000, 0, VRDir.up, []⟩,
   ⟨0x16000, 0, VRDir.down, []⟩,
   fun _ => none⟩

/-- Concrete allocator state for the write witness. -/
def c10wSys : Sys := ⟨[], memZero⟩

/-- Witness for C10: a 0x20-byte write at the unaligned address 0x10010 of
the writable mapped page returns 0 and lands in that page's frame. -/
theorem c10_writetova_witness :
    vspacewritetova c10wVs 0x10010 memZeroData 0x20 c10wSys =
      WR.ret 0 c10wVs
        (writeBytes (vpiGet (getR c10wVs 0) (va2vpi_idx (getR c10wVs 0) 0x10010)).ppn
          (0x10010 % PGSIZE) memZeroData 0 0x20 c10wSys) :=
  ((((c10_writetova c10wVs c10wSys 0x10010 0x20 memZeroData (by decide) (by decide)).2
      0 (by decide) (by unfold chunkFor; decide) (by decide)).2 (by decide)).1
    (by decide)).1

lemma take_subset_self {α : Type} (k : Nat) (l : List α) : l.take k ⊆ l :=
  (List.take_sublist k l).subset

/-- The rebuild loop touches memory only through chunk allocation: the free
list shrinks to a suffix and pages not on the incoming free list keep their
bytes. -/
lemma updatePages_alloc :
    ∀ (n a : Nat) (r : VRegion) (t : PTbl) (s : Sys) (r1 : VRegion) (t1 : PTbl) (s1 : Sys),
      updatePages n a r t s = RStep.ok r1 t1 s1 →
      (∃ k, s1.free = s.free.drop k) ∧ ∀ q, q ∉ s.free → s1.mem q = s.mem q := by
  intro n
  induction n with
  | zero =>
    intro a r t s r1 t1 s1 h
    rw [updatePages_zero] at h
    injection h with h1 h2 h3
    subst h2
    subst h3
    exact ⟨⟨0, rfl⟩, fun q _ => rfl⟩
  | succ n ih =>
    intro a r t s r1 t1 s1 h
    rcases hl : va2vpage_info r a s with ⟨idx, rx, sx⟩ | ⟨rx, sx⟩ | _
    · obtain ⟨-, -, -, -, ⟨k, -, hfree, hmem, -⟩, -, -, -⟩ := locate_ok_spec hl
      have step : ∀ (t' : PTbl), updatePages n (a + PGSIZE) rx t' sx = RStep.ok r1 t1 s1 →
          (∃ k2, s1.free = s.free.drop k2) ∧ ∀ q, q ∉ s.free → s1.mem q = s.mem q := by
        intro t' h'
        obtain ⟨⟨k2, hf2⟩, hm2⟩ := ih (a + PGSIZE) rx t' sx r1 t1 s1 h'
        constructor
        · refine ⟨k + k2, ?_⟩
          rw [hf2, hfree, List.drop_drop]
        · intro q hq
          have hq1 : q ∉ s.free.take k := fun hc => hq (take_subset_self k s.free hc)
          have hq2 : q ∉ sx.free := by
            rw [hfree]
            intro hc
            exact hq (List.drop_subset k s.free hc)
          rw [hm2 q hq2, hmem q hq1]
      by_cases hu : (vpiGet rx idx).used = true
      · rw [updatePages_succ_used n t hl hu] at h
        exact step _ h
      · have hu' : (vpiGet rx idx).used = false := by simpa using hu
        rw [updatePages_succ_unused n t hl hu'] at h
        exact step _ h
    · rw [updatePages_succ_fail n t hl] at h
      exact absurd h (by simp)
    · rw [updatePages_succ_fault n t hl] at h
      exact absurd h (by simp)

lemma updateRegion_alloc {r : VRegion} {t : PTbl} {s : Sys} {r1 : VRegion} {t1 : PTbl}
    {s1 : Sys} (h : updateRegion r t s = RStep.ok r1 t1 s1) :
    (∃ k, s1.free = s.free.drop k) ∧ ∀ q, q ∉ s.free → s1.mem q = s.mem q := by
  unfold updateRegion at h
  by_cases hal : VRBOT r % PGSIZE = 0
  · rw [if_pos hal] at h
    exact updatePages_alloc _ _ _ _ _ _ _ _ h
  · rw [if_neg hal] at h
    exact absurd h (by simp)

/-- A successful rebuild keeps every region's records and metadata, shrinks
the free list to a suffix, and leaves the bytes of every page not on the
incoming free list unchanged. -/
lemma vspaceupdate_preserve {vs : VSpaceT} {s : Sys} {vs' : VSpaceT} {s' : Sys}
    (h : vspaceupdate vs s = UR.ok vs' s') :
    (∀ i j, vpiGet (getR vs' i) j = vpiGet (getR vs i) j) ∧
    (∀ i, (getR vs' i).va_base = (getR vs i).va_base ∧
      (getR vs' i).size = (getR vs i).size ∧ (getR vs' i).dir = (getR vs i).dir) ∧
    (∃ k, s'.free = s.free.drop k) ∧
    (∀ q, q ∉ s.free → s'.mem q = s.mem q) := by
  unfold vspaceupdate at h
  rcases hc : updateRegion vs.code (clearUser vs.pgtbl) s with ⟨cr, tc, sc⟩ | f
  · rw [hc] at h
    dsimp only at h
    rcases hh : updateRegion vs.heap tc sc with ⟨hr, th, sh⟩ | f
    · rw [hh] at h
      dsimp only at h
      rcases hu : updateRegion vs.ustack th sh with ⟨ur, tu, su⟩ | f
      · rw [hu] at h
        dsimp only at h
        injection h with h1 h2
        subst h1
        subst h2
        obtain ⟨cget, cb, csz, cd, -, -⟩ := updateRegion_spec hc
        obtain ⟨hget, hb2, hsz2, hd2, -, -⟩ := updateRegion_spec hh
        obtain ⟨uget, ub, usz, ud, -, -⟩ := updateRegion_spec hu
        obtain ⟨⟨k1, hf1⟩, hm1⟩ := updateRegion_alloc hc
        obtain ⟨⟨k2, hf2⟩, hm2⟩ := updateRegion_alloc hh
        obtain ⟨⟨k3, hf3⟩, hm3⟩ := updateRegion_alloc hu
        have hreads : ∀ i j, vpiGet (getR (VSpaceT.mk cr hr ur tu) i) j =
            vpiGet (getR vs i) j := by
          intro i j
          by_cases h0 : i = 0
          · subst h0
            exact cget j
          · by_cases h1' : i = 1
            · subst h1'
              exact hget j
            · have e1 : getR (VSpaceT.mk cr hr ur tu) i = ur := by
                unfold getR
                rw [if_neg h0, if_neg h1']
              have e2 : getR vs i = vs.ustack := by
                unfold getR
                rw [if_neg h0, if_neg h1']
              rw [e1, e2]
              exact uget j
        have hmeta : ∀ i, (getR (VSpaceT.mk cr hr ur tu) i).va_base = (getR vs i).va_base ∧
            (getR (VSpaceT.mk cr hr ur tu) i).size = (getR vs i).size ∧
            (getR (VSpaceT.mk cr hr ur tu) i).dir = (getR vs i).dir := by
          intro i
          by_cases h0 : i = 0
          · subst h0
            exact ⟨cb, csz, cd⟩
          · by_cases h1' : i = 1
            · subst h1'
              exact ⟨hb2, hsz2, hd2⟩
            · have e1 : getR (VSpaceT.mk cr hr ur tu) i = ur := by
                unfold getR
                rw [if_neg h0, if_neg h1']
              have e2 : getR vs i = vs.ustack := by
                unfold getR
                rw [if_neg h0, if_neg h1']
              rw [e1, e2]
              exact ⟨ub, usz, ud⟩
        refine ⟨hreads, hmeta, ⟨k1 + (k2 + k3), ?_⟩, ?_⟩
        · rw [hf3, hf2, hf1, List.drop_drop, List.drop_drop]
        · intro q hq
          have hq1 : q ∉ sc.free := by
            rw [hf1]
            intro hcon
            exact hq (List.drop_subset k1 s.free hcon)
          have hq2 : q ∉ sh.free := by
            rw [hf2]
            intro hcon
            exact hq1 (List.drop_subset k2 sc.free hcon)
          rw [hm3 q hq2, hm2 q hq1, hm1 q hq]
      · rw [hu] at h
        exact absurd h (by simp)
    · rw [hh] at h
      exact absurd h (by simp)
  · rw [hc] at h
    exact absurd h (by simp)

lemma copyChunkRecs_zero (src acc : Chunk) (i : Nat) (s : Sys) :
    copyChunkRecs src acc i 0 s = (acc, s, true) := rfl

lemma copyChunkRecs_unused (src acc : Chunk) (i fuel : Nat) (s : Sys)
    (hu : (src i).used = false) :
    copyChunkRecs src acc i (fuel + 1) s = copyChunkRecs src acc (i + 1) fuel s := by
  conv_lhs => unfold copyChunkRecs
  simp only [hu, Bool.false_eq_true, if_neg, ite_false]

lemma copyChunkRecs_used_nil (src acc : Chunk) (i fuel : Nat) (s : Sys)
    (hu : (src i).used = true) (hf : s.free = []) :
    copyChunkRecs src acc i (fuel + 1) s =
      (chunkSet acc i ⟨true, (src i).present, (src i).writable, 0⟩, s, false) := by
  conv_lhs => unfold copyChunkRecs
  simp only [hu, if_pos]
  rw [hf]

lemma copyChunkRecs_used_cons (src acc : Chunk) (i fuel : Nat) (s : Sys) (p : Nat)
    (rest : List Nat) (hu : (src i).used = true) (hf : s.free = p :: rest) :
    copyChunkRecs src acc i (fuel + 1) s =
      copyChunkRecs src (chunkSet acc i ⟨true, (src i).present, (src i).writable, p⟩)
        (i + 1) fuel ⟨rest, fun q o => if q = p then s.mem (src i).ppn o else s.mem q o⟩ := by
  conv_lhs => unfold copyChunkRecs
  simp only [hu, if_pos]
  rw [hf]

/-- The record loop of `copy_vpi_page` on one chunk, success case: some
prefix of the free list is consumed, one fresh page per used source record;
the destination record copies the flags and points at the fresh page whose
bytes equal the source page's bytes in the final state; memory off the
consumed prefix and records outside the scanned range are untouched. -/
lemma copyChunkRecs_spec (src : Chunk) :
    ∀ (fuel i : Nat) (acc : Chunk) (s : Sys) (c' : Chunk) (s' : Sys),
      copyChunkRecs src acc i fuel s = (c', s', true) →
      s.free.Nodup →
      (∀ j, i ≤ j → j < i + fuel → (src j).used = true → (src j).ppn ∉ s.free) →
      ∃ k, k ≤ s.free.length ∧ s'.free = s.free.drop k ∧
        (∀ q, q ∉ s.free.take k → s'.mem q = s.mem q) ∧
        (∀ j, (j < i ∨ i + fuel ≤ j) → c' j = acc j) ∧
        (∀ j, i ≤ j → j < i + fuel →
          ((src j).used = true →
            ∃ p, p ∈ s.free.take k ∧
              c' j = ⟨true, (src j).present, (src j).writable, p⟩ ∧
              (∀ o, s'.mem p o = s.mem (src j).ppn o)) ∧
          ((src j).used = false → c' j = acc j)) := by
  intro fuel
  induction fuel with
  | zero =>
    intro i acc s c' s' h hnd hsrc
    rw [copyChunkRecs_zero] at h
    injection h with h1 h2
    injection h2 with h2 h3
    subst h1
    subst h2
    refine ⟨0, by omega, rfl, fun q _ => rfl, fun j _ => rfl, fun j hj1 hj2 => ?_⟩
    exact absurd hj2 (by omega)
  | succ fuel ih =>
    intro i acc s c' s' h hnd hsrc
    by_cases hu : (src i).used = true
    · rcases hfr : s.free with _ | ⟨p, rest⟩
      · rw [copyChunkRecs_used_nil src acc i fuel s hu hfr] at h
        injection h with h1 h2
        injection h2 with h2 h3
        exact absurd h3 (by simp)
      · rw [copyChunkRecs_used_cons src acc i fuel s p rest hu hfr] at h
        set s2 : Sys := ⟨rest, fun q o => if q = p then s.mem (src i).ppn o else s.mem q o⟩
          with hs2
        have hnd' : rest.Nodup := by
          rw [hfr] at hnd
          exact (List.nodup_cons.mp hnd).2
        have hpnotin : p ∉ rest := by
          rw [hfr] at hnd
          exact (List.nodup_cons.mp hnd).1
        have hsrc' : ∀ j, i + 1 ≤ j → j < i + 1 + fuel → (src j).used = true →
            (src j).ppn ∉ rest := by
          intro j h1 h2 h3 hc
          exact hsrc j (by omega) (by omega) h3 (by rw [hfr]; exact List.mem_cons_of_mem p hc)
        obtain ⟨k, hk, hfree', hmem', hout', hrec'⟩ := ih (i + 1) _ s2 c' s' h hnd' hsrc'
        have hk2 : k ≤ rest.length := hk
        refine ⟨k + 1, ?_, ?_, ?_, ?_, ?_⟩
        · simp only [List.length_cons]
          omega
        · rw [List.drop_succ_cons]
          exact hfree'
        · intro q hq
          rw [List.take_succ_cons] at hq
          have hqp : q ≠ p := fun he => hq (he ▸ List.mem_cons_self p _)
          have hqk : q ∉ rest.take k := fun hc => hq (List.mem_cons_of_mem p hc)
          rw [hmem' q hqk]
          funext o
          show (if q = p then s.mem (src i).ppn o else s.mem q o) = s.mem q o
          rw [if_neg hqp]
        · intro j hj
          have h4 := hout' j (by omega)
          rw [h4]
          unfold chunkSet
          rw [if_neg (by omega)]
        · intro j hj1 hj2
          by_cases hji : j = i
          · subst hji
            constructor
            · intro _
              refine ⟨p, ?_, ?_, ?_⟩
              · rw [List.take_succ_cons]
                exact List.mem_cons_self _ _
              · have h4 := hout' j (by omega)
                rw [h4]
                unfold chunkSet
                rw [if_pos rfl]
              · intro o
                have hp' : p ∉ rest.take k := fun hc => hpnotin (take_subset_self k rest hc)
                have h5 : s'.mem p = s2.mem p := hmem' p hp'
                rw [h5]
                show (if p = p then s.mem (src j).ppn o else s.mem p o) = s.mem (src j).ppn o
                rw [if_pos rfl]
            · intro hcon
              rw [hu] at hcon
              exact absurd hcon (by simp)
          · obtain ⟨hused_part, hunused_part⟩ := hrec' j (by omega) (by omega)
            constructor
            · intro hj3
              obtain ⟨q, hq1, hq2, hq3⟩ := hused_part hj3
              refine ⟨q, ?_, hq2, ?_⟩
              · rw [List.take_succ_cons]
                exact List.mem_cons_of_mem p hq1
              · intro o
                rw [hq3 o]
                have hne : (src j).ppn ≠ p := by
                  intro he
                  exact hsrc j (by omega) (by omega) hj3
                    (by rw [hfr, he]; exact List.mem_cons_self _ _)
                show (if (src j).ppn = p then s.mem (src i).ppn o else s.mem (src j).ppn o) =
                  s.mem (src j).ppn o
                rw [if_neg hne]
            · intro hj3
              rw [hunused_part hj3]
              unfold chunkSet
              rw [if_neg (by omega)]
    · have hu' : (src i).used = false := by simpa using hu
      rw [copyChunkRecs_unused src acc i fuel s hu'] at h
      have hsrc' : ∀ j, i + 1 ≤ j → j < i + 1 + fuel → (src j).used = true →
          (src j).ppn ∉ s.free := fun j h1 h2 h3 => hsrc j (by omega) (by omega) h3
      obtain ⟨k, hk, hfree', hmem', hout', hrec'⟩ := ih (i + 1) acc s c' s' h hnd hsrc'
      refine ⟨k, hk, hfree', hmem', ?_, ?_⟩
      · intro j hj
        exact hout' j (by omega)
      · intro j hj1 hj2
        by_cases hji : j = i
        · subst hji
          constructor
          · intro hcon
            rw [hu'] at hcon
            exact absurd hcon (by simp)
          · intro _
            exact hout' j (by omega)
        · exact hrec' j (by omega) (by omega)

lemma mem_take_mono {α : Type} {a : α} {l : List α} {m n : Nat} (h : m ≤ n)
    (ha : a ∈ l.take m) : a ∈ l.take n := by
  have h2 : l.take m = (l.take n).take m := by
    rw [List.take_take, Nat.min_eq_left h]
  rw [h2] at ha
  exact take_subset_self m (l.take n) ha

lemma mem_take_drop {α : Type} {a : α} {l : List α} {m n : Nat}
    (ha : a ∈ (l.drop m).take n) : a ∈ l.take (m + n) := by
  have h2 : (l.drop m).take n = (l.take (m + n)).drop m := by
    rw [List.drop_take]
    congr 1
    omega
  rw [h2] at ha
  exact List.drop_subset m _ ha

lemma not_mem_drop_of_mem_take {α : Type} {a : α} {l : List α} {m : Nat} (hnd : l.Nodup)
    (ha : a ∈ l.take m) : a ∉ l.drop m := by
  intro hc
  have hap : (l.take m ++ l.drop m).Nodup := by
    rw [List.take_append_drop]
    exact hnd
  exact List.disjoint_of_nodup_append hap ha hc

lemma copy_vpi_page_nil (s : Sys) : copy_vpi_page [] s = ([], s, true) := rfl

lemma copy_vpi_page_cons_nofree (c : Chunk) (cs : List Chunk) (s : Sys) (hf : s.free = []) :
    copy_vpi_page (c :: cs) s = ([], s, false) := by
  conv_lhs => unfold copy_vpi_page
  rw [hf]

lemma copy_vpi_page_cons_ok (c : Chunk) (cs : List Chunk) (s : Sys) (p : Nat)
    (rest : List Nat) (hf : s.free = p :: rest) {c1 : Chunk} {s3 : Sys}
    (hc : copyChunkRecs c zeroChunk 0 VPIPPAGE ⟨rest, memsetMem p s.mem⟩ = (c1, s3, true)) :
    copy_vpi_page (c :: cs) s =
      (c1 :: (copy_vpi_page cs s3).1, (copy_vpi_page cs s3).2.1,
        (copy_vpi_page cs s3).2.2) := by
  conv_lhs => unfold copy_vpi_page
  rw [hf]
  dsimp only
  rw [hc]
  rfl

lemma copy_vpi_page_cons_fail (c : Chunk) (cs : List Chunk) (s : Sys) (p : Nat)
    (rest : List Nat) (hf : s.free = p :: rest) {c1 : Chunk} {s3 : Sys}
    (hc : copyChunkRecs c zeroChunk 0 VPIPPAGE ⟨rest, memsetMem p s.mem⟩ = (c1, s3, false)) :
    copy_vpi_page (c :: cs) s = ([c1], s3, false) := by
  conv_lhs => unfold copy_vpi_page
  rw [hf]
  dsimp only
  rw [hc]
  rfl

/-- `copy_vpi_page` on a whole chunk list, success case: the output list has
one chunk per source chunk; every used source record gets a copy with the
same flags and a fresh page — drawn from the consumed prefix of the free
list — holding the same bytes as the source page in the final state; unused
records copy as zero.  Memory off the consumed prefix is untouched.
Requires the free list to be duplicate-free and the source pages to be off
the free list (the allocator invariant for pages in use). -/
lemma copy_vpi_page_spec :
    ∀ (cs : List Chunk) (s : Sys) (l' : List Chunk) (s' : Sys),
      copy_vpi_page cs s = (l', s', true) →
      s.free.Nodup →
      (∀ c ∈ cs, ∀ j, j < VPIPPAGE → (c j).used = true → (c j).ppn ∉ s.free) →
      ∃ k, s'.free = s.free.drop k ∧
        (∀ q, q ∉ s.free.take k → s'.mem q = s.mem q) ∧
        l'.length = cs.length ∧
        (∀ (ci : Nat) (cc : Chunk), cs[ci]? = some cc → ∃ c2 : Chunk, l'[ci]? = some c2 ∧
          ∀ j, j < VPIPPAGE →
            (((cc j).used = true →
              ∃ p, p ∈ s.free.take k ∧
                c2 j = ⟨true, (cc j).present, (cc j).writable, p⟩ ∧
                (∀ o, s'.mem p o = s.mem (cc j).ppn o)) ∧
            ((cc j).used = false → c2 j = VpageInfo.zero))) := by
  intro cs
  induction cs with
  | nil =>
    intro s l' s' h hnd hsrc
    rw [copy_vpi_page_nil] at h
    injection h with h1 h2
    injection h2 with h2 h3
    subst h1
    subst h2
    exact ⟨0, rfl, fun q _ => rfl, rfl, fun ci cc hcc => absurd hcc (by simp)⟩
  | cons c cs ih =>
    intro s l' s' h hnd hsrc
    rcases hfr : s.free with _ | ⟨p, rest⟩
    · rw [copy_vpi_page_cons_nofree c cs s hfr] at h
      injection h with h1 h2
      injection h2 with h2 h3
      exact absurd h3 (by simp)
    · have hndc := hnd
      rw [hfr, List.nodup_cons] at hndc
      obtain ⟨hpnotin, hnd'⟩ := hndc
      rcases hcc : copyChunkRecs c zeroChunk 0 VPIPPAGE ⟨rest, memsetMem p s.mem⟩
        with ⟨c1, s3, b⟩
      rcases b with _ | _
      · rw [copy_vpi_page_cons_fail c cs s p rest hfr hcc] at h
        injection h with h1 h2
        injection h2 with h2 h3
        exact absurd h3 (by simp)
      · rw [copy_vpi_page_cons_ok c cs s p rest hfr hcc] at h
        rcases hrec : copy_vpi_page cs s3 with ⟨l2, s4, b2⟩
        rw [hrec] at h
        injection h with h1 h2
        injection h2 with h2 h3
        have hb2 : b2 = true := h3
        subst hb2
        have hsrcc : ∀ j, 0 ≤ j → j < 0 + VPIPPAGE → (c j).used = true →
            (c j).ppn ∉ rest := by
          intro j _ hj hju hcon
          exact hsrc c (List.mem_cons_self c cs) j (by omega) hju
            (by rw [hfr]; exact List.mem_cons_of_mem p hcon)
        obtain ⟨k1, hk1, hfree1, hmem1, hout1, hrec1⟩ :=
          copyChunkRecs_spec c VPIPPAGE 0 zeroChunk ⟨rest, memsetMem p s.mem⟩ c1 s3 hcc
            hnd' hsrcc
        have hfree1' : s3.free = rest.drop k1 := hfree1
        have hnd3 : s3.free.Nodup := by
          rw [hfree1']
          exact List.Nodup.sublist (List.drop_sublist k1 rest) hnd'
        have hsrc3 : ∀ cc ∈ cs, ∀ j, j < VPIPPAGE → (cc j).used = true →
            (cc j).ppn ∉ s3.free := by
          intro cc hccs j hj hju hcon
          rw [hfree1'] at hcon
          exact hsrc cc (List.mem_cons_of_mem c hccs) j hj hju
            (by rw [hfr]; exact List.mem_cons_of_mem p (List.drop_subset k1 rest hcon))
        obtain ⟨k2, hfree2, hmem2, hlen2, hchunks2⟩ := ih s3 l2 s4 hrec hnd3 hsrc3
        have hppn_mem_pres : ∀ ppn : Nat, ppn ∉ s.free → s4.mem ppn = s.mem ppn := by
          intro ppn hpp
          have hp1 : ppn ∉ s3.free.take k2 := by
            intro hcon
            apply hpp
            rw [hfr]
            refine List.mem_cons_of_mem p ?_
            rw [hfree1'] at hcon
            exact take_subset_self _ _ (mem_take_drop hcon)
          have hp2 : ppn ∉ rest.take k1 := by
            intro hcon
            exact hpp (by rw [hfr]; exact List.mem_cons_of_mem p (take_subset_self _ _ hcon))
          have hp3 : ppn ≠ p := by
            intro he
            exact hpp (by rw [hfr, he]; exact List.mem_cons_self _ _)
          rw [hmem2 ppn hp1, hmem1 ppn hp2]
          funext o
          show (if ppn = p then 0 else s.mem ppn o) = s.mem ppn o
          rw [if_neg hp3]
        refine ⟨1 + (k1 + k2), ?_, ?_, ?_, ?_⟩
        · rw [← h2, hfree2, hfree1', List.drop_drop]
          have he : 1 + (k1 + k2) = (k1 + k2) + 1 := by omega
          rw [he, List.drop_succ_cons]
        · intro q hq
          have hq0 : (p :: rest).take (1 + (k1 + k2)) = p :: rest.take (k1 + k2) := by
            have : 1 + (k1 + k2) = (k1 + k2) + 1 := by omega
            rw [this, List.take_succ_cons]
          rw [hq0] at hq
          have hqp : q ≠ p := fun he => hq (he ▸ List.mem_cons_self p _)
          have hq1 : q ∉ rest.take (k1 + k2) := fun hc => hq (List.mem_cons_of_mem p hc)
          have hq2 : q ∉ s3.free.take k2 := by
            intro hcon
            rw [hfree1'] at hcon
            exact hq1 (mem_take_drop hcon)
          have hq3 : q ∉ rest.take k1 := fun hc => hq1 (mem_take_mono (by omega) hc)
          rw [← h2, hmem2 q hq2, hmem1 q hq3]
          funext o
          show (if q = p then 0 else s.mem q o) = s.mem q o
          rw [if_neg hqp]
        · rw [← h1]
          simp only [List.length_cons]
          rw [hlen2]
        · intro ci cc hcs
          rcases ci with _ | ci
          · rw [List.getElem?_cons_zero] at hcs
            injection hcs with hcs
            subst hcs
            refine ⟨c1, by rw [← h1, List.getElem?_cons_zero], ?_⟩
            intro j hj
            obtain ⟨husedp, hunusedp⟩ := hrec1 j (by omega) (by omega)
            constructor
            · intro hju
              obtain ⟨q, hq1, hq2, hq3⟩ := husedp hju
              have hq1' : q ∈ rest.take k1 := hq1
              refine ⟨q, ?_, hq2, ?_⟩
              · have hq0 : (p :: rest).take (1 + (k1 + k2)) = p :: rest.take (k1 + k2) := by
                  have : 1 + (k1 + k2) = (k1 + k2) + 1 := by omega
                  rw [this, List.take_succ_cons]
                rw [hq0]
                exact List.mem_cons_of_mem p (mem_take_mono (by omega) hq1')
              · intro o
                have hqk2 : q ∉ s3.free.take k2 := by
                  intro hcon
                  rw [hfree1'] at hcon
                  exact not_mem_drop_of_mem_take hnd' hq1' (take_subset_self _ _ hcon)
                have h5 : s4.mem q = s3.mem q := hmem2 q hqk2
                rw [← h2, h5, hq3 o]
                have hne : (c j).ppn ≠ p := by
                  intro he
                  exact hsrc c (List.mem_cons_self c cs) j (by omega) hju
                    (by rw [hfr, he]; exact List.mem_cons_self _ _)
                show (if (c j).ppn = p then 0 else s.mem (c j).ppn o) = s.mem (c j).ppn o
                rw [if_neg hne]
            · intro hju
              rw [hunusedp hju]
              rfl
          · rw [List.getElem?_cons_succ] at hcs
            obtain ⟨c2, hc2, hrecs⟩ := hchunks2 ci cc hcs
            refine ⟨c2, by rw [← h1, List.getElem?_cons_succ]; exact hc2, ?_⟩
            intro j hj
            obtain ⟨husedp, hunusedp⟩ := hrecs j hj
            constructor
            · intro hju
              obtain ⟨q, hq1, hq2, hq3⟩ := husedp hju
              refine ⟨q, ?_, hq2, ?_⟩
              · have hq0 : (p :: rest).take (1 + (k1 + k2)) = p :: rest.take (k1 + k2) := by
                  have : 1 + (k1 + k2) = (k1 + k2) + 1 := by omega
                  rw [this, List.take_succ_cons]
                rw [hq0]
                refine List.mem_cons_of_mem p ?_
                rw [hfree1'] at hq1
                exact mem_take_drop hq1
              · intro o
                rw [← h2, hq3 o]
                have hppn2 : (cc j).ppn ∉ rest.take k1 := by
                  intro hcon
                  exact hsrc cc (List.mem_cons_of_mem c (List.getElem?_mem hcs)) j hj hju
                    (by rw [hfr]; exact List.mem_cons_of_mem p (take_subset_self _ _ hcon))
                have hppn3 : (cc j).ppn ≠ p := by
                  intro he
                  exact hsrc cc (List.mem_cons_of_mem c (List.getElem?_mem hcs)) j hj hju
                    (by rw [hfr, he]; exact List.mem_cons_self _ _)
                rw [hmem1 ((cc j).ppn) hppn2]
                show (if (cc j).ppn = p then 0 else s.mem (cc j).ppn o) = s.mem (cc j).ppn o
                rw [if_neg hppn3]
            · exact hunusedp

lemma vpiGet_decomp (r : VRegion) (ci j : Nat) (hj : j < VPIPPAGE) (c : Chunk)
    (hc : r.pages[ci]? = some c) : vpiGet r (ci * VPIPPAGE + j) = c j := by
  unfold vpiGet
  have hdiv : (ci * VPIPPAGE + j) / VPIPPAGE = ci := by
    unfold VPIPPAGE at hj ⊢
    omega
  have hmod : (ci * VPIPPAGE + j) % VPIPPAGE = j := by
    unfold VPIPPAGE at hj ⊢
    omega
  rw [hdiv, hmod, hc]

/-- One region of `vspacecopy`'s loop (success): the free list shrinks to a
suffix, memory off the consumed prefix keeps its bytes, and every used
record of the source region reappears in the copied region with the same
flags and a fresh page from the consumed prefix holding the source page's
bytes. -/
lemma copyRegion_records {r : VRegion} {s : Sys} {l' : List Chunk} {s' : Sys}
    (h : copy_vpi_page r.pages s = (l', s', true))
    (hnd : s.free.Nodup)
    (hsrc : ∀ idx, (vpiGet r idx).used = true → (vpiGet r idx).ppn ∉ s.free) :
    ∃ k, s'.free = s.free.drop k ∧
      (∀ q, q ∉ s.free.take k → s'.mem q = s.mem q) ∧
      (∀ idx, (vpiGet r idx).used = true →
        (vpiGet { r with pages := l' } idx).used = true ∧
        (vpiGet { r with pages := l' } idx).present = (vpiGet r idx).present ∧
        (vpiGet { r with pages := l' } idx).writable = (vpiGet r idx).writable ∧
        (vpiGet { r with pages := l' } idx).ppn ∈ s.free.take k ∧
        (∀ o, s'.mem (vpiGet { r with pages := l' } idx).ppn o =
          s.mem (vpiGet r idx).ppn o)) := by
  have hsrc' : ∀ c ∈ r.pages, ∀ j, j < VPIPPAGE → (c j).used = true →
      (c j).ppn ∉ s.free := by
    intro c hcmem j hj hju
    obtain ⟨ci, hci, hcg⟩ := List.getElem_of_mem hcmem
    have hcq : r.pages[ci]? = some c := by
      rw [List.getElem?_eq_getElem hci, hcg]
    have he := vpiGet_decomp r ci j hj c hcq
    have h2 := hsrc (ci * VPIPPAGE + j)
    rw [he] at h2
    exact h2 hju
  obtain ⟨k, hfree, hmem, hlen, hrecs⟩ := copy_vpi_page_spec r.pages s l' s' h hnd hsrc'
  refine ⟨k, hfree, hmem, ?_⟩
  intro idx hused
  rcases hcq : r.pages[idx / VPIPPAGE]? with _ | cc
  · have hz : vpiGet r idx = VpageInfo.zero := by
      unfold vpiGet
      rw [hcq]
    rw [hz] at hused
    exact absurd hused (by decide)
  · have hsrcget : vpiGet r idx = cc (idx % VPIPPAGE) := by
      unfold vpiGet
      rw [hcq]
    obtain ⟨c2, hc2, hrec⟩ := hrecs (idx / VPIPPAGE) cc hcq
    obtain ⟨hup, -⟩ := hrec (idx % VPIPPAGE) (Nat.mod_lt _ (by decide))
    rw [hsrcget] at hused
    obtain ⟨p, hp1, hp2, hp3⟩ := hup hused
    have hdstget : vpiGet { r with pages := l' } idx = c2 (idx % VPIPPAGE) := by
      unfold vpiGet
      dsimp only
      rw [hc2]
    rw [hdstget, hsrcget, hp2]
    exact ⟨rfl, rfl, rfl, hp1, fun o => hp3 o⟩

/-- C6: after a successful `vspacecopy` the destination has the source's
region metadata verbatim; every used source record reappears with the same
flags, a physical page distinct from the source's, and a backing page whose
bytes equal the source page's; and the destination's hardware tree is the
result of a successful rebuild of the copied space.  The two hypotheses are
the allocator invariants: the free list holds no duplicates and no page
backing a mapped source record. -/
theorem c6_copy_correct (src : VSpaceT) (dstT : PTbl) (s : Sys) (vs1 : VSpaceT) (s1 : Sys)
    (hok : vspacecopy dstT src s = CR.ret 0 vs1 s1)
    (hnd : s.free.Nodup)
    (hsrc : ∀ i, i < 3 → ∀ idx, (vpiGet (getR src i) idx).used = true →
      (vpiGet (getR src i) idx).ppn ∉ s.free) :
    (∀ i, i < 3 → (getR vs1 i).va_base = (getR src i).va_base ∧
      (getR vs1 i).size = (getR src i).size ∧ (getR vs1 i).dir = (getR src i).dir) ∧
    (∀ i, i < 3 → ∀ idx, (vpiGet (getR src i) idx).used = true →
      (vpiGet (getR vs1 i) idx).used = true ∧
      (vpiGet (getR vs1 i) idx).present = (vpiGet (getR src i) idx).present ∧
      (vpiGet (getR vs1 i) idx).writable = (vpiGet (getR src i) idx).writable ∧
      (vpiGet (getR vs1 i) idx).ppn ≠ (vpiGet (getR src i) idx).ppn ∧
      (∀ o, s1.mem (vpiGet (getR vs1 i) idx).ppn o =
        s.mem (vpiGet (getR src i) idx).ppn o)) ∧
    (∃ vsC sC, vspaceupdate vsC sC = UR.ok vs1 s1) := by
  unfold vspacecopy copyRegion at hok
  dsimp only at hok
  rcases hcp : copy_vpi_page src.code.pages s with ⟨lc, sc, bc⟩
  rw [hcp] at hok
  dsimp only at hok
  rcases bc with _ | _
  · simp only [Bool.false_eq_true, if_neg, ite_false] at hok
    injection hok with h1 h2 h3
    exact absurd h1 (by decide)
  · simp only [if_pos] at hok
    rcases hhp : copy_vpi_page src.heap.pages sc with ⟨lh, sh, bh⟩
    rw [hhp] at hok
    dsimp only at hok
    rcases bh with _ | _
    · simp only [Bool.false_eq_true, if_neg, ite_false] at hok
      injection hok with h1 h2 h3
      exact absurd h1 (by decide)
    · simp only [if_pos] at hok
      rcases hup : copy_vpi_page src.ustack.pages sh with ⟨lu, su, bu⟩
      rw [hup] at hok
      dsimp only at hok
      rcases bu with _ | _
      · simp only [Bool.false_eq_true, if_neg, ite_false] at hok
        injection hok with h1 h2 h3
        exact absurd h1 (by decide)
      · simp only [if_pos] at hok
        rcases hupd : vspaceupdate
            ⟨(⟨src.code.va_base, src.code.size, src.code.dir, lc⟩ : VRegion), (⟨src.heap.va_base, src.heap.size, src.heap.dir, lh⟩ : VRegion),
              (⟨src.ustack.va_base, src.ustack.size, src.ustack.dir, lu⟩ : VRegion), dstT⟩ su with ⟨vsU, sU⟩ | f
        · rw [hupd] at hok
          dsimp only at hok
          injection hok with h1 h2 h3
          subst h2
          subst h3
          obtain ⟨k0, hfree0, hmem0, hrec0⟩ :=
            copyRegion_records (r := src.code) hcp hnd (hsrc 0 (by omega))
          have hndc : sc.free.Nodup := by
            rw [hfree0]
            exact List.Nodup.sublist (List.drop_sublist k0 s.free) hnd
          have hsrc1 : ∀ idx, (vpiGet src.heap idx).used = true →
              (vpiGet src.heap idx).ppn ∉ sc.free := by
            intro idx hu hc
            rw [hfree0] at hc
            exact hsrc 1 (by omega) idx hu (List.drop_subset k0 s.free hc)
          obtain ⟨k1, hfree1, hmem1, hrec1⟩ :=
            copyRegion_records (r := src.heap) hhp hndc hsrc1
          have hndh : sh.free.Nodup := by
            rw [hfree1]
            exact List.Nodup.sublist (List.drop_sublist k1 sc.free) hndc
          have hsrc2 : ∀ idx, (vpiGet src.ustack idx).used = true →
              (vpiGet src.ustack idx).ppn ∉ sh.free := by
            intro idx hu hc
            rw [hfree1] at hc
            have hc2 := List.drop_subset k1 sc.free hc
            rw [hfree0] at hc2
            exact hsrc 2 (by omega) idx hu (List.drop_subset k0 s.free hc2)
          obtain ⟨k2, hfree2, hmem2, hrec2⟩ :=
            copyRegion_records (r := src.ustack) hup hndh hsrc2
          obtain ⟨ureads, umeta, ⟨k3, hfree3⟩, hmem3⟩ := vspaceupdate_preserve hupd
          -- membership translations between the stage free lists
          have hsub1 : ∀ q : Nat, q ∈ sc.free → q ∈ s.free := by
            intro q hq
            rw [hfree0] at hq
            exact List.drop_subset k0 s.free hq
          have hsub2 : ∀ q : Nat, q ∈ sh.free → q ∈ s.free := by
            intro q hq
            rw [hfree1] at hq
            exact hsub1 q (List.drop_subset k1 sc.free hq)
          have hsub3 : ∀ q : Nat, q ∈ su.free → q ∈ s.free := by
            intro q hq
            rw [hfree2] at hq
            exact hsub2 q (List.drop_subset k2 sh.free hq)
          refine ⟨?_, ?_, ⟨_, su, hupd⟩⟩
          · intro i hi
            obtain ⟨m1, m2, m3⟩ := umeta i
            rw [m1, m2, m3]
            interval_cases i
            · exact ⟨rfl, rfl, rfl⟩
            · exact ⟨rfl, rfl, rfl⟩
            · exact ⟨rfl, rfl, rfl⟩
          · intro i hi idx hused
            have hread := ureads i idx
            -- the copied region record and its survival, per region
            interval_cases i
            · obtain ⟨r1, r2, r3, r4, r5⟩ := hrec0 idx hused
              have hppn : (vpiGet (⟨src.code.va_base, src.code.size, src.code.dir, lc⟩ : VRegion) idx).ppn ∈
                  s.free.take k0 := r4
              have hpfree : (vpiGet (⟨src.code.va_base, src.code.size, src.code.dir, lc⟩ : VRegion) idx).ppn ∈ s.free :=
                take_subset_self k0 s.free hppn
              have hs1 : (vpiGet (⟨src.code.va_base, src.code.size, src.code.dir, lc⟩ : VRegion) idx).ppn ∉ sc.free := by
                rw [hfree0]
                exact not_mem_drop_of_mem_take hnd hppn
              have hs2 : (vpiGet (⟨src.code.va_base, src.code.size, src.code.dir, lc⟩ : VRegion) idx).ppn ∉ sh.free := by
                intro hc
                rw [hfree1] at hc
                exact hs1 (List.drop_subset k1 sc.free hc)
              have hs3 : (vpiGet (⟨src.code.va_base, src.code.size, src.code.dir, lc⟩ : VRegion) idx).ppn ∉ su.free := by
                intro hc
                rw [hfree2] at hc
                exact hs2 (List.drop_subset k2 sh.free hc)
              have hb1 : sh.mem (vpiGet (⟨src.code.va_base, src.code.size, src.code.dir, lc⟩ : VRegion) idx).ppn =
                  sc.mem (vpiGet (⟨src.code.va_base, src.code.size, src.code.dir, lc⟩ : VRegion) idx).ppn := by
                apply hmem1
                intro hc
                exact hs1 (take_subset_self k1 sc.free hc)
              have hb2 : su.mem (vpiGet (⟨src.code.va_base, src.code.size, src.code.dir, lc⟩ : VRegion) idx).ppn =
                  sh.mem (vpiGet (⟨src.code.va_base, src.code.size, src.code.dir, lc⟩ : VRegion) idx).ppn := by
                apply hmem2
                intro hc
                exact hs2 (take_subset_self k2 sh.free hc)
              have hb3 : sU.mem (vpiGet (⟨src.code.va_base, src.code.size, src.code.dir, lc⟩ : VRegion) idx).ppn =
                  su.mem (vpiGet (⟨src.code.va_base, src.code.size, src.code.dir, lc⟩ : VRegion) idx).ppn :=
                hmem3 _ hs3
              rw [hread]
              norm_num [getR]
              refine ⟨r1, r2, r3, ?_, ?_⟩
              · intro he
                exact hsrc 0 (by omega) idx hused (he ▸ hpfree)
              · intro o
                rw [hb3, hb2, hb1]
                exact r5 o
            · obtain ⟨r1, r2, r3, r4, r5⟩ := hrec1 idx hused
              have hpfree : (vpiGet (⟨src.heap.va_base, src.heap.size, src.heap.dir, lh⟩ : VRegion) idx).ppn ∈ s.free :=
                hsub1 _ (take_subset_self k1 sc.free r4)
              have hs2 : (vpiGet (⟨src.heap.va_base, src.heap.size, src.heap.dir, lh⟩ : VRegion) idx).ppn ∉ sh.free := by
                rw [hfree1]
                exact not_mem_drop_of_mem_take hndc r4
              have hs3 : (vpiGet (⟨src.heap.va_base, src.heap.size, src.heap.dir, lh⟩ : VRegion) idx).ppn ∉ su.free := by
                intro hc
                rw [hfree2] at hc
                exact hs2 (List.drop_subset k2 sh.free hc)
              have hb2 : su.mem (vpiGet (⟨src.heap.va_base, src.heap.size, src.heap.dir, lh⟩ : VRegion) idx).ppn =
                  sh.mem (vpiGet (⟨src.heap.va_base, src.heap.size, src.heap.dir, lh⟩ : VRegion) idx).ppn := by
                apply hmem2
                intro hc
                exact hs2 (take_subset_self k2 sh.free hc)
              have hb3 : sU.mem (vpiGet (⟨src.heap.va_base, src.heap.size, src.heap.dir, lh⟩ : VRegion) idx).ppn =
                  su.mem (vpiGet (⟨src.heap.va_base, src.heap.size, src.heap.dir, lh⟩ : VRegion) idx).ppn :=
                hmem3 _ hs3
              have hsrcmem : sc.mem (vpiGet src.heap idx).ppn =
                  s.mem (vpiGet src.heap idx).ppn := by
                apply hmem0
                intro hc
                exact hsrc 1 (by omega) idx hused (take_subset_self k0 s.free hc)
              rw [hread]
              norm_num [getR]
              refine ⟨r1, r2, r3, ?_, ?_⟩
              · intro he
                exact hsrc 1 (by omega) idx hused (he ▸ hpfree)
              · intro o
                rw [hb3, hb2, r5 o, hsrcmem]
            · obtain ⟨r1, r2, r3, r4, r5⟩ := hrec2 idx hused
              have hpfree : (vpiGet (⟨src.ustack.va_base, src.ustack.size, src.ustack.dir, lu⟩ : VRegion) idx).ppn ∈ s.free :=
                hsub2 _ (take_subset_self k2 sh.free r4)
              have hs3 : (vpiGet (⟨src.ustack.va_base, src.ustack.size, src.ustack.dir, lu⟩ : VRegion) idx).ppn ∉ su.free := by
                rw [hfree2]
                exact not_mem_drop_of_mem_take hndh r4
              have hb3 : sU.mem (vpiGet (⟨src.ustack.va_base, src.ustack.size, src.ustack.dir, lu⟩ : VRegion) idx).ppn =
                  su.mem (vpiGet (⟨src.ustack.va_base, src.ustack.size, src.ustack.dir, lu⟩ : VRegion) idx).ppn :=
                hmem3 _ hs3
              have hsrcmem1 : sc.mem (vpiGet src.ustack idx).ppn =
                  s.mem (vpiGet src.ustack idx).ppn := by
                apply hmem0
                intro hc
                exact hsrc 2 (by omega) idx hused (take_subset_self k0 s.free hc)
              have hsrcmem2 : sh.mem (vpiGet src.ustack idx).ppn =
                  sc.mem (vpiGet src.ustack idx).ppn := by
                apply hmem1
                intro hc
                have hc2 := take_subset_self k1 sc.free hc
                rw [hfree0] at hc2
                exact hsrc 2 (by omega) idx hused (List.drop_subset k0 s.free hc2)
              rw [hread]
              norm_num [getR]
              refine ⟨r1, r2, r3, ?_, ?_⟩
              · intro he
                exact hsrc 2 (by omega) idx hused (he ▸ hpfree)
              · intro o
                rw [hb3, r5 o, hsrcmem2, hsrcmem1]
        · rw [hupd] at hok
          exact absurd hok (by simp)

lemma vpiGet_single (b sz : Nat) (d : VRDir) (v : VpageInfo) (idx : Nat) :
    vpiGet ⟨b, sz, d, [chunkSet zeroChunk 0 v]⟩ idx =
      if idx = 0 then v else VpageInfo.zero := by
  unfold vpiGet
  by_cases h255 : idx < VPIPPAGE
  · have hdiv : idx / VPIPPAGE = 0 := Nat.div_eq_of_lt h255
    have hmod : idx % VPIPPAGE = idx := Nat.mod_eq_of_lt h255
    rw [hdiv, hmod, List.getElem?_cons_zero]
    dsimp only
    unfold chunkSet zeroChunk
    rfl
  · have hge : 1 ≤ idx / VPIPPAGE := by
      unfold VPIPPAGE at h255 ⊢
      omega
    rw [List.getElem?_eq_none (by simpa using hge)]
    dsimp only
    rw [if_neg (by unfold VPIPPAGE at h255; omega)]

lemma vpiGet_nil (b sz : Nat) (d : VRDir) (idx : Nat) :
    vpiGet ⟨b, sz, d, []⟩ idx = VpageInfo.zero := by
  unfold vpiGet
  rw [List.getElem?_nil]

/-- Concrete source space for the copy witness: one mapped read-only code
page backed by physical page 42. -/
def c6wSrc : VSpaceT :=
  ⟨⟨0x10000, 0x1000, VRDir.up, [chunkSet zeroChunk 0 ⟨true, true, false, 42⟩]⟩,
   ⟨0x12000, 0, VRDir.up, []⟩,
   ⟨0x16000, 0, VRDir.down, []⟩,
   fun _ => none⟩

/-- Destination tree handle for the copy witness. -/
def c6wT : PTbl := fun _ => none

/-- Allocator state for the copy witness: two free pages, neither backing
the source. -/
def c6wSys : Sys := ⟨[3, 4], memZero⟩

/-- The allocator invariant at the copy witness input: no mapped source page
is on the free list. -/
lemma c6wSrc_inv : ∀ i, i < 3 → ∀ idx, (vpiGet (getR c6wSrc i) idx).used = true →
    (vpiGet (getR c6wSrc i) idx).ppn ∉ c6wSys.free := by
  intro i hi idx hu
  interval_cases i
  · have e : getR c6wSrc 0 =
        ⟨0x10000, 0x1000, VRDir.up, [chunkSet zeroChunk 0 ⟨true, true, false, 42⟩]⟩ := rfl
    rw [e] at hu ⊢
    rw [vpiGet_single] at hu ⊢
    by_cases h0 : idx = 0
    · rw [if_pos h0]
      decide
    · rw [if_neg h0] at hu
      exact absurd hu (by decide)
  · have e : getR c6wSrc 1 = ⟨0x12000, 0, VRDir.up, []⟩ := rfl
    rw [e] at hu
    rw [vpiGet_nil] at hu
    exact absurd hu (by decide)
  · have e : getR c6wSrc 2 = ⟨0x16000, 0, VRDir.down, []⟩ := rfl
    rw [e] at hu
    rw [vpiGet_nil] at hu
    exact absurd hu (by decide)

set_option maxRecDepth 10000 in
/-- Witness for C6: copying the one-page space succeeds; the copied code
page keeps the flags, sits on a different physical page than the source's,
and its bytes equal the source page's bytes. -/
theorem c6_copy_correct_witness :
    (vpiGet (getR ((vspacecopy c6wT c6wSrc c6wSys).vsOf) 0) 0).used = true ∧
    (vpiGet (getR ((vspacecopy c6wT c6wSrc c6wSys).vsOf) 0) 0).present =
      (vpiGet (getR c6wSrc 0) 0).present ∧
    (vpiGet (getR ((vspacecopy c6wT c6wSrc c6wSys).vsOf) 0) 0).writable =
      (vpiGet (getR c6wSrc 0) 0).writable ∧
    (vpiGet (getR ((vspacecopy c6wT c6wSrc c6wSys).vsOf) 0) 0).ppn ≠
      (vpiGet (getR c6wSrc 0) 0).ppn ∧
    (∀ o, ((vspacecopy c6wT c6wSrc c6wSys).sysOf).mem
        (vpiGet (getR ((vspacecopy c6wT c6wSrc c6wSys).vsOf) 0) 0).ppn o =
      c6wSys.mem (vpiGet (getR c6wSrc 0) 0).ppn o) :=
  (c6_copy_correct c6wSrc c6wT c6wSys ((vspacecopy c6wT c6wSrc c6wSys).vsOf)
      ((vspacecopy c6wT c6wSrc c6wSys).sysOf) rfl (by decide) c6wSrc_inv).2.1 0 (by decide)
    0 (by decide)

end VSpace
